import Mathlib

/-!
# Containment-field construction: a shallow embedding

The development follows the C++ sources `constants.h`, `geometry.h`,
`strategies.h` and `solver.h`.

Conventions of the embedding:

* `double` coordinates are exact rationals (every coordinate the program builds
  is an integer plus or minus one of the offsets 0.1, 0.2, 0.5);
* `long long` quantities are mathematical integers (signed 64-bit overflow is
  undefined behaviour and is outside the model);
* every conversion of a `long long` to `int` (map keys and map values declared
  `int`) is the explicit wrap-around `toInt32`;
* a `std::set` is the list of its elements in comparator order, a `std::map`
  is a key-unique association list (the program never observes the iteration
  order of a map);
* `std::sort` is an insertion sort: on the strips, which are pairwise
  inequivalent under their comparison, every sort gives this result; on crystals
  and mines of equal value it keeps the input order;
* a method that can throw returns an `Option`;
* the dedup guard of the best-N loop compares, in its second half, an iterator
  of the inner `std::set` with the end of the outer `std::map`; what that half
  tests is taken from §4.4 of the spec, "already recorded at an identical
  coordinate" (`isRecorded`);
* progress output on `std::cout` is not modelled.

The definitions come first (the program, then the notions used to state its
properties), the theorems follow.
-/

namespace Containment

/-! ## constants.h -/

namespace Constants

def COORD_MIN : ℚ := 0
def COORD_MAX : ℚ := 10000

/-- The value of `COORD_MAX` as the `int` loop bound of the sweep
`i <= COORD_MAX` and as the `int` end of the closing strip. -/
def COORD_MAX_INT : Nat := 10000

def BEST_N_POINTS : Nat := 165
def WORST_N_POINTS : Nat := 165
def STRIP_MAX_POLYGONS : Nat := 250

def STRIP_THRESHOLD_START : Int := 0
def STRIP_THRESHOLD_END : Int := -45000
def STRIP_THRESHOLD_STEP : Int := -1000

def EPSILON_1 : ℚ := 1 / 10
def EPSILON_2 : ℚ := 2 / 10
def EPSILON_3 : ℚ := 3 / 10
def EPSILON_5 : ℚ := 5 / 10

end Constants

/-! ## Machine integers -/

/-- Conversion of an integer to the 32-bit `int` (two's complement wrap). -/
def toInt32 (v : Int) : Int := (v + 2147483648) % 4294967296 - 2147483648

/-- The range of the 32-bit `int`. -/
def inInt32 (v : Int) : Prop := -2147483648 ≤ v ∧ v ≤ 2147483647

instance (v : Int) : Decidable (inInt32 v) := by unfold inInt32; infer_instance

/-! ## geometry.h -/

/-- A 2D point (`struct Point`). -/
structure Point where
  x : ℚ
  y : ℚ
deriving DecidableEq

/-- The comparison `Point::operator<`: lexicographic on (x, y). -/
def Point.lt (a b : Point) : Bool :=
  if a.x ≠ b.x then decide (a.x < b.x) else decide (a.y < b.y)

/-- An edge (`struct Edge`); values are built with `Edge.new`. -/
structure Edge where
  p1 : Point
  p2 : Point
deriving DecidableEq

/-- The constructor `Edge(Point a, Point b)`: swap when `b < a`. -/
def Edge.new (a b : Point) : Edge :=
  if b.lt a then { p1 := b, p2 := a } else { p1 := a, p2 := b }

/-- The comparison `Edge::operator<`. -/
def Edge.lt (e other : Edge) : Bool :=
  if e.p1.lt other.p1 then true
  else if other.p1.lt e.p1 then false
  else e.p2.lt other.p2

/-- The operation `std::set<T>::insert(x)` on the in-order element list of the
set: `x` goes to its place in the order unless an equivalent element (neither
less than the other) is already there. -/
def setInsert {α : Type} (lt : α → α → Bool) (x : α) : List α → List α
  | [] => [x]
  | y :: ys =>
    if lt x y then x :: y :: ys
    else if lt y x then y :: setInsert lt x ys
    else y :: ys

/-- The sentinel `-1e18` of a default-constructed polygon. -/
def SENTINEL : Int := -1000000000000000000

/-- A solution (`struct Polygon`): a score and a `std::set<Edge>`. -/
structure Polygon where
  score : Int
  edges : List Edge
deriving DecidableEq

/-- The default-constructed `Polygon()`. -/
def Polygon.default : Polygon := { score := SENTINEL, edges := [] }

/-- The statement `poly.edges.insert(e)`. -/
def Polygon.insertEdge (p : Polygon) (e : Edge) : Polygon :=
  { p with edges := setInsert Edge.lt e p.edges }

/-- The method `Polygon::getVertexCount`. -/
def Polygon.getVertexCount (p : Polygon) : Nat :=
  (p.edges.foldl (fun vertices edge =>
      setInsert Point.lt edge.p2 (setInsert Point.lt edge.p1 vertices)) []).length

/-- An input record (`struct Node`): crystals and mines. -/
structure Node where
  x : Int
  y : Int
  val : Int
deriving DecidableEq

/-! ## std::map -/

/-- The statement `m[k] += v` on a `std::map<K, int>`: a missing key starts
from the value-initialised 0, and the `long long` sum is stored as `int`. -/
def mapAdd {κ : Type} [DecidableEq κ] (k : κ) (v : Int) : List (κ × Int) → List (κ × Int)
  | [] => [(k, toInt32 (0 + v))]
  | (k', w) :: rest =>
    if k' = k then (k', toInt32 (w + v)) :: rest else (k', w) :: mapAdd k v rest

/-- The lookup `m.at(k)`; `none` stands for the `std::out_of_range` exception. -/
def mapAt {κ ν : Type} [DecidableEq κ] (k : κ) : List (κ × ν) → Option ν
  | [] => none
  | (k', w) :: rest => if k' = k then some w else mapAt k rest

/-- The read `m[k]` of a `std::map<K, int>`: 0 for a missing key. -/
def mapGet {κ : Type} [DecidableEq κ] (m : List (κ × Int)) (k : κ) : Int :=
  (mapAt k m).getD 0

/-! ## strategies.h: ProblemContext -/

/-- The data of the problem instance (`class ProblemContext`). -/
structure ProblemContext where
  crystals : List Node
  mines : List Node
  point_values : List ((Int × Int) × Int)
  total_positive_val : Int
  total_negative_val : Int

/-- One iteration of either constructor loop: `point_values[{n.x, n.y}] += n.val`
and `total += n.val`. -/
def contextStep (acc : List ((Int × Int) × Int) × Int) (n : Node) :
    List ((Int × Int) × Int) × Int :=
  (mapAdd (toInt32 n.x, toInt32 n.y) n.val acc.1, acc.2 + n.val)

/-- The constructor `ProblemContext(c, m)`. -/
def ProblemContext.new (c m : List Node) : ProblemContext :=
  let afterCrystals := c.foldl contextStep ([], 0)
  let afterMines := m.foldl contextStep (afterCrystals.1, 0)
  { crystals := c
    mines := m
    point_values := afterMines.1
    total_positive_val := afterCrystals.2
    total_negative_val := afterMines.2 }

/-- The abstract base class `OptimizationStrategy`; `solve` returns `none`
when the C++ method throws. -/
structure OptimizationStrategy where
  solve : ProblemContext → Option Polygon
  getName : String

/-! ## strategies.h: StripStrategy -/

inductive Axis where
  | X
  | Y
deriving DecidableEq

/-- The expression `axis == Axis::X ? n.x : n.y`. -/
def Axis.coord (axis : Axis) (n : Node) : Int :=
  match axis with
  | .X => n.x
  | .Y => n.y

/-- The map `strip_scores` after its two filling loops. -/
def stripScores (axis : Axis) (ctx : ProblemContext) : List (Int × Int) :=
  let afterCrystals :=
    ctx.crystals.foldl (fun m crystal => mapAdd (toInt32 (axis.coord crystal)) crystal.val m) []
  ctx.mines.foldl (fun m mine => mapAdd (toInt32 (axis.coord mine)) mine.val m) afterCrystals

/-- An element of `valuable_strips`: `{score, {start, end}}`. -/
abbrev Strip := Int × (Int × Int)

/-- The local variables of the coordinate sweep. -/
structure SweepState where
  valuable_strips : List Strip
  current_score : Int
  strip_start : Int
deriving DecidableEq

/-- The body of the coordinate sweep `for (int i = 0; i <= COORD_MAX; ++i)`. -/
def sweepStep (strip_scores : List (Int × Int)) (threshold : Int)
    (st : SweepState) (i : Nat) : SweepState :=
  if mapGet strip_scores (i : Int) ≥ threshold then
    { st with current_score := st.current_score + mapGet strip_scores (i : Int) }
  else
    { valuable_strips :=
        if st.current_score > 0 then
          st.valuable_strips ++ [(st.current_score, (st.strip_start, (i : Int) - 1))]
        else st.valuable_strips
      current_score := 0
      strip_start := (i : Int) + 1 }

/-- The sweep over the coordinates `0 .. n`, from the initial state. -/
def sweepLoop (strip_scores : List (Int × Int)) (threshold : Int) (n : Nat) : SweepState :=
  (List.range (n + 1)).foldl (sweepStep strip_scores threshold)
    { valuable_strips := [], current_score := 0, strip_start := 0 }

/-- The closing `if (current_score > 0) push_back(...)` after a sweep over `0 .. n`. -/
def sweepClose (n : Nat) (st : SweepState) : List Strip :=
  if st.current_score > 0 then
    st.valuable_strips ++ [(st.current_score, (st.strip_start, (n : Int)))]
  else st.valuable_strips

/-- The vector `valuable_strips` before sorting. -/
def sweep (strip_scores : List (Int × Int)) (threshold : Int) : List Strip :=
  sweepClose Constants.COORD_MAX_INT (sweepLoop strip_scores threshold Constants.COORD_MAX_INT)

/-- The comparison `operator<` of `std::pair<int, int>`. -/
def pairLt (a b : Int × Int) : Bool :=
  decide (a.1 < b.1) || (!decide (b.1 < a.1) && decide (a.2 < b.2))

/-- The comparison `operator<` of `std::pair<long long, std::pair<int, int>>`. -/
def stripLt (a b : Strip) : Bool :=
  decide (a.1 < b.1) || (!decide (b.1 < a.1) && pairLt a.2 b.2)

/-- The call `std::sort(valuable_strips.rbegin(), valuable_strips.rend())`:
the vector ends in descending order of `operator<`. -/
def sortStripsDesc (l : List Strip) : List Strip :=
  l.insertionSort (fun a b => stripLt a b = false)

/-- The four edges inserted for one strip. -/
def bandEdges (axis : Axis) (s : Strip) : List Edge :=
  let start : ℚ := (s.2.1 : ℚ)
  let end0 : ℚ := (s.2.2 : ℚ)
  let end1 : ℚ := if start = end0 then end0 + Constants.EPSILON_5 else end0
  match axis with
  | .X =>
    [ Edge.new ⟨start, 0⟩ ⟨start, Constants.COORD_MAX⟩,
      Edge.new ⟨end1, 0⟩ ⟨end1, Constants.COORD_MAX⟩,
      Edge.new ⟨start, 0⟩ ⟨end1, 0⟩,
      Edge.new ⟨start, Constants.COORD_MAX⟩ ⟨end1, Constants.COORD_MAX⟩ ]
  | .Y =>
    [ Edge.new ⟨0, start⟩ ⟨Constants.COORD_MAX, start⟩,
      Edge.new ⟨0, end1⟩ ⟨Constants.COORD_MAX, end1⟩,
      Edge.new ⟨0, start⟩ ⟨0, end1⟩,
      Edge.new ⟨Constants.COORD_MAX, start⟩ ⟨Constants.COORD_MAX, end1⟩ ]

/-- The body of the selection loop past its `break`: add the score, insert the band. -/
def addBand (axis : Axis) (p : Polygon) (s : Strip) : Polygon :=
  (bandEdges axis s).foldl Polygon.insertEdge { p with score := p.score + s.1 }

/-- The selection loop over the (already truncated) sorted strips, with its
`break` at the first strip of score `<= 0`. -/
def takeStrips (axis : Axis) : List Strip → Polygon → Polygon
  | [], p => p
  | s :: rest, p => if s.1 ≤ 0 then p else takeStrips axis rest (addBand axis p s)

/-- The polygon `current_polygon` built for one threshold. -/
def stripPolygon (axis : Axis) (ctx : ProblemContext) (threshold : Int) : Polygon :=
  let valuable_strips := sortStripsDesc (sweep (stripScores axis ctx) threshold)
  takeStrips axis (valuable_strips.take Constants.STRIP_MAX_POLYGONS) { score := 0, edges := [] }

/-- The thresholds visited by
`for (threshold = START; threshold >= END; threshold += STEP)`. -/
def thresholds : List Int :=
  (List.range 46).map
    (fun (k : Nat) => Constants.STRIP_THRESHOLD_START + Constants.STRIP_THRESHOLD_STEP * (k : Int))

/-- The comparison-and-assignment `if (current.score > best.score) best = current`. -/
def keepBest (best current : Polygon) : Polygon :=
  if current.score > best.score then current else best

/-- The method `StripStrategy::solve`. -/
def StripStrategy.solve (axis : Axis) (ctx : ProblemContext) : Polygon :=
  thresholds.foldl (fun best threshold => keepBest best (stripPolygon axis ctx threshold))
    Polygon.default

/-- The class `StripStrategy`. -/
def StripStrategy (axis : Axis) : OptimizationStrategy :=
  { solve := fun ctx => some (StripStrategy.solve axis ctx)
    getName := match axis with
      | .X => "StripStrategyX"
      | .Y => "StripStrategyY" }

/-! ## strategies.h: BestNPointsStrategy -/

/-- The call `std::sort(rbegin, rend, a.val < b.val)`: descending by value.
Crystals of equal value keep their input order, the outcome the specification
prescribes among those `std::sort` allows. -/
def sortCrystalsDesc (l : List Node) : List Node :=
  l.insertionSort (fun a b => b.val ≤ a.val)

/-- The lookup `s.find(x) != s.end()` on a `std::set`. -/
def setFind {α : Type} (lt : α → α → Bool) (x : α) (s : List α) : Bool :=
  s.any (fun y => !lt x y && !lt y x)

/-- The statement `points_to_enclose[k].insert(p)`. -/
def mapSetInsert (k : Int) (p : Int × Int) :
    List (Int × List (Int × Int)) → List (Int × List (Int × Int))
  | [] => [(k, setInsert pairLt p [])]
  | (k', s) :: rest =>
    if k' = k then (k', setInsert pairLt p s) :: rest else (k', s) :: mapSetInsert k p rest

/-- Modelled from the spec: the test "already recorded at an identical
coordinate" of §4.4 ("take up to 165, skipping ones already recorded at an
identical coordinate (dedup by coordinate, not by value)"): the key `x` is
present and its set holds `(x, y)`.  The guard of the selection loop is its
negation.  In the source the guard is
`points_to_enclose.find(crystal.x) == points_to_enclose.end() ||
 points_to_enclose[crystal.x].find({crystal.x, crystal.y}) == points_to_enclose.end()`;
its first comparison is the absence of the key `x`, and its second comparison
sets an iterator of the inner `std::set` against the end of the outer
`std::map`, which has no meaning of its own in the source: what it tests is
taken from the spec, the absence of `(x, y)` from the set of `x`. -/
def isRecorded (points_to_enclose : List (Int × List (Int × Int))) (x y : Int) : Bool :=
  match mapAt x points_to_enclose with
  | none => false
  | some s => setFind pairLt (x, y) s

/-- The local variables of the selection loop of `BestNPointsStrategy::solve`. -/
structure BestState where
  points_to_enclose : List (Int × List (Int × Int))
  score : Int
  count : Nat
  min_x : ℚ
  max_x : ℚ
deriving DecidableEq

/-- The selection loop `for (crystal : sorted_crystals)`; `none` when
`point_values.at` throws. -/
def bestLoop (ctx : ProblemContext) : List Node → BestState → Option BestState
  | [], st => some st
  | crystal :: rest, st =>
    if st.count ≥ Constants.BEST_N_POINTS then some st
    else if isRecorded st.points_to_enclose (toInt32 crystal.x) (toInt32 crystal.y) then
      bestLoop ctx rest st
    else
      match mapAt (toInt32 crystal.x, toInt32 crystal.y) ctx.point_values with
      | none => none
      | some v =>
        bestLoop ctx rest
          { points_to_enclose :=
              mapSetInsert (toInt32 crystal.x) (toInt32 crystal.x, toInt32 crystal.y)
                st.points_to_enclose
            score := st.score + v
            count := st.count + 1
            min_x := min st.min_x (crystal.x : ℚ)
            max_x := max st.max_x (crystal.x : ℚ) }

/-- The initial values of the local variables of the selection loop. -/
def BestState.initial : BestState :=
  { points_to_enclose := [], score := 0, count := 0,
    min_x := Constants.COORD_MAX, max_x := Constants.COORD_MIN }

/-- The loop computing `(min_y, max_y)` over all recorded points. -/
def yBounds (points_to_enclose : List (Int × List (Int × Int))) : ℚ × ℚ :=
  points_to_enclose.foldl
    (fun acc p_set => p_set.2.foldl
      (fun acc p => (min acc.1 (p.2 : ℚ), max acc.2 (p.2 : ℚ))) acc)
    (Constants.COORD_MAX, Constants.COORD_MIN)

/-- The four edges of the rectangle with corners `(x1, y1)` and `(x2, y2)`, in
the order in which both point strategies insert them. -/
def rectEdges (x1 y1 x2 y2 : ℚ) : List Edge :=
  [ Edge.new ⟨x1, y1⟩ ⟨x2, y1⟩,
    Edge.new ⟨x2, y1⟩ ⟨x2, y2⟩,
    Edge.new ⟨x2, y2⟩ ⟨x1, y2⟩,
    Edge.new ⟨x1, y2⟩ ⟨x1, y1⟩ ]

/-- The method `BestNPointsStrategy::solve`. -/
def BestNPointsStrategy.solve (ctx : ProblemContext) : Option Polygon :=
  match bestLoop ctx (sortCrystalsDesc ctx.crystals) BestState.initial with
  | none => none
  | some st =>
    let yb := yBounds st.points_to_enclose
    if st.points_to_enclose.isEmpty then some Polygon.default
    else
      let x1 := st.min_x - Constants.EPSILON_2
      let x2 := st.max_x + Constants.EPSILON_2
      let y1 := yb.1 - Constants.EPSILON_2
      let y2 := yb.2 + Constants.EPSILON_2
      some ((rectEdges x1 y1 x2 y2).foldl Polygon.insertEdge { score := st.score, edges := [] })

/-- The class `BestNPointsStrategy`. -/
def BestNPointsStrategy : OptimizationStrategy :=
  { solve := BestNPointsStrategy.solve, getName := "BestNPointsStrategy" }

/-! ## strategies.h: WorstNPointsStrategy -/

/-- The call `std::sort(begin, end, a.val < b.val)`: ascending by value (mines
of equal value keep their input order). -/
def sortMinesAsc (l : List Node) : List Node :=
  l.insertionSort (fun a b => a.val ≤ b.val)

/-- The outer bounding box `(x1, y1, x2, y2)` of `WorstNPointsStrategy::solve`. -/
def outerBox : ℚ × ℚ × ℚ × ℚ :=
  ( Constants.COORD_MIN + Constants.EPSILON_1,
    Constants.COORD_MIN + Constants.EPSILON_1,
    Constants.COORD_MAX - Constants.EPSILON_1,
    Constants.COORD_MAX - Constants.EPSILON_1 )

/-- The body of the carving loop: give back the mine's value, insert its hole. -/
def carve (poly : Polygon) (mine : Node) : Polygon :=
  let mx1 := (mine.x : ℚ) - Constants.EPSILON_2
  let my1 := (mine.y : ℚ) - Constants.EPSILON_2
  let mx2 := (mine.x : ℚ) + Constants.EPSILON_2
  let my2 := (mine.y : ℚ) + Constants.EPSILON_2
  (rectEdges mx1 my1 mx2 my2).foldl Polygon.insertEdge { poly with score := poly.score - mine.val }

/-- The method `WorstNPointsStrategy::solve`. -/
def WorstNPointsStrategy.solve (ctx : ProblemContext) : Polygon :=
  let sorted_mines := sortMinesAsc ctx.mines
  let poly : Polygon :=
    (rectEdges outerBox.1 outerBox.2.1 outerBox.2.2.1 outerBox.2.2.2).foldl Polygon.insertEdge
      { score := ctx.total_positive_val + ctx.total_negative_val, edges := [] }
  (sorted_mines.take (min sorted_mines.length Constants.WORST_N_POINTS)).foldl carve poly

/-- The class `WorstNPointsStrategy`. -/
def WorstNPointsStrategy : OptimizationStrategy :=
  { solve := fun ctx => some (WorstNPointsStrategy.solve ctx), getName := "WorstNPointsStrategy" }

/-! ## solver.h -/

/-- The class `Solver`: the context and the registered strategies. -/
structure Solver where
  context : ProblemContext
  strategies : List OptimizationStrategy

/-- The constructor `Solver(crystals, mines)`. -/
def Solver.new (crystals mines : List Node) : Solver :=
  { context := ProblemContext.new crystals mines
    strategies :=
      [StripStrategy Axis.X, StripStrategy Axis.Y, BestNPointsStrategy, WorstNPointsStrategy] }

/-- The loop of `Solver::run` over the remaining strategies; `none` when a
strategy throws. -/
def runLoop (ctx : ProblemContext) : List OptimizationStrategy → Polygon → Option Polygon
  | [], best_polygon => some best_polygon
  | strategy :: rest, best_polygon =>
    match strategy.solve ctx with
    | none => none
    | some current_polygon => runLoop ctx rest (keepBest best_polygon current_polygon)

/-- The method `Solver::run`. -/
def Solver.run (s : Solver) : Option Polygon :=
  runLoop s.context s.strategies Polygon.default

/-! ## Specification-level notions -/

/-- The polygon `r` is the element of index `i` of `ps`, its score is the
maximum of the scores in `ps`, and no element before it reaches that score. -/
def IsFirstMax (ps : List Polygon) (i : Nat) (r : Polygon) : Prop :=
  ps[i]? = some r ∧ (∀ p ∈ ps, p.score ≤ r.score) ∧
    (∀ j p, j < i → ps[j]? = some p → p.score < r.score)

/-- A strategy that returns the given polygon whatever the context. -/
def constStrategy (p : Polygon) : OptimizationStrategy :=
  { solve := fun _ => some p, getName := "const" }

/-- The key of `point_values` under which a node is accumulated. -/
def Node.key (n : Node) : Int × Int := (toInt32 n.x, toInt32 n.y)

/-- The sum of the values of the nodes of `l` accumulated under key `k`. -/
def netAt (k : Int × Int) (l : List Node) : Int :=
  ((l.filter (fun n => n.key = k)).map Node.val).sum

/-- The sum of the values of the nodes of `l` located at the coordinate `(x, y)`. -/
def valueAt (x y : Int) (l : List Node) : Int :=
  ((l.filter (fun n => n.x = x ∧ n.y = y)).map Node.val).sum

/-- The sum of the values of a list of nodes. -/
def totalValue (l : List Node) : Int := (l.map Node.val).sum

/-- Two crystals at (1, 1), each of value 2^30. -/
def overflowCrystals : List Node := [⟨1, 1, 1073741824⟩, ⟨1, 1, 1073741824⟩]

/-- The crystals of the aggregation example: (1, 1, 10) and (1, 1, 5). -/
def exampleCrystals : List Node := [⟨1, 1, 10⟩, ⟨1, 1, 5⟩]

/-- The membership test of `points_to_enclose`: `(x, y)` is one of the
coordinates selected by the best-N loop in state `st`. -/
def BestState.selected (st : BestState) (x y : Int) : Prop :=
  isRecorded st.points_to_enclose x y = true

instance (st : BestState) (x y : Int) : Decidable (st.selected x y) := by
  unfold BestState.selected; infer_instance

/-- The elements of a list, each kept at its first occurrence only. -/
def firstOccurrences {α : Type} [DecidableEq α] : List α → List α
  | [] => []
  | a :: l => a :: (firstOccurrences l).filter (fun b => b ≠ a)

/-- The sum of the `k` smallest entries of a list of integers. -/
def smallestSum (k : Nat) (vals : List Int) : Int :=
  ((vals.insertionSort (fun a b => a ≤ b)).take k).sum

/-- One crystal and two mines (values already negated). -/
def smallCrystals : List Node := [⟨0, 0, 5⟩]

/-- The two mines going with `smallCrystals`. -/
def smallMines : List Node := [⟨3, 3, -7⟩, ⟨4, 4, -2⟩]

/-- The node lies in the closed rectangle `(x1, y1, x2, y2)`. -/
def insideBox (box : ℚ × ℚ × ℚ × ℚ) (n : Node) : Prop :=
  box.1 ≤ (n.x : ℚ) ∧ (n.x : ℚ) ≤ box.2.2.1 ∧ box.2.1 ≤ (n.y : ℚ) ∧ (n.y : ℚ) ≤ box.2.2.2

instance (box : ℚ × ℚ × ℚ × ℚ) (n : Node) : Decidable (insideBox box n) := by
  unfold insideBox; infer_instance

/-- Both coordinates of the node are in the coordinate space [0, 10000]. -/
def inCoordSpace (n : Node) : Prop :=
  0 ≤ n.x ∧ n.x ≤ 10000 ∧ 0 ≤ n.y ∧ n.y ≤ 10000

instance (n : Node) : Decidable (inCoordSpace n) := by
  unfold inCoordSpace; infer_instance

/-- The sum of the `k` largest entries of a list of integers. -/
def largestSum (k : Nat) (vals : List Int) : Int :=
  ((vals.insertionSort (fun a b => b ≤ a)).take k).sum

/-- The comparison is a strict total order whose equivalence is equality: what
`std::set` requires of its comparator. -/
structure IsSetOrder {α : Type} (lt : α → α → Bool) : Prop where
  irrefl : ∀ a, lt a a = false
  trans : ∀ a b c, lt a b = true → lt b c = true → lt a c = true
  total : ∀ a b, lt a b = false → lt b a = false → a = b

/-- The endpoints of the edges of a list, with repetitions. -/
def endpoints : List Edge → List Point
  | [] => []
  | e :: es => e.p1 :: e.p2 :: endpoints es

/-- All the pairs held by the sets of `points_to_enclose`, in iteration order. -/
def recordedPoints : List (Int × List (Int × Int)) → List (Int × Int)
  | [] => []
  | p_set :: rest => p_set.2 ++ recordedPoints rest

/-- The single crystal of the end-to-end example: (100, 100, 50). -/
def singleCrystal : List Node := [⟨100, 100, 50⟩]

/-- The invariant of the best-N selection loop on inputs in the coordinate
space: the recorded pairs are the selected coordinates, they lie in the
coordinate space between `min_x` and `max_x`, and each of `min_x`, `max_x` is
its initial value or the abscissa of a recorded pair. -/
def BestInv (st : BestState) : Prop :=
  (∀ q : Int × Int, q ∈ recordedPoints st.points_to_enclose ↔
    isRecorded st.points_to_enclose q.1 q.2 = true) ∧
  (∀ q ∈ recordedPoints st.points_to_enclose,
    st.min_x ≤ (q.1 : ℚ) ∧ (q.1 : ℚ) ≤ st.max_x ∧
      0 ≤ q.1 ∧ q.1 ≤ 10000 ∧ 0 ≤ q.2 ∧ q.2 ≤ 10000) ∧
  (st.min_x = 10000 ∨ ∃ q ∈ recordedPoints st.points_to_enclose, (q.1 : ℚ) = st.min_x) ∧
  (st.max_x = 0 ∨ ∃ q ∈ recordedPoints st.points_to_enclose, (q.1 : ℚ) = st.max_x)

/-- The component of a coordinate pair along the axis. -/
def Axis.keyCoord (axis : Axis) (k : Int × Int) : Int :=
  match axis with
  | .X => k.1
  | .Y => k.2

/-- The sum of the entries of `point_values` over the coordinate pairs whose
component along the axis is `c` (0 when there is none). -/
def entriesSum (axis : Axis) (c : Int) (point_values : List ((Int × Int) × Int)) : Int :=
  ((point_values.filter (fun e => axis.keyCoord e.1 = c)).map Prod.snd).sum

/-- The sum of the values of the nodes of `l` accumulated under the strip key `c`. -/
def stripNet (axis : Axis) (c : Int) (l : List Node) : Int :=
  ((l.filter (fun n => toInt32 (axis.coord n) = c)).map Node.val).sum

/-- Two crystals of value 2^30 with the same abscissa 1 and different ordinates. -/
def columnCrystals : List Node := [⟨1, 1, 1073741824⟩, ⟨1, 2, 1073741824⟩]

/-- The sum of the strip values over the coordinates `s, s + 1, ..., e`. -/
def intervalSum (strip_scores : List (Int × Int)) (s e : Int) : Int :=
  ((List.range (e + 1 - s).toNat).map (fun (k : Nat) => mapGet strip_scores (s + (k : Int)))).sum

/-- The invariant of the coordinate sweep after coordinate `n`: the open strip
starts in `[0, n + 1]` and `current_score` is the sum of the values from its
start to `n`; every recorded strip is a non-empty interval of non-negative
coordinates, ends at least two coordinates before the open strip starts, and
carries the sum of the values over its interval; the recorded strips come in
increasing order, each at least two coordinates after the one before. -/
def SweepInv (strip_scores : List (Int × Int)) (n : Int) (st : SweepState) : Prop :=
  0 ≤ st.strip_start ∧ st.strip_start ≤ n + 1 ∧
  st.current_score = intervalSum strip_scores st.strip_start n ∧
  (∀ x ∈ st.valuable_strips,
    0 ≤ x.2.1 ∧ x.2.1 ≤ x.2.2 ∧ x.2.2 + 2 ≤ st.strip_start ∧
      x.1 = intervalSum strip_scores x.2.1 x.2.2) ∧
  st.valuable_strips.Pairwise (fun a b => a.2.2 + 2 ≤ b.2.1)

/-- The band `(start, end)` emitted for a strip: a single-coordinate strip is
widened by `EPSILON_5`. -/
def bandInterval (s : Strip) : ℚ × ℚ :=
  ((s.2.1 : ℚ),
    if (s.2.1 : ℚ) = (s.2.2 : ℚ) then (s.2.2 : ℚ) + Constants.EPSILON_5 else (s.2.2 : ℚ))

/-- The four corners of the band of a strip. -/
def bandVertices (axis : Axis) (s : Strip) : List Point :=
  match axis with
  | .X =>
    [ ⟨(bandInterval s).1, 0⟩, ⟨(bandInterval s).1, Constants.COORD_MAX⟩,
      ⟨(bandInterval s).2, 0⟩, ⟨(bandInterval s).2, Constants.COORD_MAX⟩ ]
  | .Y =>
    [ ⟨0, (bandInterval s).1⟩, ⟨Constants.COORD_MAX, (bandInterval s).1⟩,
      ⟨0, (bandInterval s).2⟩, ⟨Constants.COORD_MAX, (bandInterval s).2⟩ ]

/-- The band edges of a list of strips, in insertion order. -/
def allBandEdges (axis : Axis) : List Strip → List Edge
  | [] => []
  | s :: rest => bandEdges axis s ++ allBandEdges axis rest

/-- The band corners of a list of strips. -/
def allBandVertices (axis : Axis) : List Strip → List Point
  | [] => []
  | s :: rest => bandVertices axis s ++ allBandVertices axis rest

/-- The coordinate of a point along the axis. -/
def Axis.pointCoord (axis : Axis) (p : Point) : ℚ :=
  match axis with
  | .X => p.x
  | .Y => p.y

/-- The sum of the values of the nodes of `l` whose coordinate along the axis is `c`. -/
def axisSum (axis : Axis) (c : Int) (l : List Node) : Int :=
  ((l.filter (fun n => axis.coord n = c)).map Node.val).sum

/-- The node lies, along the axis, in the interval `[start, end]` of one of the strips. -/
def inStrips (axis : Axis) (strips : List Strip) (n : Node) : Bool :=
  strips.any (fun s => decide (s.2.1 ≤ axis.coord n ∧ axis.coord n ≤ s.2.2))

/-- The sum of the values of the nodes of `l` lying in one of the strips. -/
def enclosedValue (axis : Axis) (strips : List Strip) (l : List Node) : Int :=
  ((l.filter (inStrips axis strips)).map Node.val).sum

/-- Three crystals of abscissa 5 whose values, each within the int range, sum
to 2^32 + 1. -/
def wrapCrystals : List Node := [⟨5, 0, 2147483647⟩, ⟨5, 1, 2147483647⟩, ⟨5, 2, 3⟩]

/-- Both coordinates of the point are within `[lo, hi]`. -/
def pointWithin (lo hi : ℚ) (p : Point) : Prop :=
  lo ≤ p.x ∧ p.x ≤ hi ∧ lo ≤ p.y ∧ p.y ≤ hi

instance (lo hi : ℚ) (p : Point) : Decidable (pointWithin lo hi p) := by
  unfold pointWithin; infer_instance

/-- Every endpoint of every edge of the polygon has both coordinates within
`[lo, hi]`. -/
def edgesWithin (lo hi : ℚ) (p : Polygon) : Prop :=
  ∀ e ∈ p.edges, pointWithin lo hi e.p1 ∧ pointWithin lo hi e.p2

/-- Both coordinates of the node are in `[1, 9999]`. -/
def inInterior (n : Node) : Prop :=
  1 ≤ n.x ∧ n.x ≤ 9999 ∧ 1 ≤ n.y ∧ n.y ≤ 9999

instance (n : Node) : Decidable (inInterior n) := by
  unfold inInterior; infer_instance

instance (lo hi : ℚ) (p : Polygon) : Decidable (edgesWithin lo hi p) := by
  unfold edgesWithin; infer_instance

/-- One crystal in the corner (0, 0) of the coordinate space. -/
def cornerCrystal : List Node := [⟨0, 0, 5⟩]

/-- The four sides of the rectangle that spans the band of a strip across the
full perpendicular extent [0, 10000], each written with its lexicographically
smaller endpoint first: the two sides along the bounds of the band, then the
two sides that close it on the border of the coordinate space. -/
def bandSides (axis : Axis) (s : Strip) : List Edge :=
  match axis with
  | .X =>
    [ { p1 := ⟨(bandInterval s).1, 0⟩, p2 := ⟨(bandInterval s).1, 10000⟩ },
      { p1 := ⟨(bandInterval s).2, 0⟩, p2 := ⟨(bandInterval s).2, 10000⟩ },
      { p1 := ⟨(bandInterval s).1, 0⟩, p2 := ⟨(bandInterval s).2, 0⟩ },
      { p1 := ⟨(bandInterval s).1, 10000⟩, p2 := ⟨(bandInterval s).2, 10000⟩ } ]
  | .Y =>
    [ { p1 := ⟨0, (bandInterval s).1⟩, p2 := ⟨10000, (bandInterval s).1⟩ },
      { p1 := ⟨0, (bandInterval s).2⟩, p2 := ⟨10000, (bandInterval s).2⟩ },
      { p1 := ⟨0, (bandInterval s).1⟩, p2 := ⟨0, (bandInterval s).2⟩ },
      { p1 := ⟨10000, (bandInterval s).1⟩, p2 := ⟨10000, (bandInterval s).2⟩ } ]

/-- Two crystals, of values 5 and 7, at the abscissae 0 and 2. -/
def gapCrystals : List Node := [⟨0, 0, 5⟩, ⟨2, 0, 7⟩]

/-- One mine, of value -1, at the abscissa 1 between the crystals of
`gapCrystals`. -/
def gapMines : List Node := [⟨1, 0, -1⟩]

theorem pointLt_iff (a b : Point) :
    a.lt b = true ↔ a.x < b.x ∨ (a.x = b.x ∧ a.y < b.y) := by
  unfold Point.lt
  by_cases h : a.x = b.x
  · simp [h]
  · simp [h]

theorem pointLt_eq_false_iff (a b : Point) :
    a.lt b = false ↔ b.x < a.x ∨ (a.x = b.x ∧ b.y ≤ a.y) := by
  rw [← Bool.not_eq_true, pointLt_iff]
  constructor
  · intro h
    rcases lt_trichotomy a.x b.x with h1 | h1 | h1
    · exact absurd (Or.inl h1) h
    · right
      refine ⟨h1, ?_⟩
      by_contra h2
      exact h (Or.inr ⟨h1, lt_of_not_le h2⟩)
    · exact Or.inl h1
  · rintro (h | ⟨h1, h2⟩) (h3 | ⟨h3, h4⟩)
    · exact lt_asymm h h3
    · rw [h3] at h; exact lt_irrefl _ h
    · rw [h1] at h3; exact lt_irrefl _ h3
    · exact not_lt_of_le h2 h4

theorem pointLt_asymm (a b : Point) (h : a.lt b = true) : b.lt a = false := by
  rw [pointLt_iff] at h
  rw [pointLt_eq_false_iff]
  rcases h with h | ⟨h1, h2⟩
  · exact Or.inl h
  · exact Or.inr ⟨h1.symm, le_of_lt h2⟩

theorem pointLt_irrefl (a : Point) : a.lt a = false := by
  rw [pointLt_eq_false_iff]; exact Or.inr ⟨rfl, le_refl _⟩

theorem point_eq_of_not_lt (a b : Point) (h1 : a.lt b = false) (h2 : b.lt a = false) :
    a = b := by
  rw [pointLt_eq_false_iff] at h1 h2
  cases a with
  | mk ax ay =>
  cases b with
  | mk bx b2 =>
  simp only at h1 h2
  rcases h1 with h1 | ⟨h1, h1'⟩ <;> rcases h2 with h2 | ⟨h2, h2'⟩
  · exact absurd h1 (lt_asymm h2)
  · rw [h2] at h1; exact absurd h1 (lt_irrefl _)
  · rw [h1] at h2; exact absurd h2 (lt_irrefl _)
  · rw [h1, le_antisymm h2' h1']

theorem edgeNew_comm (a b : Point) : Edge.new a b = Edge.new b a := by
  unfold Edge.new
  cases hba : b.lt a <;> cases hab : a.lt b
  · have := point_eq_of_not_lt a b hab hba
    subst this; rfl
  · simp
  · simp
  · rw [pointLt_asymm a b hab] at hba; exact absurd hba (by simp)

theorem edgeNew_ordered (a b : Point) : (Edge.new a b).p2.lt (Edge.new a b).p1 = false := by
  unfold Edge.new
  cases hba : b.lt a
  · simpa using hba
  · simpa using pointLt_asymm b a hba

theorem edgeLt_irrefl (e : Edge) : e.lt e = false := by
  unfold Edge.lt; simp [pointLt_irrefl]

/-- C2 (edge canonicalization): the edges built from (A, B) and from (B, A)
have the same first and the same second endpoint, neither is less than the
other under the edge comparison, and in every constructed edge the second
endpoint is not less than the first.  The statement holds for all A and B,
in particular for A different from B. -/
theorem edge_canonicalization (A B : Point) :
    (Edge.new A B).p1 = (Edge.new B A).p1 ∧
    (Edge.new A B).p2 = (Edge.new B A).p2 ∧
    Edge.lt (Edge.new A B) (Edge.new B A) = false ∧
    Edge.lt (Edge.new B A) (Edge.new A B) = false ∧
    Point.lt (Edge.new A B).p2 (Edge.new A B).p1 = false := by
  refine ⟨?_, ?_, ?_, ?_, edgeNew_ordered A B⟩
  · rw [edgeNew_comm]
  · rw [edgeNew_comm]
  · rw [edgeNew_comm A B]; exact edgeLt_irrefl _
  · rw [edgeNew_comm A B]; exact edgeLt_irrefl _

/-! ## The best-of fold -/

theorem keepBest_score_ge_left (b p : Polygon) : b.score ≤ (keepBest b p).score := by
  unfold keepBest; split <;> omega

theorem keepBest_score_ge_right (b p : Polygon) : p.score ≤ (keepBest b p).score := by
  unfold keepBest; split <;> omega

theorem foldl_keepBest (ps : List Polygon) (b : Polygon) :
    (ps.foldl keepBest b = b ∧ ∀ p ∈ ps, p.score ≤ b.score) ∨
    (∃ i, IsFirstMax ps i (ps.foldl keepBest b) ∧ b.score < (ps.foldl keepBest b).score) := by
  induction ps generalizing b with
  | nil => left; simp
  | cons p ps ih =>
    rw [List.foldl_cons]
    rcases ih (keepBest b p) with ⟨hr, hall⟩ | ⟨i, ⟨hi, hmax, hfirst⟩, hlt⟩
    · by_cases hp : p.score > b.score
      · right
        have hb : keepBest b p = p := by unfold keepBest; simp [hp]
        rw [hr, hb]
        rw [hb] at hall
        refine ⟨0, ⟨by simp, ?_, ?_⟩, hp⟩
        · intro q hq
          rcases List.mem_cons.mp hq with rfl | hq
          · exact le_refl _
          · exact hall q hq
        · intro j q hj; omega
      · left
        have hb : keepBest b p = b := by unfold keepBest; simp [hp]
        rw [hr, hb]
        rw [hb] at hall
        refine ⟨rfl, ?_⟩
        intro q hq
        rcases List.mem_cons.mp hq with rfl | hq
        · omega
        · exact hall q hq
    · right
      have h1 := keepBest_score_ge_left b p
      have h2 := keepBest_score_ge_right b p
      refine ⟨i + 1, ⟨by simpa using hi, ?_, ?_⟩, by omega⟩
      · intro q hq
        rcases List.mem_cons.mp hq with rfl | hq
        · omega
        · exact hmax q hq
      · intro j q hj hq
        cases j with
        | zero =>
          simp at hq; subst hq; omega
        | succ j =>
          simp at hq
          exact hfirst j q (by omega) hq

theorem foldl_keepBest_of_lt (ps : List Polygon) (b : Polygon)
    (h : ∃ p ∈ ps, b.score < p.score) :
    ∃ i, IsFirstMax ps i (ps.foldl keepBest b) := by
  rcases foldl_keepBest ps b with ⟨_, hall⟩ | ⟨i, hi, _⟩
  · obtain ⟨p, hp, hlt⟩ := h
    have := hall p hp
    omega
  · exact ⟨i, hi⟩

/-! ## Map and machine-integer lemmas -/

theorem toInt32_inInt32 (v : Int) : inInt32 (toInt32 v) := by
  unfold inInt32 toInt32; omega

theorem toInt32_of_inInt32 (v : Int) (h : inInt32 v) : toInt32 v = v := by
  unfold inInt32 at h; unfold toInt32; omega

theorem toInt32_add_left (a b : Int) : toInt32 (toInt32 a + b) = toInt32 (a + b) := by
  unfold toInt32; omega

theorem mapAt_mapAdd {κ : Type} [DecidableEq κ] (k k' : κ) (v : Int) (m : List (κ × Int)) :
    mapAt k' (mapAdd k v m) =
      if k' = k then some (toInt32 (mapGet m k + v)) else mapAt k' m := by
  induction m with
  | nil =>
    by_cases h : k' = k
    · subst h; simp [mapAdd, mapAt, mapGet]
    · have h' : ¬ k = k' := fun e => h e.symm
      simp [mapAdd, mapAt, h, h']
  | cons p rest ih =>
    obtain ⟨k0, w⟩ := p
    by_cases h0 : k0 = k
    · subst h0
      by_cases h : k' = k0
      · subst h; simp [mapAdd, mapAt, mapGet]
      · have h' : ¬ k0 = k' := fun e => h e.symm
        simp [mapAdd, mapAt, h, h']
    · by_cases h : k' = k
      · subst h
        simp only [mapAdd, h0, if_false, mapAt, ih, if_true, mapGet]
      · by_cases h1 : k0 = k'
        · simp [mapAdd, mapAt, h0, h, h1]
        · simp [mapAdd, mapAt, h0, h, h1, ih]

theorem mapAt_foldl_contextStep_isSome (l : List Node) (acc : List ((Int × Int) × Int) × Int)
    (k : Int × Int) (h : (mapAt k acc.1).isSome ∨ ∃ n ∈ l, n.key = k) :
    (mapAt k (l.foldl contextStep acc).1).isSome := by
  induction l generalizing acc with
  | nil =>
    rcases h with h | ⟨n, hn, _⟩
    · simpa using h
    · simp at hn
  | cons c rest ih =>
    rw [List.foldl_cons]
    apply ih
    by_cases hc : c.key = k
    · left
      simp only [contextStep, mapAt_mapAdd]
      have : k = (toInt32 c.x, toInt32 c.y) := hc.symm
      simp [this]
    · rcases h with h | ⟨n, hn, hk⟩
      · left
        simp only [contextStep, mapAt_mapAdd]
        have : ¬ k = (toInt32 c.x, toInt32 c.y) := fun e => hc e.symm
        simpa [this] using h
      · rcases List.mem_cons.mp hn with rfl | hn
        · exact absurd hk hc
        · exact Or.inr ⟨n, hn, hk⟩

theorem point_values_has_crystal (crystals mines : List Node) (c : Node) (hc : c ∈ crystals) :
    (mapAt c.key (ProblemContext.new crystals mines).point_values).isSome := by
  unfold ProblemContext.new
  simp only
  apply mapAt_foldl_contextStep_isSome
  left
  apply mapAt_foldl_contextStep_isSome
  exact Or.inr ⟨c, hc, rfl⟩

/-! ## The best-N lookup never throws -/

theorem bestLoop_isSome (ctx : ProblemContext) (l : List Node)
    (h : ∀ c ∈ l, (mapAt c.key ctx.point_values).isSome) (st : BestState) :
    (bestLoop ctx l st).isSome := by
  induction l generalizing st with
  | nil => simp [bestLoop]
  | cons c rest ih =>
    have hrest : ∀ c ∈ rest, (mapAt c.key ctx.point_values).isSome :=
      fun d hd => h d (List.mem_cons_of_mem _ hd)
    unfold bestLoop
    split
    · simp
    · split
      · exact ih hrest st
      · have hc := h c (List.mem_cons_self _ _)
        unfold Node.key at hc
        split
        · rename_i heq; rw [heq] at hc; simp at hc
        · exact ih hrest _

theorem mem_sortCrystalsDesc (l : List Node) (c : Node) : c ∈ sortCrystalsDesc l ↔ c ∈ l :=
  (List.perm_insertionSort _ l).mem_iff

theorem bestN_solve_isSome (crystals mines : List Node) :
    (BestNPointsStrategy.solve (ProblemContext.new crystals mines)).isSome := by
  have h := bestLoop_isSome (ProblemContext.new crystals mines) (sortCrystalsDesc crystals)
    (fun c hc => point_values_has_crystal crystals mines c ((mem_sortCrystalsDesc _ _).mp hc))
    BestState.initial
  unfold BestNPointsStrategy.solve
  have hcr : (ProblemContext.new crystals mines).crystals = crystals := rfl
  rw [hcr]
  cases hb : bestLoop (ProblemContext.new crystals mines) (sortCrystalsDesc crystals)
      BestState.initial with
  | none => rw [hb] at h; simp at h
  | some st =>
    simp only
    split <;> simp

/-! ## Scores of the strip strategy -/

theorem foldl_insertEdge_score (es : List Edge) (p : Polygon) :
    (es.foldl Polygon.insertEdge p).score = p.score := by
  induction es generalizing p with
  | nil => rfl
  | cons e es ih => rw [List.foldl_cons, ih]; rfl

theorem addBand_score (axis : Axis) (p : Polygon) (s : Strip) :
    (addBand axis p s).score = p.score + s.1 := by
  unfold addBand; rw [foldl_insertEdge_score]

theorem takeStrips_score_ge (axis : Axis) (l : List Strip) (p : Polygon) :
    p.score ≤ (takeStrips axis l p).score := by
  induction l generalizing p with
  | nil => simp [takeStrips]
  | cons s rest ih =>
    unfold takeStrips
    split
    · exact le_refl _
    · have := ih (addBand axis p s)
      rw [addBand_score] at this
      omega

theorem stripPolygon_score_nonneg (axis : Axis) (ctx : ProblemContext) (t : Int) :
    0 ≤ (stripPolygon axis ctx t).score := by
  unfold stripPolygon
  exact takeStrips_score_ge axis _ { score := 0, edges := [] }

theorem stripSolve_eq_foldl (axis : Axis) (ctx : ProblemContext) :
    StripStrategy.solve axis ctx =
      (thresholds.map (stripPolygon axis ctx)).foldl keepBest Polygon.default := by
  unfold StripStrategy.solve
  rw [List.foldl_map]

theorem thresholds_length : thresholds.length = 46 := by
  unfold thresholds; rw [List.length_map, List.length_range]

theorem zero_mem_thresholds : (0 : Int) ∈ thresholds := by
  unfold thresholds
  exact List.mem_map.mpr ⟨0, List.mem_range.mpr (by omega), by
    simp [Constants.STRIP_THRESHOLD_START, Constants.STRIP_THRESHOLD_STEP]⟩

theorem stripPolygon_zero_mem (axis : Axis) (ctx : ProblemContext) :
    stripPolygon axis ctx 0 ∈ thresholds.map (stripPolygon axis ctx) :=
  List.mem_map.mpr ⟨0, zero_mem_thresholds, rfl⟩

theorem stripSolve_isFirstMax (axis : Axis) (ctx : ProblemContext) :
    ∃ i, IsFirstMax (thresholds.map (stripPolygon axis ctx)) i (StripStrategy.solve axis ctx) := by
  rw [stripSolve_eq_foldl]
  apply foldl_keepBest_of_lt
  refine ⟨stripPolygon axis ctx 0, stripPolygon_zero_mem axis ctx, ?_⟩
  · have := stripPolygon_score_nonneg axis ctx 0
    simp only [Polygon.default, SENTINEL]
    omega

theorem stripSolve_score_nonneg (axis : Axis) (ctx : ProblemContext) :
    0 ≤ (StripStrategy.solve axis ctx).score := by
  obtain ⟨i, hi, hmax, _⟩ := stripSolve_isFirstMax axis ctx
  have := hmax _ (stripPolygon_zero_mem axis ctx)
  have := stripPolygon_score_nonneg axis ctx 0
  omega

/-! ## C1: the runner -/

theorem runLoop_of_solved (ctx : ProblemContext) (strategies : List OptimizationStrategy)
    (ps : List Polygon) (best : Polygon)
    (h : strategies.map (fun s => s.solve ctx) = ps.map some) :
    runLoop ctx strategies best = some (ps.foldl keepBest best) := by
  induction strategies generalizing ps best with
  | nil =>
    cases ps with
    | nil => rfl
    | cons p ps => simp at h
  | cons s rest ih =>
    cases ps with
    | nil => simp at h
    | cons p ps =>
      simp only [List.map_cons, List.cons.injEq] at h
      unfold runLoop
      rw [h.1]
      simp only [List.foldl_cons]
      exact ih ps _ h.2

/-- C1 (runner selection): `Solver::run` returns the polygon of the first
strategy, in the order strip-X, strip-Y, best-N, worst-N, whose score is the
maximum of the four scores; an equal score met later never replaces it.  For
three strategies scoring 5, 9, 9 the polygon of the first 9 is returned. -/
theorem run_keeps_first_maximum (crystals mines : List Node) :
    (∃ s1 s2 s3 s4 : Polygon,
      (Solver.new crystals mines).strategies.map
          (fun s => s.solve (Solver.new crystals mines).context) =
        [some s1, some s2, some s3, some s4] ∧
      s1 = StripStrategy.solve Axis.X (ProblemContext.new crystals mines) ∧
      s2 = StripStrategy.solve Axis.Y (ProblemContext.new crystals mines) ∧
      some s3 = BestNPointsStrategy.solve (ProblemContext.new crystals mines) ∧
      s4 = WorstNPointsStrategy.solve (ProblemContext.new crystals mines) ∧
      ∃ i r, (Solver.new crystals mines).run = some r ∧ IsFirstMax [s1, s2, s3, s4] i r) ∧
    (∀ (ctx : ProblemContext) (ea eb ec : List Edge),
      Solver.run
        { context := ctx
          strategies :=
            [ constStrategy { score := 5, edges := ea },
              constStrategy { score := 9, edges := eb },
              constStrategy { score := 9, edges := ec } ] } =
        some { score := 9, edges := eb }) := by
  constructor
  · obtain ⟨s3, hs3⟩ := Option.isSome_iff_exists.mp (bestN_solve_isSome crystals mines)
    refine ⟨_, _, s3, _, ?_, rfl, rfl, hs3.symm, rfl, ?_⟩
    · simp only [Solver.new, List.map_cons, List.map_nil, StripStrategy, BestNPointsStrategy,
        WorstNPointsStrategy, hs3]
    · have hrun : (Solver.new crystals mines).run = some
          ([StripStrategy.solve Axis.X (ProblemContext.new crystals mines),
            StripStrategy.solve Axis.Y (ProblemContext.new crystals mines), s3,
            WorstNPointsStrategy.solve (ProblemContext.new crystals mines)].foldl keepBest
              Polygon.default) := by
        unfold Solver.run
        apply runLoop_of_solved
        simp only [Solver.new, List.map_cons, List.map_nil, StripStrategy, BestNPointsStrategy,
          WorstNPointsStrategy, hs3]
      obtain ⟨i, hi⟩ := foldl_keepBest_of_lt
        [StripStrategy.solve Axis.X (ProblemContext.new crystals mines),
          StripStrategy.solve Axis.Y (ProblemContext.new crystals mines), s3,
          WorstNPointsStrategy.solve (ProblemContext.new crystals mines)] Polygon.default
        ⟨_, List.mem_cons_self _ _, by
          have := stripSolve_score_nonneg Axis.X (ProblemContext.new crystals mines)
          simp only [Polygon.default, SENTINEL]
          omega⟩
      exact ⟨i, _, hrun, hi⟩
  · intro ctx ea eb ec
    simp [Solver.run, runLoop, constStrategy, keepBest, Polygon.default, SENTINEL]

/-! ## C3: the aggregates of the context -/

theorem netAt_nil (k : Int × Int) : netAt k [] = 0 := rfl

theorem netAt_cons (k : Int × Int) (c : Node) (l : List Node) :
    netAt k (c :: l) = (if c.key = k then c.val else 0) + netAt k l := by
  unfold netAt
  by_cases h : c.key = k <;> simp [List.filter_cons, h]

theorem netAt_append (k : Int × Int) (l1 l2 : List Node) :
    netAt k (l1 ++ l2) = netAt k l1 + netAt k l2 := by
  unfold netAt; simp [List.filter_append]

theorem netAt_eq_zero (k : Int × Int) (l : List Node) (h : ∀ n ∈ l, n.key ≠ k) :
    netAt k l = 0 := by
  induction l with
  | nil => rfl
  | cons c l ih =>
    rw [netAt_cons, ih (fun n hn => h n (List.mem_cons_of_mem _ hn))]
    simp [h c (List.mem_cons_self _ _)]

theorem mapAt_foldl_contextStep_none (l : List Node) (acc : List ((Int × Int) × Int) × Int)
    (k : Int × Int) (h : ∀ n ∈ l, n.key ≠ k) :
    mapAt k (l.foldl contextStep acc).1 = mapAt k acc.1 := by
  induction l generalizing acc with
  | nil => rfl
  | cons c rest ih =>
    rw [List.foldl_cons, ih _ (fun n hn => h n (List.mem_cons_of_mem _ hn))]
    have hc : ¬ k = (toInt32 c.x, toInt32 c.y) := fun e => h c (List.mem_cons_self _ _) e.symm
    simp only [contextStep, mapAt_mapAdd, hc, if_false]

theorem mapAt_foldl_contextStep_some (l : List Node) (acc : List ((Int × Int) × Int) × Int)
    (k : Int × Int) (h : ∃ n ∈ l, n.key = k) :
    mapAt k (l.foldl contextStep acc).1 = some (toInt32 (mapGet acc.1 k + netAt k l)) := by
  induction l generalizing acc with
  | nil => simp at h
  | cons c rest ih =>
    rw [List.foldl_cons, netAt_cons]
    by_cases hrest : ∃ n ∈ rest, n.key = k
    · rw [ih _ hrest]
      by_cases hc : c.key = k
      · have hk : k = (toInt32 c.x, toInt32 c.y) := hc.symm
        simp only [contextStep, mapGet, mapAt_mapAdd, hk, if_true, Option.getD_some]
        rw [toInt32_add_left]
        have : c.key = (toInt32 c.x, toInt32 c.y) := rfl
        simp only [this, if_true]
        congr 2
        ring
      · have hk : ¬ k = (toInt32 c.x, toInt32 c.y) := fun e => hc e.symm
        simp only [contextStep, mapGet, mapAt_mapAdd, hk, if_false, hc]
        congr 2
        ring
    · have hrest' : ∀ n ∈ rest, n.key ≠ k := fun n hn e => hrest ⟨n, hn, e⟩
      have hc : c.key = k := by
        obtain ⟨n, hn, hk⟩ := h
        rcases List.mem_cons.mp hn with rfl | hn
        · exact hk
        · exact absurd hk (hrest' n hn)
      rw [mapAt_foldl_contextStep_none _ _ _ hrest', netAt_eq_zero _ _ hrest']
      have hk : k = (toInt32 c.x, toInt32 c.y) := hc.symm
      simp only [contextStep, mapAt_mapAdd, hk, if_true]
      have : c.key = (toInt32 c.x, toInt32 c.y) := rfl
      simp only [this, if_true]
      congr 2
      ring

theorem foldl_contextStep_snd (l : List Node) (acc : List ((Int × Int) × Int) × Int) :
    (l.foldl contextStep acc).2 = acc.2 + totalValue l := by
  induction l generalizing acc with
  | nil => simp [totalValue]
  | cons c rest ih =>
    rw [List.foldl_cons, ih]
    simp only [contextStep, totalValue, List.map_cons, List.sum_cons]
    ring

theorem point_values_none (crystals mines : List Node) (k : Int × Int)
    (h : ∀ n ∈ crystals ++ mines, n.key ≠ k) :
    mapAt k (ProblemContext.new crystals mines).point_values = none := by
  unfold ProblemContext.new
  simp only
  rw [mapAt_foldl_contextStep_none _ _ _ (fun n hn => h n (List.mem_append_right _ hn)),
    mapAt_foldl_contextStep_none _ _ _ (fun n hn => h n (List.mem_append_left _ hn))]
  rfl

theorem point_values_some (crystals mines : List Node) (k : Int × Int)
    (h : ∃ n ∈ crystals ++ mines, n.key = k) :
    mapAt k (ProblemContext.new crystals mines).point_values =
      some (toInt32 (netAt k (crystals ++ mines))) := by
  unfold ProblemContext.new
  simp only
  rw [netAt_append]
  by_cases hm : ∃ n ∈ mines, n.key = k
  · rw [mapAt_foldl_contextStep_some _ _ _ hm]
    by_cases hc : ∃ n ∈ crystals, n.key = k
    · simp only [mapGet]
      rw [mapAt_foldl_contextStep_some _ _ _ hc]
      simp only [Option.getD_some, mapGet, mapAt, Option.getD_none]
      rw [toInt32_add_left]
      congr 2
      ring
    · have hc' : ∀ n ∈ crystals, n.key ≠ k := fun n hn e => hc ⟨n, hn, e⟩
      simp only [mapGet]
      rw [mapAt_foldl_contextStep_none _ _ _ hc', netAt_eq_zero _ _ hc']
      simp [mapAt]
  · have hm' : ∀ n ∈ mines, n.key ≠ k := fun n hn e => hm ⟨n, hn, e⟩
    have hc : ∃ n ∈ crystals, n.key = k := by
      obtain ⟨n, hn, hk⟩ := h
      rcases List.mem_append.mp hn with hn | hn
      · exact ⟨n, hn, hk⟩
      · exact absurd hk (hm' n hn)
    rw [mapAt_foldl_contextStep_none _ _ _ hm', netAt_eq_zero _ _ hm',
      mapAt_foldl_contextStep_some _ _ _ hc]
    simp [mapGet, mapAt]

theorem context_totals (crystals mines : List Node) :
    (ProblemContext.new crystals mines).total_positive_val = totalValue crystals ∧
    (ProblemContext.new crystals mines).total_negative_val = totalValue mines := by
  unfold ProblemContext.new
  simp only [foldl_contextStep_snd]
  simp

theorem netAt_eq_valueAt (x y : Int) (l : List Node)
    (hl : ∀ n ∈ l, inInt32 n.x ∧ inInt32 n.y) :
    netAt (x, y) l = valueAt x y l := by
  unfold netAt valueAt
  congr 2
  apply List.filter_congr
  intro n hn
  obtain ⟨h1, h2⟩ := hl n hn
  simp only [Node.key, toInt32_of_inInt32 _ h1, toInt32_of_inInt32 _ h2, Prod.mk.injEq]

/-- C3, counterexample: with two crystals of value 2^30 at (1, 1), all input
values are within the int range, the values located at (1, 1) sum to 2^31,
and the `int`-valued map holds -2^31 there. -/
theorem context_value_wraps :
    (∀ n ∈ overflowCrystals ++ [], inInt32 n.x ∧ inInt32 n.y ∧ inInt32 n.val) ∧
    valueAt 1 1 (overflowCrystals ++ []) = 2147483648 ∧
    mapAt (1, 1) (ProblemContext.new overflowCrystals []).point_values = some (-2147483648) ∧
    mapAt (1, 1) (ProblemContext.new overflowCrystals []).point_values ≠
      some (valueAt 1 1 (overflowCrystals ++ [])) := by
  decide

/-- C3, amended (context aggregation): for crystal and mine lists whose
coordinates are within the int range, the map has an entry exactly at the
coordinates where a point lies; the entry is the sum of the values of all
crystals and mines located there reduced to 32 bits, hence that sum itself
whenever the sum is within the int range; the two totals are the sums of the
crystal values and of the mine values.  Crystals (1,1,10), (1,1,5) without
mines give 15 at (1,1) and totals 15 and 0; empty lists give an empty map and
zero totals. -/
theorem context_aggregation (crystals mines : List Node)
    (hcoord : ∀ n ∈ crystals ++ mines, inInt32 n.x ∧ inInt32 n.y) :
    (∀ x y : Int, (∃ n ∈ crystals ++ mines, n.x = x ∧ n.y = y) →
      mapAt (x, y) (ProblemContext.new crystals mines).point_values =
        some (toInt32 (valueAt x y (crystals ++ mines))) ∧
      (inInt32 (valueAt x y (crystals ++ mines)) →
        mapAt (x, y) (ProblemContext.new crystals mines).point_values =
          some (valueAt x y (crystals ++ mines)))) ∧
    (∀ x y : Int, (¬ ∃ n ∈ crystals ++ mines, n.x = x ∧ n.y = y) →
      mapAt (x, y) (ProblemContext.new crystals mines).point_values = none) ∧
    (ProblemContext.new crystals mines).total_positive_val = totalValue crystals ∧
    (ProblemContext.new crystals mines).total_negative_val = totalValue mines ∧
    (mapAt (1, 1) (ProblemContext.new exampleCrystals []).point_values = some 15 ∧
      (ProblemContext.new exampleCrystals []).total_positive_val = 15 ∧
      (ProblemContext.new exampleCrystals []).total_negative_val = 0) ∧
    ((ProblemContext.new [] []).point_values = [] ∧
      (ProblemContext.new [] []).total_positive_val = 0 ∧
      (ProblemContext.new [] []).total_negative_val = 0) := by
  have hkey : ∀ n ∈ crystals ++ mines, n.key = (n.x, n.y) := by
    intro n hn
    obtain ⟨h1, h2⟩ := hcoord n hn
    simp only [Node.key, toInt32_of_inInt32 _ h1, toInt32_of_inInt32 _ h2]
  refine ⟨?_, ?_, (context_totals crystals mines).1, (context_totals crystals mines).2,
    by decide, by decide⟩
  · intro x y hex
    have hsome : mapAt (x, y) (ProblemContext.new crystals mines).point_values =
        some (toInt32 (valueAt x y (crystals ++ mines))) := by
      rw [← netAt_eq_valueAt x y _ hcoord]
      apply point_values_some
      obtain ⟨n, hn, hx, hy⟩ := hex
      exact ⟨n, hn, by rw [hkey n hn, hx, hy]⟩
    refine ⟨hsome, fun hr => ?_⟩
    rw [hsome, toInt32_of_inInt32 _ hr]
  · intro x y hno
    apply point_values_none
    intro n hn hk
    rw [hkey n hn] at hk
    simp only [Prod.mk.injEq] at hk
    exact hno ⟨n, hn, hk.1, hk.2⟩

/-- C3, witness: the amended statement at crystals (1,1,10), (1,1,5), no mines,
at the occupied coordinate (1, 1) and at the free coordinate (2, 2). -/
theorem context_aggregation_witness :
    (∀ n ∈ exampleCrystals ++ [], inInt32 n.x ∧ inInt32 n.y) ∧
    (∃ n ∈ exampleCrystals ++ [], n.x = 1 ∧ n.y = 1) ∧
    inInt32 (valueAt 1 1 (exampleCrystals ++ [])) ∧
    mapAt (1, 1) (ProblemContext.new exampleCrystals []).point_values =
      some (valueAt 1 1 (exampleCrystals ++ [])) ∧
    (¬ ∃ n ∈ exampleCrystals ++ [], n.x = 2 ∧ n.y = 2) ∧
    mapAt (2, 2) (ProblemContext.new exampleCrystals []).point_values = none :=
  ⟨by decide, by decide, by decide,
    ((context_aggregation exampleCrystals [] (by decide)).1 1 1 (by decide)).2 (by decide),
    by decide,
    (context_aggregation exampleCrystals [] (by decide)).2.1 2 2 (by decide)⟩

/-! ## std::set lemmas -/

theorem pairLt_irrefl (a : Int × Int) : pairLt a a = false := by
  simp [pairLt]

theorem pair_eq_of_not_lt (a b : Int × Int) (h1 : pairLt a b = false) (h2 : pairLt b a = false) :
    a = b := by
  obtain ⟨a1, a2⟩ := a
  obtain ⟨b1, b2⟩ := b
  simp only [pairLt, Bool.or_eq_false_iff, decide_eq_false_iff_not, Bool.and_eq_false_imp,
    Bool.not_eq_true', not_lt] at h1 h2
  have e1 : a1 = b1 := le_antisymm h2.1 h1.1
  subst e1
  have e2 : a2 = b2 := le_antisymm (h2.2 (by simp)) (h1.2 (by simp))
  rw [e2]

theorem mem_setInsert {α : Type} (lt : α → α → Bool)
    (heq : ∀ a b, lt a b = false → lt b a = false → a = b) (p q : α) (s : List α) :
    q ∈ setInsert lt p s ↔ q = p ∨ q ∈ s := by
  induction s with
  | nil => simp [setInsert]
  | cons y ys ih =>
    unfold setInsert
    cases h1 : lt p y
    · cases h2 : lt y p
      · have := heq p y h1 h2
        subst this
        simp
      · simp only [Bool.false_eq_true, if_false, if_true, List.mem_cons, ih]
        tauto
    · simp

theorem setFind_iff_mem {α : Type} (lt : α → α → Bool) (hirr : ∀ a, lt a a = false)
    (heq : ∀ a b, lt a b = false → lt b a = false → a = b) (q : α) (s : List α) :
    setFind lt q s = true ↔ q ∈ s := by
  unfold setFind
  rw [List.any_eq_true]
  constructor
  · rintro ⟨y, hy, h⟩
    simp only [Bool.and_eq_true, Bool.not_eq_true'] at h
    rw [heq q y h.1 h.2]
    exact hy
  · intro h
    exact ⟨q, h, by simp [hirr]⟩

theorem mapAt_mapSetInsert (k k' : Int) (p : Int × Int) (pts : List (Int × List (Int × Int))) :
    mapAt k' (mapSetInsert k p pts) =
      if k' = k then some (setInsert pairLt p ((mapAt k pts).getD [])) else mapAt k' pts := by
  induction pts with
  | nil =>
    by_cases h : k' = k
    · subst h; simp [mapSetInsert, mapAt]
    · have h' : ¬ k = k' := fun e => h e.symm
      simp [mapSetInsert, mapAt, h, h']
  | cons e rest ih =>
    obtain ⟨k0, s⟩ := e
    by_cases h0 : k0 = k
    · subst h0
      by_cases h : k' = k0
      · subst h; simp [mapSetInsert, mapAt]
      · have h' : ¬ k0 = k' := fun e => h e.symm
        simp [mapSetInsert, mapAt, h, h']
    · by_cases h : k' = k
      · subst h
        simp only [mapSetInsert, h0, if_false, mapAt, ih, if_true]
      · by_cases h1 : k0 = k'
        · simp [mapSetInsert, mapAt, h0, h, h1]
        · simp [mapSetInsert, mapAt, h0, h, h1, ih]

theorem isRecorded_mapSetInsert (pts : List (Int × List (Int × Int))) (x y x' y' : Int) :
    isRecorded (mapSetInsert x (x, y) pts) x' y' = true ↔
      (x', y') = (x, y) ∨ isRecorded pts x' y' = true := by
  unfold isRecorded
  rw [mapAt_mapSetInsert]
  by_cases h : x' = x
  · subst h
    simp only [if_true, setFind_iff_mem pairLt pairLt_irrefl pair_eq_of_not_lt,
      mem_setInsert pairLt pair_eq_of_not_lt]
    cases hm : mapAt x' pts with
    | none => simp
    | some s => simp [setFind_iff_mem pairLt pairLt_irrefl pair_eq_of_not_lt]
  · simp only [h, if_false, Prod.mk.injEq, false_and, false_or]

/-! ## The selection of the best-N loop -/

theorem bestLoop_selected (ctx : ProblemContext) (l : List Node) (st st' : BestState)
    (seen : List (Int × Int))
    (hseen : ∀ q : Int × Int, isRecorded st.points_to_enclose q.1 q.2 = true ↔ q ∈ seen)
    (h : bestLoop ctx l st = some st') (q : Int × Int) :
    isRecorded st'.points_to_enclose q.1 q.2 = true ↔
      q ∈ seen ∨
      q ∈ (((firstOccurrences (l.map Node.key)).filter (fun k => decide (k ∉ seen))).take
            (Constants.BEST_N_POINTS - st.count)) := by
  induction l generalizing st seen with
  | nil =>
    simp only [bestLoop, Option.some.injEq] at h
    subst h
    simp [firstOccurrences, hseen]
  | cons c rest ih =>
    unfold bestLoop at h
    split at h
    · rename_i hcount
      simp only [Option.some.injEq] at h
      subst h
      have : Constants.BEST_N_POINTS - st.count = 0 := by omega
      simp [this, hseen]
    · rename_i hcount
      have hkey : c.key = (toInt32 c.x, toInt32 c.y) := rfl
      split at h
      · rename_i hrec
        have hin : c.key ∈ seen := (hseen c.key).mp hrec
        rw [ih st seen hseen h]
        have hfil : ((firstOccurrences ((c :: rest).map Node.key)).filter
              (fun k => decide (k ∉ seen))) =
            ((firstOccurrences (rest.map Node.key)).filter (fun k => decide (k ∉ seen))) := by
          simp only [List.map_cons, firstOccurrences]
          rw [List.filter_cons_of_neg (by simpa using hin), List.filter_filter]
          apply List.filter_congr
          intro b _
          by_cases hb : b ∈ seen
          · simp [hb]
          · have : b ≠ c.key := fun e => hb (e ▸ hin)
            simp [hb, this]
        rw [hfil]
      · rename_i hrec
        have hnin : c.key ∉ seen := fun hin => hrec ((hseen c.key).mpr hin)
        split at h
        · exact absurd h (by simp)
        · rename_i v hv
          have hseen' : ∀ q : Int × Int,
              isRecorded (mapSetInsert (toInt32 c.x) (toInt32 c.x, toInt32 c.y)
                st.points_to_enclose) q.1 q.2 = true ↔ q ∈ c.key :: seen := by
            intro q
            rw [isRecorded_mapSetInsert, List.mem_cons, hseen q, hkey]
          rw [ih _ (c.key :: seen) hseen' h]
          have hfil : ((firstOccurrences ((c :: rest).map Node.key)).filter
                (fun k => decide (k ∉ seen))) =
              c.key :: ((firstOccurrences (rest.map Node.key)).filter
                (fun k => decide (k ∉ c.key :: seen))) := by
            simp only [List.map_cons, firstOccurrences]
            rw [List.filter_cons_of_pos (by simpa using hnin), List.filter_filter]
            congr 1
            apply List.filter_congr
            intro b _
            by_cases hb : b ∈ seen
            · simp [hb]
            · by_cases hbc : b = c.key
              · simp [hbc]
              · simp [hb, hbc]
          rw [hfil]
          have hn : Constants.BEST_N_POINTS - st.count =
              (Constants.BEST_N_POINTS - (st.count + 1)) + 1 := by omega
          rw [hn, List.take_succ_cons]
          simp only [List.mem_cons]
          tauto

theorem sortCrystalsDesc_perm (l : List Node) : (sortCrystalsDesc l).Perm l :=
  List.perm_insertionSort _ l

theorem carve_score (poly : Polygon) (mine : Node) :
    (carve poly mine).score = poly.score - mine.val := by
  unfold carve; rw [foldl_insertEdge_score]

theorem foldl_carve_score (l : List Node) (poly : Polygon) :
    (l.foldl carve poly).score = poly.score - totalValue l := by
  induction l generalizing poly with
  | nil => simp [totalValue]
  | cons m rest ih =>
    rw [List.foldl_cons, ih, carve_score]
    simp only [totalValue, List.map_cons, List.sum_cons]
    ring

theorem sortMinesAsc_perm (l : List Node) : (sortMinesAsc l).Perm l :=
  List.perm_insertionSort _ l

theorem sortMinesAsc_map_val (l : List Node) :
    (sortMinesAsc l).map Node.val = (l.map Node.val).insertionSort (fun a b => a ≤ b) := by
  unfold sortMinesAsc
  exact List.map_insertionSort (fun a b : Node => a.val ≤ b.val) (fun a b : Int => a ≤ b)
    Node.val l (fun _ _ _ _ => Iff.rfl)

theorem worstN_score_eq (ctx : ProblemContext) :
    (WorstNPointsStrategy.solve ctx).score =
      ctx.total_positive_val + ctx.total_negative_val -
        smallestSum (min Constants.WORST_N_POINTS ctx.mines.length) (ctx.mines.map Node.val) := by
  unfold WorstNPointsStrategy.solve
  simp only
  rw [foldl_carve_score, foldl_insertEdge_score]
  congr 1
  unfold smallestSum totalValue
  rw [List.map_take, sortMinesAsc_map_val]
  have hlen : (sortMinesAsc ctx.mines).length = ctx.mines.length := (sortMinesAsc_perm _).length_eq
  rw [hlen, Nat.min_comm]

/-- C5 (worst-N score): the score returned by `WorstNPointsStrategy::solve` is
total_positive_val + total_negative_val minus the sum of the min(165, m)
smallest mine values; the initial score total_positive_val +
total_negative_val is the sum of the crystal values plus the sum of the mine
values, that is, minus the sum of the mine magnitudes when the mine values are
negated (non-positive); with at most 165 mines the score is the sum of all
crystal values. -/
theorem worstN_score (crystals mines : List Node) :
    (WorstNPointsStrategy.solve (ProblemContext.new crystals mines)).score =
      (ProblemContext.new crystals mines).total_positive_val +
        (ProblemContext.new crystals mines).total_negative_val -
        smallestSum (min 165 mines.length) (mines.map Node.val) ∧
    (ProblemContext.new crystals mines).total_positive_val +
        (ProblemContext.new crystals mines).total_negative_val =
      totalValue crystals + totalValue mines ∧
    ((∀ m ∈ mines, m.val ≤ 0) →
      (ProblemContext.new crystals mines).total_positive_val +
          (ProblemContext.new crystals mines).total_negative_val =
        totalValue crystals - (mines.map (fun m => |m.val|)).sum) ∧
    (mines.length ≤ 165 →
      (WorstNPointsStrategy.solve (ProblemContext.new crystals mines)).score =
        totalValue crystals) := by
  obtain ⟨htp, htn⟩ := context_totals crystals mines
  have hscore := worstN_score_eq (ProblemContext.new crystals mines)
  have hm : (ProblemContext.new crystals mines).mines = mines := rfl
  rw [hm] at hscore
  refine ⟨hscore, by rw [htp, htn], ?_, ?_⟩
  · intro hneg
    rw [htp, htn]
    have : (mines.map (fun m => |m.val|)).sum = - totalValue mines := by
      unfold totalValue
      clear hscore htp htn hm
      induction mines with
      | nil => simp
      | cons m rest ih =>
        have h1 : m.val ≤ 0 := hneg m (List.mem_cons_self _ _)
        have h2 := ih (fun n hn => hneg n (List.mem_cons_of_mem _ hn))
        simp only [List.map_cons, List.sum_cons, h2, abs_of_nonpos h1]
        ring
    rw [this]
    ring
  · intro hlen
    rw [hscore, htp, htn]
    have hmin : min Constants.WORST_N_POINTS mines.length = mines.length := by
      simp only [Constants.WORST_N_POINTS]; omega
    have hsum : smallestSum (min Constants.WORST_N_POINTS mines.length) (mines.map Node.val) =
        totalValue mines := by
      unfold smallestSum totalValue
      rw [hmin]
      have hl : ((mines.map Node.val).insertionSort (fun a b => a ≤ b)).length = mines.length := by
        rw [List.length_insertionSort, List.length_map]
      rw [← hl, List.take_length]
      exact (List.perm_insertionSort _ _).sum_eq
    rw [hsum]
    ring

/-- C5, witness: one crystal of value 5 and the mines of values -7 and -2. -/
theorem worstN_score_witness :
    (∀ m ∈ smallMines, m.val ≤ 0) ∧ smallMines.length ≤ 165 ∧
    (ProblemContext.new smallCrystals smallMines).total_positive_val +
        (ProblemContext.new smallCrystals smallMines).total_negative_val =
      totalValue smallCrystals - (smallMines.map (fun m => |m.val|)).sum ∧
    (WorstNPointsStrategy.solve (ProblemContext.new smallCrystals smallMines)).score =
      totalValue smallCrystals :=
  ⟨by decide, by decide,
    (worstN_score smallCrystals smallMines).2.2.1 (by decide),
    (worstN_score smallCrystals smallMines).2.2.2 (by decide)⟩

/-! ## C6: the outer rectangle of the worst-N strategy -/

/-- C6, evaluation at the failing input: for the single crystal (0, 0, 5) and
no mines, the crystal is in the coordinate space [0, 10000] x [0, 10000], the
worst-N polygon is made of the four sides of the rectangle
[0.1, 9999.9] x [0.1, 9999.9], the crystal does not lie in that rectangle, and
the returned score 5 = total_positive_val + total_negative_val counts it. -/
theorem worstN_outer_box_misses_border :
    inCoordSpace ⟨0, 0, 5⟩ ∧
    outerBox = (1 / 10, 1 / 10, 99999 / 10, 99999 / 10) ∧
    (∀ e, e ∈ (WorstNPointsStrategy.solve (ProblemContext.new [⟨0, 0, 5⟩] [])).edges ↔
      e ∈ rectEdges (1 / 10) (1 / 10) (99999 / 10) (99999 / 10)) ∧
    ¬ insideBox outerBox ⟨0, 0, 5⟩ ∧
    (WorstNPointsStrategy.solve (ProblemContext.new [⟨0, 0, 5⟩] [])).score = 5 ∧
    (ProblemContext.new [⟨0, 0, 5⟩] []).total_positive_val +
      (ProblemContext.new [⟨0, 0, 5⟩] []).total_negative_val = 5 := by
  refine ⟨by decide, by decide!, ?_, by decide!, by decide, by decide⟩
  intro e
  have : (WorstNPointsStrategy.solve (ProblemContext.new [⟨0, 0, 5⟩] [])).edges =
      [ Edge.new ⟨1 / 10, 1 / 10⟩ ⟨1 / 10, 99999 / 10⟩,
        Edge.new ⟨1 / 10, 1 / 10⟩ ⟨99999 / 10, 1 / 10⟩,
        Edge.new ⟨1 / 10, 99999 / 10⟩ ⟨99999 / 10, 99999 / 10⟩,
        Edge.new ⟨99999 / 10, 1 / 10⟩ ⟨99999 / 10, 99999 / 10⟩ ] := by
    decide!
  rw [this]
  simp only [rectEdges, List.mem_cons, List.mem_singleton, List.not_mem_nil, or_false]
  rw [edgeNew_comm ⟨99999 / 10, 99999 / 10⟩ ⟨1 / 10, 99999 / 10⟩,
    edgeNew_comm ⟨1 / 10, 99999 / 10⟩ ⟨1 / 10, 1 / 10⟩]
  tauto

/-! ## The coordinate sweep -/

theorem sweepLoop_zero (ss : List (Int × Int)) (t : Int) :
    sweepLoop ss t 0 =
      sweepStep ss t { valuable_strips := [], current_score := 0, strip_start := 0 } 0 := by
  rfl

theorem sweepLoop_succ (ss : List (Int × Int)) (t : Int) (n : Nat) :
    sweepLoop ss t (n + 1) = sweepStep ss t (sweepLoop ss t n) (n + 1) := by
  unfold sweepLoop
  rw [List.range_succ, List.foldl_append]
  rfl

theorem sweepStep_strips_pos (ss : List (Int × Int)) (t : Int) (st : SweepState) (i : Nat)
    (h : ∀ s ∈ st.valuable_strips, 0 < s.1) :
    ∀ s ∈ (sweepStep ss t st i).valuable_strips, 0 < s.1 := by
  unfold sweepStep
  split
  · exact h
  · split
    · rename_i hpos
      intro s hs
      rcases List.mem_append.mp hs with hs | hs
      · exact h s hs
      · rw [List.mem_singleton] at hs
        subst hs
        exact hpos
    · exact h

theorem sweepLoop_strips_pos (ss : List (Int × Int)) (t : Int) (n : Nat) :
    ∀ s ∈ (sweepLoop ss t n).valuable_strips, 0 < s.1 := by
  induction n with
  | zero =>
    rw [sweepLoop_zero]
    exact sweepStep_strips_pos ss t _ 0 (by simp)
  | succ n ih =>
    rw [sweepLoop_succ]
    exact sweepStep_strips_pos ss t _ _ ih

theorem sweepClose_strips_pos (n : Nat) (st : SweepState)
    (h : ∀ s ∈ st.valuable_strips, 0 < s.1) : ∀ s ∈ sweepClose n st, 0 < s.1 := by
  unfold sweepClose
  split
  · rename_i hpos
    intro s hs
    rcases List.mem_append.mp hs with hs | hs
    · exact h s hs
    · rw [List.mem_singleton] at hs
      subst hs
      exact hpos
  · exact h

theorem sweep_strips_pos (ss : List (Int × Int)) (t : Int) : ∀ s ∈ sweep ss t, 0 < s.1 :=
  sweepClose_strips_pos _ _ (sweepLoop_strips_pos ss t _)

theorem sweepLoop_all_below (ss : List (Int × Int)) (t : Int) (n : Nat)
    (h : ∀ i : Nat, i ≤ n → mapGet ss (i : Int) < t) :
    sweepLoop ss t n =
      { valuable_strips := [], current_score := 0, strip_start := (n : Int) + 1 } := by
  induction n with
  | zero =>
    rw [sweepLoop_zero]
    have h0 : ¬ mapGet ss ((0 : Nat) : Int) ≥ t := not_le.mpr (h 0 (le_refl _))
    simp only [sweepStep, h0, if_false, lt_self_iff_false]
  | succ n ih =>
    rw [sweepLoop_succ, ih (fun i hi => h i (Nat.le_succ_of_le hi))]
    have h0 : ¬ mapGet ss ((n + 1 : Nat) : Int) ≥ t := not_le.mpr (h (n + 1) (le_refl _))
    simp only [sweepStep, h0, if_false, lt_self_iff_false]

theorem sweep_all_below (ss : List (Int × Int)) (t : Int)
    (h : ∀ i : Nat, i ≤ Constants.COORD_MAX_INT → mapGet ss (i : Int) < t) : sweep ss t = [] := by
  unfold sweep
  rw [sweepLoop_all_below ss t _ h]
  simp [sweepClose]

theorem mem_sortStripsDesc (l : List Strip) (s : Strip) : s ∈ sortStripsDesc l ↔ s ∈ l :=
  (List.perm_insertionSort _ l).mem_iff

/-- C9 (only positive strips): every candidate strip recorded by the sweep, and
so every strip handed to the selection loop, has an accumulated score strictly
greater than 0; a sweep in which the value of every coordinate 0..10000 is
below the threshold records no strip, and the polygon of that threshold has
no edges (and score 0). -/
theorem strips_are_positive (crystals mines : List Node) (axis : Axis) (threshold : Int) :
    (∀ s ∈ sweep (stripScores axis (ProblemContext.new crystals mines)) threshold, 0 < s.1) ∧
    (∀ s ∈ (sortStripsDesc
          (sweep (stripScores axis (ProblemContext.new crystals mines)) threshold)).take
            Constants.STRIP_MAX_POLYGONS, 0 < s.1) ∧
    ((∀ i : Nat, i ≤ 10000 →
        mapGet (stripScores axis (ProblemContext.new crystals mines)) (i : Int) < threshold) →
      sweep (stripScores axis (ProblemContext.new crystals mines)) threshold = [] ∧
      (stripPolygon axis (ProblemContext.new crystals mines) threshold).edges = [] ∧
      (stripPolygon axis (ProblemContext.new crystals mines) threshold).score = 0) := by
  refine ⟨sweep_strips_pos _ _, ?_, ?_⟩
  · intro s hs
    exact sweep_strips_pos _ _ s ((mem_sortStripsDesc _ _).mp (List.mem_of_mem_take hs))
  · intro h
    have hs := sweep_all_below _ _ h
    refine ⟨hs, ?_, ?_⟩
    · unfold stripPolygon
      simp only [hs]
      simp [sortStripsDesc, takeStrips]
    · unfold stripPolygon
      simp only [hs]
      simp [sortStripsDesc, takeStrips]

/-- C9, witness: no crystal, no mine and the threshold 1, above the value 0 of
every coordinate. -/
theorem strips_are_positive_witness :
    (∀ i : Nat, i ≤ 10000 →
        mapGet (stripScores Axis.X (ProblemContext.new [] [])) (i : Int) < 1) ∧
    sweep (stripScores Axis.X (ProblemContext.new [] [])) 1 = [] ∧
    (stripPolygon Axis.X (ProblemContext.new [] []) 1).edges = [] ∧
    (stripPolygon Axis.X (ProblemContext.new [] []) 1).score = 0 :=
  ⟨fun _ _ => by simp [stripScores, ProblemContext.new, mapGet, mapAt],
    (strips_are_positive [] [] Axis.X 1).2.2
      (fun _ _ => by simp [stripScores, ProblemContext.new, mapGet, mapAt])⟩

/-! ## C8: the best of the thresholds -/

/-- C8 (best of thresholds): the thresholds tried are 0, -1000, ..., -45000
(the 46 values of the arithmetic progression that pass the loop test),
`StripStrategy::solve` returns the per-threshold polygon of the first of them
whose score is the maximum of the 46 per-threshold scores, and its score is at
least the score of threshold 0 and never negative. -/
theorem strip_best_of_thresholds (crystals mines : List Node) (axis : Axis) :
    thresholds = (List.range 46).map (fun (k : Nat) => -1000 * (k : Int)) ∧
    (∀ k : Nat,
      Constants.STRIP_THRESHOLD_START + Constants.STRIP_THRESHOLD_STEP * (k : Int) ≥
          Constants.STRIP_THRESHOLD_END ↔ k < 46) ∧
    (∃ i, IsFirstMax (thresholds.map (stripPolygon axis (ProblemContext.new crystals mines))) i
        (StripStrategy.solve axis (ProblemContext.new crystals mines))) ∧
    (stripPolygon axis (ProblemContext.new crystals mines) 0).score ≤
      (StripStrategy.solve axis (ProblemContext.new crystals mines)).score ∧
    0 ≤ (StripStrategy.solve axis (ProblemContext.new crystals mines)).score := by
  refine ⟨?_, ?_, stripSolve_isFirstMax axis _, ?_, stripSolve_score_nonneg axis _⟩
  · unfold thresholds
    apply List.map_congr_left
    intro k _
    simp [Constants.STRIP_THRESHOLD_START, Constants.STRIP_THRESHOLD_STEP]
  · intro k
    simp only [Constants.STRIP_THRESHOLD_START, Constants.STRIP_THRESHOLD_STEP,
      Constants.STRIP_THRESHOLD_END]
    omega
  · obtain ⟨i, _, hmax, _⟩ := stripSolve_isFirstMax axis (ProblemContext.new crystals mines)
    exact hmax _ (stripPolygon_zero_mem axis _)

/-! ## C10: the sweep reaches COORD_MAX -/

theorem sweepLoop_all_above (ss : List (Int × Int)) (t : Int) (n : Nat)
    (h : ∀ i : Nat, i ≤ n → mapGet ss (i : Int) ≥ t) :
    sweepLoop ss t n =
      { valuable_strips := []
        current_score := ((List.range (n + 1)).map (fun (i : Nat) => mapGet ss (i : Int))).sum
        strip_start := 0 } := by
  induction n with
  | zero =>
    rw [sweepLoop_zero]
    have h0 : mapGet ss ((0 : Nat) : Int) ≥ t := h 0 (le_refl _)
    unfold sweepStep
    rw [if_pos h0]
    simp [List.range_succ]
  | succ n ih =>
    rw [sweepLoop_succ, ih (fun i hi => h i (Nat.le_succ_of_le hi))]
    have h0 : mapGet ss ((n + 1 : Nat) : Int) ≥ t := h (n + 1) (le_refl _)
    unfold sweepStep
    rw [if_pos h0, List.range_succ (n + 1), List.map_append, List.sum_append]
    simp

theorem sweepLoop_all_zero (ss : List (Int × Int)) (t : Int) (ht : t ≤ 0) (n : Nat)
    (h : ∀ i : Nat, i ≤ n → mapGet ss (i : Int) = 0) :
    sweepLoop ss t n = { valuable_strips := [], current_score := 0, strip_start := 0 } := by
  induction n with
  | zero =>
    rw [sweepLoop_zero]
    have h0 : mapGet ss ((0 : Nat) : Int) ≥ t := by rw [h 0 (le_refl _)]; exact ht
    unfold sweepStep
    rw [if_pos h0, h 0 (le_refl _)]
    rfl
  | succ n ih =>
    rw [sweepLoop_succ, ih (fun i hi => h i (Nat.le_succ_of_le hi))]
    have h0 : mapGet ss ((n + 1 : Nat) : Int) ≥ t := by rw [h (n + 1) (le_refl _)]; exact ht
    unfold sweepStep
    rw [if_pos h0, h (n + 1) (le_refl _)]
    rfl

theorem sweep_eq_close_step (ss : List (Int × Int)) (t : Int) :
    sweep ss t = sweepClose 10000 (sweepStep ss t (sweepLoop ss t 9999) 10000) := by
  unfold sweep
  rw [show Constants.COORD_MAX_INT = 9999 + 1 from rfl, sweepLoop_succ]

theorem thresholds_nonpos : ∀ t ∈ thresholds, t ≤ 0 := by
  intro t ht
  unfold thresholds at ht
  obtain ⟨k, _, rfl⟩ := List.mem_map.mp ht
  simp only [Constants.STRIP_THRESHOLD_START, Constants.STRIP_THRESHOLD_STEP]
  omega

theorem mapGet_single (k w i : Int) : mapGet [(k, w)] i = if k = i then w else 0 := by
  unfold mapGet mapAt
  split <;> simp [mapAt]

theorem sweepLoop_lone_prefix (w t : Int) (ht : t ≤ 0) :
    sweepLoop [((10000 : Int), w)] t 9999 =
      { valuable_strips := [], current_score := 0, strip_start := 0 } := by
  apply sweepLoop_all_zero _ _ ht
  intro i hi
  rw [mapGet_single]
  have : ¬ (10000 : Int) = (i : Int) := by omega
  simp only [this, if_false]

theorem sweep_lone (w t : Int) (ht : t ≤ 0) :
    sweep [((10000 : Int), w)] t = if 0 < w then [(w, ((0 : Int), (10000 : Int)))] else [] := by
  have hprev := sweepLoop_lone_prefix w t ht
  rw [sweep_eq_close_step, hprev]
  have hget : mapGet [((10000 : Int), w)] ((10000 : Nat) : Int) = w := by
    rw [mapGet_single]; simp
  unfold sweepStep
  rw [hget]
  by_cases hw : w ≥ t
  · rw [if_pos hw]
    unfold sweepClose
    by_cases hp : 0 < w
    · have hp' : (0 : Int) + w > 0 := by omega
      simp only [hp, hp', if_true, zero_add, List.nil_append]
      rfl
    · have hp' : ¬ (0 : Int) + w > 0 := by omega
      simp only [hp, hp', if_false]
  · have hp : ¬ 0 < w := by omega
    rw [if_neg hw]
    unfold sweepClose
    simp only [hp, if_false, lt_self_iff_false, gt_iff_lt]

theorem stripScores_lone (axis : Axis) (c : Node) :
    stripScores axis (ProblemContext.new [c] []) =
      [(toInt32 (axis.coord c), toInt32 c.val)] := by
  simp [stripScores, ProblemContext.new, mapAdd]

theorem stripPolygon_lone_score (axis : Axis) (c : Node) (hc : axis.coord c = 10000)
    (t : Int) (ht : t ≤ 0) :
    (stripPolygon axis (ProblemContext.new [c] []) t).score = max (toInt32 c.val) 0 := by
  unfold stripPolygon
  simp only
  rw [stripScores_lone, hc]
  have h10 : toInt32 10000 = 10000 := by decide
  rw [h10, sweep_lone _ _ ht]
  by_cases hp : 0 < toInt32 c.val
  · have hn : ¬ toInt32 c.val ≤ 0 := by omega
    simp only [hp, if_true, sortStripsDesc, List.insertionSort, List.orderedInsert,
      Constants.STRIP_MAX_POLYGONS, List.take_succ_cons, List.take_nil, takeStrips, hn, if_false,
      addBand_score]
    omega
  · simp only [hp, if_false, sortStripsDesc, List.insertionSort, List.take_nil, takeStrips]
    omega

theorem stripSolve_lone_score (axis : Axis) (c : Node) (hc : axis.coord c = 10000) :
    (StripStrategy.solve axis (ProblemContext.new [c] [])).score = max (toInt32 c.val) 0 := by
  obtain ⟨i, hi, _, _⟩ := stripSolve_isFirstMax axis (ProblemContext.new [c] [])
  have hmem := List.getElem?_mem hi
  obtain ⟨t, ht, heq⟩ := List.mem_map.mp hmem
  rw [← heq]
  exact stripPolygon_lone_score axis c hc t (thresholds_nonpos t ht)

/-- C10, counterexample: a lone crystal of value 2^31 > 0 at x = 10000 (no
mines) gives the strip-X strategy the score 0, not 2^31: the value is stored
in an `int`-valued map. -/
theorem strip_lone_crystal_wraps :
    (0 : Int) < 2147483648 ∧
    Axis.X.coord ⟨10000, 0, 2147483648⟩ = 10000 ∧
    (StripStrategy.solve Axis.X (ProblemContext.new [⟨10000, 0, 2147483648⟩] [])).score = 0 ∧
    (StripStrategy.solve Axis.X (ProblemContext.new [⟨10000, 0, 2147483648⟩] [])).score ≠
      2147483648 := by
  have h := stripSolve_lone_score Axis.X ⟨10000, 0, 2147483648⟩ rfl
  have hw : max (toInt32 (2147483648 : Int)) 0 = 0 := by decide
  simp only [hw] at h
  refine ⟨by decide, rfl, h, ?_⟩
  rw [h]
  decide

/-- C10, amended (the sweep includes COORD_MAX): the last coordinate visited
by the sweep is 10000; if the value at 10000 is at least the threshold and the
running strip score after adding it is positive, a candidate strip ending at
10000 is recorded with that score; a lone crystal of value v at axis
coordinate 10000 (no mines), with 0 < v and v within the int range, yields a
strip-strategy score of v. -/
theorem sweep_includes_coord_max (crystals mines : List Node) (axis : Axis) (threshold : Int) :
    sweepLoop (stripScores axis (ProblemContext.new crystals mines)) threshold 10000 =
      sweepStep (stripScores axis (ProblemContext.new crystals mines)) threshold
        (sweepLoop (stripScores axis (ProblemContext.new crystals mines)) threshold 9999)
        10000 ∧
    (mapGet (stripScores axis (ProblemContext.new crystals mines)) 10000 ≥ threshold →
      0 < (sweepLoop (stripScores axis (ProblemContext.new crystals mines)) threshold
            9999).current_score +
          mapGet (stripScores axis (ProblemContext.new crystals mines)) 10000 →
      ((sweepLoop (stripScores axis (ProblemContext.new crystals mines)) threshold
            9999).current_score +
          mapGet (stripScores axis (ProblemContext.new crystals mines)) 10000,
        ((sweepLoop (stripScores axis (ProblemContext.new crystals mines)) threshold
            9999).strip_start, (10000 : Int))) ∈
        sweep (stripScores axis (ProblemContext.new crystals mines)) threshold) ∧
    (∀ (c : Node) (v : Int), axis.coord c = 10000 → c.val = v → 0 < v → inInt32 v →
      (StripStrategy.solve axis (ProblemContext.new [c] [])).score = v) := by
  refine ⟨sweepLoop_succ _ _ 9999, ?_, ?_⟩
  · intro hge hpos
    rw [sweep_eq_close_step]
    have hge' : mapGet (stripScores axis (ProblemContext.new crystals mines))
        ((10000 : Nat) : Int) ≥ threshold := hge
    have hpos' : (sweepLoop (stripScores axis (ProblemContext.new crystals mines)) threshold
        9999).current_score +
          mapGet (stripScores axis (ProblemContext.new crystals mines))
            ((10000 : Nat) : Int) > 0 := hpos
    unfold sweepStep
    rw [if_pos hge']
    unfold sweepClose
    rw [if_pos hpos']
    apply List.mem_append_right
    rw [List.mem_singleton]
    simp only [Nat.cast_ofNat]
  · intro c v hc hv hpos hr
    rw [stripSolve_lone_score axis c hc, hv, toInt32_of_inInt32 v hr]
    omega

theorem stripScores_lone_seven :
    stripScores Axis.X (ProblemContext.new [⟨10000, 0, 7⟩] []) = [((10000 : Int), (7 : Int))] := by
  rw [stripScores_lone]
  rfl

/-- C10, witness: the lone crystal (10000, 0, 7), the axis X and the
threshold 0. -/
theorem sweep_includes_coord_max_witness :
    mapGet (stripScores Axis.X (ProblemContext.new [⟨10000, 0, 7⟩] [])) 10000 ≥ 0 ∧
    0 < (sweepLoop (stripScores Axis.X (ProblemContext.new [⟨10000, 0, 7⟩] [])) 0
          9999).current_score +
        mapGet (stripScores Axis.X (ProblemContext.new [⟨10000, 0, 7⟩] [])) 10000 ∧
    ((sweepLoop (stripScores Axis.X (ProblemContext.new [⟨10000, 0, 7⟩] [])) 0
          9999).current_score +
        mapGet (stripScores Axis.X (ProblemContext.new [⟨10000, 0, 7⟩] [])) 10000,
      ((sweepLoop (stripScores Axis.X (ProblemContext.new [⟨10000, 0, 7⟩] [])) 0
          9999).strip_start, (10000 : Int))) ∈
      sweep (stripScores Axis.X (ProblemContext.new [⟨10000, 0, 7⟩] [])) 0 ∧
    Axis.X.coord ⟨10000, 0, 7⟩ = 10000 ∧ (⟨10000, 0, 7⟩ : Node).val = 7 ∧ (0 : Int) < 7 ∧
    inInt32 7 ∧
    (StripStrategy.solve Axis.X (ProblemContext.new [⟨10000, 0, 7⟩] [])).score = 7 :=
  have h1 : mapGet (stripScores Axis.X (ProblemContext.new [⟨10000, 0, 7⟩] [])) 10000 ≥ 0 := by
    rw [stripScores_lone_seven]; decide
  have h2 : 0 < (sweepLoop (stripScores Axis.X (ProblemContext.new [⟨10000, 0, 7⟩] [])) 0
          9999).current_score +
        mapGet (stripScores Axis.X (ProblemContext.new [⟨10000, 0, 7⟩] [])) 10000 := by
    rw [stripScores_lone_seven, sweepLoop_lone_prefix 7 0 (le_refl _)]; decide
  ⟨h1, h2,
    (sweep_includes_coord_max [⟨10000, 0, 7⟩] [] Axis.X 0).2.1 h1 h2,
    rfl, rfl, by decide, by decide,
    (sweep_includes_coord_max [⟨10000, 0, 7⟩] [] Axis.X 0).2.2 ⟨10000, 0, 7⟩ 7 rfl rfl
      (by decide) (by decide)⟩

/-! ## Sums of the largest entries -/

theorem sum_take_le_cons (L : List Int) (a : Int) (ha : 0 ≤ a) (hL : ∀ x ∈ L, 0 ≤ x)
    (hs : L.Sorted (fun a b => b ≤ a)) (hle : ∀ x ∈ L, x ≤ a) (m : Nat) :
    (L.take m).sum ≤ ((a :: L).take m).sum := by
  induction L generalizing a m with
  | nil =>
    cases m with
    | zero => simp
    | succ m => simpa using ha
  | cons b L ih =>
    cases m with
    | zero => simp
    | succ m =>
      rw [List.sorted_cons] at hs
      have hb : b ≤ a := hle b (List.mem_cons_self _ _)
      have h0 : 0 ≤ b := hL b (List.mem_cons_self _ _)
      have := ih b h0 (fun x hx => hL x (List.mem_cons_of_mem _ hx)) hs.2 hs.1 m
      simp only [List.take_succ_cons, List.sum_cons] at this ⊢
      omega

theorem sum_sublist_le_take (S L : List Int) (h : S.Sublist L) (hL : ∀ x ∈ L, 0 ≤ x)
    (hs : L.Sorted (fun a b => b ≤ a)) : S.sum ≤ (L.take S.length).sum := by
  induction h with
  | slnil => simp
  | @cons S' L' a _ ih =>
    rw [List.sorted_cons] at hs
    have h1 := ih (fun x hx => hL x (List.mem_cons_of_mem _ hx)) hs.2
    have h2 := sum_take_le_cons L' a (hL a (List.mem_cons_self _ _))
      (fun x hx => hL x (List.mem_cons_of_mem _ hx)) hs.2 hs.1 S'.length
    omega
  | @cons₂ S' L' a _ ih =>
    rw [List.sorted_cons] at hs
    have h1 := ih (fun x hx => hL x (List.mem_cons_of_mem _ hx)) hs.2
    simp only [List.length_cons, List.take_succ_cons, List.sum_cons]
    omega

theorem sum_take_mono (L : List Int) (hL : ∀ x ∈ L, 0 ≤ x) (m k : Nat) (hmk : m ≤ k) :
    (L.take m).sum ≤ (L.take k).sum := by
  induction L generalizing m k with
  | nil => simp
  | cons b L ih =>
    cases m with
    | zero =>
      simp only [List.take_zero, List.sum_nil]
      apply List.sum_nonneg
      intro x hx
      exact hL x (List.mem_of_mem_take hx)
    | succ m =>
      cases k with
      | zero => omega
      | succ k =>
        have := ih (fun x hx => hL x (List.mem_cons_of_mem _ hx)) m k (by omega)
        simp only [List.take_succ_cons, List.sum_cons]
        omega

theorem sorted_desc_int (l : List Int) : (l.insertionSort (fun a b => b ≤ a)).Sorted
    (fun a b => b ≤ a) := by
  haveI : IsTotal Int (fun a b => b ≤ a) := ⟨fun a b => le_total b a⟩
  haveI : IsTrans Int (fun a b => b ≤ a) := ⟨fun a b c h1 h2 => le_trans h2 h1⟩
  exact List.sorted_insertionSort _ l

theorem sum_subperm_le_largestSum (vals sub : List Int) (hv : ∀ x ∈ vals, 0 ≤ x)
    (hsub : sub.Subperm vals) (k : Nat) (hk : sub.length ≤ k) :
    sub.sum ≤ largestSum k vals := by
  haveI : IsAntisymm Int (fun a b => b ≤ a) := ⟨fun a b h1 h2 => le_antisymm h2 h1⟩
  have hp1 := List.perm_insertionSort (fun a b : Int => b ≤ a) sub
  have hp2 := List.perm_insertionSort (fun a b : Int => b ≤ a) vals
  have hsp : (sub.insertionSort (fun a b => b ≤ a)).Subperm
      (vals.insertionSort (fun a b => b ≤ a)) :=
    (hp1.subperm.trans hsub).trans hp2.symm.subperm
  have hsl := List.sublist_of_subperm_of_sorted hsp (sorted_desc_int sub) (sorted_desc_int vals)
  have hnn : ∀ x ∈ vals.insertionSort (fun a b => b ≤ a), 0 ≤ x :=
    fun x hx => hv x (hp2.mem_iff.mp hx)
  have h1 := sum_sublist_le_take _ _ hsl hnn (sorted_desc_int vals)
  rw [hp1.sum_eq, hp1.length_eq] at h1
  have h2 := sum_take_mono _ hnn sub.length k hk
  unfold largestSum
  omega

/-! ## Order of the strips -/

theorem stripLt_eq_false_iff (a b : Strip) :
    stripLt a b = false ↔
      b.1 < a.1 ∨ (b.1 = a.1 ∧ (b.2.1 < a.2.1 ∨ (b.2.1 = a.2.1 ∧ b.2.2 ≤ a.2.2))) := by
  obtain ⟨a1, a2, a3⟩ := a
  obtain ⟨b1, b2, b3⟩ := b
  simp only [stripLt, pairLt, Bool.or_eq_false_iff, decide_eq_false_iff_not, Bool.and_eq_false_imp,
    Bool.not_eq_true', not_lt, decide_eq_true_eq]
  constructor
  · rintro ⟨h1, h2⟩
    by_cases h : b1 < a1
    · exact Or.inl h
    · have hb : a1 ≤ b1 := not_lt.mp h
      have := h2 hb
      omega
  · intro h
    refine ⟨by omega, fun h1 => ⟨by omega, fun h2 => by omega⟩⟩

theorem sortStripsDesc_perm (l : List Strip) : (sortStripsDesc l).Perm l :=
  List.perm_insertionSort _ l

theorem sortStripsDesc_sorted (l : List Strip) :
    (sortStripsDesc l).Sorted (fun a b => stripLt a b = false) := by
  haveI : IsTotal Strip (fun a b => stripLt a b = false) :=
    ⟨fun a b => by
      simp only [stripLt_eq_false_iff]
      omega⟩
  haveI : IsTrans Strip (fun a b => stripLt a b = false) :=
    ⟨fun a b c h1 h2 => by
      simp only [stripLt_eq_false_iff] at h1 h2 ⊢
      omega⟩
  exact List.sorted_insertionSort _ l

theorem sortStripsDesc_scores (l : List Strip) :
    (sortStripsDesc l).map Prod.fst = (l.map Prod.fst).insertionSort (fun a b => b ≤ a) := by
  haveI : IsAntisymm Int (fun a b => b ≤ a) := ⟨fun a b h1 h2 => le_antisymm h2 h1⟩
  apply List.eq_of_perm_of_sorted (r := fun a b : Int => b ≤ a)
  · exact ((sortStripsDesc_perm l).map Prod.fst).trans (List.perm_insertionSort _ _).symm
  · have h := sortStripsDesc_sorted l
    unfold List.Sorted at h ⊢
    rw [List.pairwise_map]
    apply h.imp
    intro a b hab
    rw [stripLt_eq_false_iff] at hab
    omega
  · exact sorted_desc_int _

/-! ## C7: the greedy selection of strips -/

theorem edge_eq_of_not_lt (a b : Edge) (h1 : Edge.lt a b = false) (h2 : Edge.lt b a = false) :
    a = b := by
  unfold Edge.lt at h1 h2
  cases hab : a.p1.lt b.p1
  · cases hba : b.p1.lt a.p1
    · simp only [hab, hba, Bool.false_eq_true, if_false] at h1 h2
      have e1 := point_eq_of_not_lt _ _ hab hba
      have e2 := point_eq_of_not_lt _ _ h1 h2
      cases a; cases b
      simp only at e1 e2
      rw [e1, e2]
    · simp [hba] at h2
  · simp [hab] at h1

theorem mem_insertEdge (p : Polygon) (e e' : Edge) :
    e ∈ (p.insertEdge e').edges ↔ e = e' ∨ e ∈ p.edges := by
  unfold Polygon.insertEdge
  exact mem_setInsert Edge.lt edge_eq_of_not_lt e' e p.edges

theorem mem_foldl_insertEdge (es : List Edge) (p : Polygon) (e : Edge) :
    e ∈ (es.foldl Polygon.insertEdge p).edges ↔ e ∈ es ∨ e ∈ p.edges := by
  induction es generalizing p with
  | nil => simp
  | cons e' es ih =>
    rw [List.foldl_cons, ih, mem_insertEdge, List.mem_cons]
    tauto

theorem mem_addBand (axis : Axis) (p : Polygon) (s : Strip) (e : Edge) :
    e ∈ (addBand axis p s).edges ↔ e ∈ bandEdges axis s ∨ e ∈ p.edges := by
  unfold addBand
  rw [mem_foldl_insertEdge]

theorem takeStrips_eq_foldl (axis : Axis) (l : List Strip) (p : Polygon)
    (h : ∀ s ∈ l, 0 < s.1) : takeStrips axis l p = l.foldl (addBand axis) p := by
  induction l generalizing p with
  | nil => rfl
  | cons s rest ih =>
    have hs : ¬ s.1 ≤ 0 := not_le.mpr (h s (List.mem_cons_self _ _))
    unfold takeStrips
    rw [if_neg hs, List.foldl_cons]
    exact ih _ (fun x hx => h x (List.mem_cons_of_mem _ hx))

theorem foldl_addBand_score (axis : Axis) (l : List Strip) (p : Polygon) :
    (l.foldl (addBand axis) p).score = p.score + (l.map Prod.fst).sum := by
  induction l generalizing p with
  | nil => simp
  | cons s rest ih =>
    rw [List.foldl_cons, ih, addBand_score]
    simp only [List.map_cons, List.sum_cons]
    ring

theorem mem_foldl_addBand (axis : Axis) (l : List Strip) (p : Polygon) (e : Edge) :
    e ∈ (l.foldl (addBand axis) p).edges ↔ (∃ s ∈ l, e ∈ bandEdges axis s) ∨ e ∈ p.edges := by
  induction l generalizing p with
  | nil => simp
  | cons s rest ih =>
    rw [List.foldl_cons, ih, mem_addBand]
    constructor
    · rintro (⟨x, hx, hex⟩ | h | h)
      · exact Or.inl ⟨x, List.mem_cons_of_mem _ hx, hex⟩
      · exact Or.inl ⟨s, List.mem_cons_self _ _, h⟩
      · exact Or.inr h
    · rintro (⟨x, hx, hex⟩ | h)
      · rcases List.mem_cons.mp hx with rfl | hx
        · exact Or.inr (Or.inl hex)
        · exact Or.inl ⟨x, hx, hex⟩
      · exact Or.inr (Or.inr h)

theorem sweep_lone_seven :
    sweep (stripScores Axis.X (ProblemContext.new [⟨10000, 0, 7⟩] [])) 0 =
      [((7 : Int), ((0 : Int), (10000 : Int)))] := by
  rw [stripScores_lone]
  have h1 : toInt32 (Axis.X.coord ⟨10000, 0, 7⟩) = 10000 := by decide
  have h2 : toInt32 (⟨10000, 0, 7⟩ : Node).val = 7 := by decide
  rw [h1, h2, sweep_lone 7 0 (le_refl _)]
  rfl

/-! ## C16: the best-N lookup never throws -/

/-- C16 (best-N lookup never fails): for every crystal list and mine list,
every crystal coordinate is a key of `point_values` after the construction of
the context, so the selection loop of `BestNPointsStrategy::solve` and the
method itself return a result: the missing-key branch is never taken. -/
theorem bestN_lookup_never_fails (crystals mines : List Node) :
    (∀ c ∈ crystals,
      (mapAt (toInt32 c.x, toInt32 c.y)
        (ProblemContext.new crystals mines).point_values).isSome) ∧
    (bestLoop (ProblemContext.new crystals mines)
      (sortCrystalsDesc (ProblemContext.new crystals mines).crystals)
      BestState.initial).isSome ∧
    (BestNPointsStrategy.solve (ProblemContext.new crystals mines)).isSome :=
  ⟨fun c hc => point_values_has_crystal crystals mines c hc,
    bestLoop_isSome (ProblemContext.new crystals mines) (sortCrystalsDesc crystals)
      (fun c hc => point_values_has_crystal crystals mines c ((mem_sortCrystalsDesc _ _).mp hc))
      BestState.initial,
    bestN_solve_isSome crystals mines⟩

/-- C16, witness: the crystal (1, 1, 10) of the aggregation example. -/
theorem bestN_lookup_never_fails_witness :
    (⟨1, 1, 10⟩ : Node) ∈ exampleCrystals ∧
    (mapAt (toInt32 (⟨1, 1, 10⟩ : Node).x, toInt32 (⟨1, 1, 10⟩ : Node).y)
      (ProblemContext.new exampleCrystals []).point_values).isSome :=
  ⟨by decide, (bestN_lookup_never_fails exampleCrystals []).1 ⟨1, 1, 10⟩ (by decide)⟩

/-! ## C11: the strip strategy on the empty input -/

theorem mapGet_nil (i : Int) : mapGet ([] : List (Int × Int)) i = 0 := rfl

theorem sweep_nil (t : Int) (ht : t ≤ 0) : sweep [] t = [] := by
  unfold sweep
  rw [sweepLoop_all_zero [] t ht _ (fun i _ => mapGet_nil _)]
  rfl

theorem stripPolygon_empty (axis : Axis) (t : Int) (ht : t ≤ 0) :
    stripPolygon axis (ProblemContext.new [] []) t = { score := 0, edges := [] } := by
  unfold stripPolygon
  have hs : stripScores axis (ProblemContext.new [] []) = [] := rfl
  simp only [hs, sweep_nil t ht]
  rfl

/-- C11 (strip strategy on empty input): with no crystal and no mine,
`StripStrategy::solve` returns, for the axis X and for the axis Y, the polygon
of score 0 with an empty edge set. -/
theorem strip_empty_input :
    StripStrategy.solve Axis.X (ProblemContext.new [] []) = { score := 0, edges := [] } ∧
    StripStrategy.solve Axis.Y (ProblemContext.new [] []) = { score := 0, edges := [] } := by
  have h : ∀ axis : Axis,
      StripStrategy.solve axis (ProblemContext.new [] []) = { score := 0, edges := [] } := by
    intro axis
    obtain ⟨i, hi, _, _⟩ := stripSolve_isFirstMax axis (ProblemContext.new [] [])
    obtain ⟨t, ht, heq⟩ := List.mem_map.mp (List.getElem?_mem hi)
    rw [← heq]
    exact stripPolygon_empty axis t (thresholds_nonpos t ht)
  exact ⟨h Axis.X, h Axis.Y⟩

/-! ## std::set as a sorted list -/

theorem setInsert_sorted {α : Type} (lt : α → α → Bool) (h : IsSetOrder lt) (x : α)
    (l : List α) (hl : l.Sorted (fun a b => lt a b = true)) :
    (setInsert lt x l).Sorted (fun a b => lt a b = true) := by
  induction l with
  | nil => simp [setInsert]
  | cons y ys ih =>
    rw [List.sorted_cons] at hl
    unfold setInsert
    cases h1 : lt x y
    · cases h2 : lt y x
      · simp only [Bool.false_eq_true, if_false]
        exact List.sorted_cons.mpr hl
      · simp only [Bool.false_eq_true, if_false, if_true]
        refine List.sorted_cons.mpr ⟨?_, ih hl.2⟩
        intro z hz
        rcases (mem_setInsert lt h.total x z ys).mp hz with rfl | hz
        · exact h2
        · exact hl.1 z hz
    · simp only [if_true]
      refine List.sorted_cons.mpr ⟨?_, List.sorted_cons.mpr hl⟩
      intro z hz
      rcases List.mem_cons.mp hz with rfl | hz
      · exact h1
      · exact h.trans x y z h1 (hl.1 z hz)

theorem sorted_nodup_of_setOrder {α : Type} (lt : α → α → Bool) (h : IsSetOrder lt)
    (l : List α) (hl : l.Sorted (fun a b => lt a b = true)) : l.Nodup := by
  unfold List.Sorted at hl
  unfold List.Nodup
  apply hl.imp
  intro a b hab e
  subst e
  rw [h.irrefl a] at hab
  exact absurd hab (by simp)

theorem foldl_setInsert_sorted {α : Type} (lt : α → α → Bool) (h : IsSetOrder lt)
    (xs s : List α) (hs : s.Sorted (fun a b => lt a b = true)) :
    (xs.foldl (fun acc x => setInsert lt x acc) s).Sorted (fun a b => lt a b = true) := by
  induction xs generalizing s with
  | nil => exact hs
  | cons x xs ih => exact ih _ (setInsert_sorted lt h x s hs)

theorem mem_foldl_setInsert {α : Type} (lt : α → α → Bool) (h : IsSetOrder lt)
    (xs s : List α) (q : α) :
    q ∈ xs.foldl (fun acc x => setInsert lt x acc) s ↔ q ∈ xs ∨ q ∈ s := by
  induction xs generalizing s with
  | nil => simp
  | cons x xs ih =>
    rw [List.foldl_cons, ih, mem_setInsert lt h.total, List.mem_cons]
    tauto

theorem length_eq_of_nodup_of_mem_iff {α : Type} (l1 l2 : List α) (h1 : l1.Nodup)
    (h2 : l2.Nodup) (h : ∀ x, x ∈ l1 ↔ x ∈ l2) : l1.length = l2.length :=
  ((List.perm_ext_iff_of_nodup h1 h2).mpr h).length_eq

/-! ## The orders of points and edges -/

theorem pointLt_trans (a b c : Point) (h1 : a.lt b = true) (h2 : b.lt c = true) :
    a.lt c = true := by
  rw [pointLt_iff] at h1 h2 ⊢
  rcases h1 with h1 | ⟨h1, h1'⟩ <;> rcases h2 with h2 | ⟨h2, h2'⟩
  · exact Or.inl (lt_trans h1 h2)
  · exact Or.inl (h2 ▸ h1)
  · exact Or.inl (h1 ▸ h2)
  · exact Or.inr ⟨h1.trans h2, lt_trans h1' h2'⟩

theorem pointLt_setOrder : IsSetOrder Point.lt :=
  ⟨pointLt_irrefl, pointLt_trans, point_eq_of_not_lt⟩

theorem edgeLt_iff (a b : Edge) :
    a.lt b = true ↔ a.p1.lt b.p1 = true ∨ (a.p1 = b.p1 ∧ a.p2.lt b.p2 = true) := by
  unfold Edge.lt
  cases hab : a.p1.lt b.p1
  · cases hba : b.p1.lt a.p1
    · have e := point_eq_of_not_lt _ _ hab hba
      simp [e]
    · simp only [Bool.false_eq_true, if_false, if_true, false_or, false_iff, not_and]
      intro e
      rw [e, pointLt_irrefl] at hba
      exact absurd hba (by simp)
  · simp

theorem edgeLt_trans (a b c : Edge) (h1 : a.lt b = true) (h2 : b.lt c = true) :
    a.lt c = true := by
  rw [edgeLt_iff] at h1 h2 ⊢
  rcases h1 with h1 | ⟨h1, h1'⟩ <;> rcases h2 with h2 | ⟨h2, h2'⟩
  · exact Or.inl (pointLt_trans _ _ _ h1 h2)
  · exact Or.inl (h2 ▸ h1)
  · exact Or.inl (h1 ▸ h2)
  · exact Or.inr ⟨h1.trans h2, pointLt_trans _ _ _ h1' h2'⟩

theorem edgeLt_setOrder : IsSetOrder Edge.lt :=
  ⟨edgeLt_irrefl, edgeLt_trans, edge_eq_of_not_lt⟩

/-! ## C18: the vertex count -/

theorem vertices_foldl_eq (es : List Edge) (vs : List Point) :
    es.foldl (fun vertices edge =>
        setInsert Point.lt edge.p2 (setInsert Point.lt edge.p1 vertices)) vs =
      (endpoints es).foldl (fun acc x => setInsert Point.lt x acc) vs := by
  induction es generalizing vs with
  | nil => rfl
  | cons e es ih =>
    simp only [List.foldl_cons, endpoints]
    exact ih _

theorem mem_endpoints (es : List Edge) (v : Point) :
    v ∈ endpoints es ↔ ∃ e ∈ es, v = e.p1 ∨ v = e.p2 := by
  induction es with
  | nil => simp [endpoints]
  | cons e es ih =>
    simp only [endpoints, List.mem_cons, ih, exists_eq_or_imp, or_assoc]

theorem getVertexCount_eq_card (p : Polygon) :
    p.getVertexCount = (endpoints p.edges).toFinset.card := by
  unfold Polygon.getVertexCount
  rw [vertices_foldl_eq]
  have hs := foldl_setInsert_sorted Point.lt pointLt_setOrder (endpoints p.edges) []
    List.sorted_nil
  have hn := sorted_nodup_of_setOrder Point.lt pointLt_setOrder _ hs
  rw [← List.toFinset_card_of_nodup hn]
  congr 1
  apply List.toFinset.ext
  intro x
  rw [mem_foldl_setInsert Point.lt pointLt_setOrder]
  simp

theorem edgeNew_endpoints (a b v : Point) :
    (v = (Edge.new a b).p1 ∨ v = (Edge.new a b).p2) ↔ (v = a ∨ v = b) := by
  unfold Edge.new
  cases b.lt a
  · simp
  · simp only [if_true]
    tauto

theorem mem_endpoints_rectEdges (x1 y1 x2 y2 : ℚ) (v : Point) :
    (∃ e ∈ rectEdges x1 y1 x2 y2, v = e.p1 ∨ v = e.p2) ↔
      v ∈ [(⟨x1, y1⟩ : Point), ⟨x2, y1⟩, ⟨x2, y2⟩, ⟨x1, y2⟩] := by
  simp only [rectEdges, List.mem_cons, List.mem_singleton, List.not_mem_nil, or_false,
    exists_eq_or_imp, exists_eq_left, edgeNew_endpoints]
  tauto

theorem getVertexCount_of_rect (p : Polygon) (x1 y1 x2 y2 : ℚ) (hx : x1 < x2) (hy : y1 < y2)
    (hmem : ∀ e, e ∈ p.edges ↔ e ∈ rectEdges x1 y1 x2 y2) : p.getVertexCount = 4 := by
  rw [getVertexCount_eq_card]
  have hset : (endpoints p.edges).toFinset =
      [(⟨x1, y1⟩ : Point), ⟨x2, y1⟩, ⟨x2, y2⟩, ⟨x1, y2⟩].toFinset := by
    apply List.toFinset.ext
    intro v
    rw [mem_endpoints, ← mem_endpoints_rectEdges]
    constructor
    · rintro ⟨e, he, hv⟩
      exact ⟨e, (hmem e).mp he, hv⟩
    · rintro ⟨e, he, hv⟩
      exact ⟨e, (hmem e).mpr he, hv⟩
  rw [hset, List.toFinset_card_of_nodup]
  · rfl
  · have h1 : x1 ≠ x2 := ne_of_lt hx
    have h2 : y1 ≠ y2 := ne_of_lt hy
    simp [h1, h2, h1.symm, h2.symm]

/-- C18 (polygon vertex count): `getVertexCount` is the number of distinct
points that are an endpoint of some edge of the set; for a rectangle with
x1 < x2 and y1 < y2, a polygon whose edges are exactly the four sides of the
rectangle has vertex count 4. -/
theorem vertex_count (p : Polygon) :
    p.getVertexCount = (endpoints p.edges).toFinset.card ∧
    (∀ x1 y1 x2 y2 : ℚ, x1 < x2 → y1 < y2 →
      (∀ e, e ∈ p.edges ↔ e ∈ rectEdges x1 y1 x2 y2) → p.getVertexCount = 4) :=
  ⟨getVertexCount_eq_card p, getVertexCount_of_rect p⟩

/-- C18, witness: the polygon made of the four sides of the unit square. -/
theorem vertex_count_witness :
    (0 : ℚ) < 1 ∧
    (∀ e, e ∈ ((rectEdges 0 0 1 1).foldl Polygon.insertEdge
        { score := 0, edges := [] }).edges ↔ e ∈ rectEdges 0 0 1 1) ∧
    ((rectEdges 0 0 1 1).foldl Polygon.insertEdge
        { score := 0, edges := [] }).getVertexCount = 4 :=
  ⟨by norm_num,
    fun e => by rw [mem_foldl_insertEdge]; simp,
    (vertex_count _).2 0 0 1 1 (by norm_num) (by norm_num)
      (fun e => by rw [mem_foldl_insertEdge]; simp)⟩

/-! ## C13: the score of the best-N strategy -/

theorem isRecorded_nil (x y : Int) : isRecorded [] x y = false := rfl

theorem bestN_solve_eq (ctx : ProblemContext) (st : BestState)
    (h : bestLoop ctx (sortCrystalsDesc ctx.crystals) BestState.initial = some st) :
    BestNPointsStrategy.solve ctx =
      if st.points_to_enclose.isEmpty then some Polygon.default
      else some ((rectEdges (st.min_x - Constants.EPSILON_2)
          ((yBounds st.points_to_enclose).1 - Constants.EPSILON_2)
          (st.max_x + Constants.EPSILON_2)
          ((yBounds st.points_to_enclose).2 + Constants.EPSILON_2)).foldl Polygon.insertEdge
        { score := st.score, edges := [] }) := by
  unfold BestNPointsStrategy.solve
  rw [h]

theorem bestLoop_initial_selected (crystals mines : List Node) (st : BestState)
    (h : bestLoop (ProblemContext.new crystals mines) (sortCrystalsDesc crystals)
      BestState.initial = some st) (x y : Int) :
    st.selected x y ↔
      (x, y) ∈ (firstOccurrences ((sortCrystalsDesc crystals).map Node.key)).take
        Constants.BEST_N_POINTS := by
  have := bestLoop_selected _ _ BestState.initial st []
    (by simp [BestState.initial, isRecorded, mapAt]) h (x, y)
  simpa [BestState.selected, BestState.initial] using this

theorem bestLoop_nonempty (crystals mines : List Node) (hne : crystals ≠ []) (st : BestState)
    (h : bestLoop (ProblemContext.new crystals mines) (sortCrystalsDesc crystals)
      BestState.initial = some st) :
    st.points_to_enclose.isEmpty = false := by
  have hs : sortCrystalsDesc crystals ≠ [] := by
    intro e
    have := (sortCrystalsDesc_perm crystals).length_eq
    rw [e] at this
    exact hne (List.length_eq_zero.mp this.symm)
  obtain ⟨c, rest, hcr⟩ := List.exists_cons_of_ne_nil hs
  have hsel : st.selected c.key.1 c.key.2 := by
    rw [bestLoop_initial_selected crystals mines st h, hcr]
    simp [firstOccurrences, Constants.BEST_N_POINTS]
  unfold BestState.selected at hsel
  cases hp : st.points_to_enclose with
  | nil => rw [hp, isRecorded_nil] at hsel; exact absurd hsel (by simp)
  | cons a b => rfl

theorem foldl_insertEdge_edges (es : List Edge) (p : Polygon) :
    (es.foldl Polygon.insertEdge p).edges =
      es.foldl (fun acc e => setInsert Edge.lt e acc) p.edges := by
  induction es generalizing p with
  | nil => rfl
  | cons e es ih => rw [List.foldl_cons, ih]; rfl

theorem insertedEdges_nodup (es : List Edge) (score : Int) :
    ((es.foldl Polygon.insertEdge { score := score, edges := [] }).edges).Nodup := by
  rw [foldl_insertEdge_edges]
  exact sorted_nodup_of_setOrder Edge.lt edgeLt_setOrder _
    (foldl_setInsert_sorted Edge.lt edgeLt_setOrder es [] List.sorted_nil)

theorem insertedEdges_length (es : List Edge) (hes : es.Nodup) (score : Int) :
    ((es.foldl Polygon.insertEdge { score := score, edges := [] }).edges).length =
      es.length := by
  apply length_eq_of_nodup_of_mem_iff _ _ (insertedEdges_nodup es score) hes
  intro e
  rw [mem_foldl_insertEdge]
  simp

theorem edgeNew_eq_imp (a b c d : Point) (h : Edge.new a b = Edge.new c d) :
    (a = c ∨ a = d) ∧ (b = c ∨ b = d) := by
  have h1 := (edgeNew_endpoints a b a).mpr (Or.inl rfl)
  have h2 := (edgeNew_endpoints a b b).mpr (Or.inr rfl)
  rw [h] at h1 h2
  exact ⟨(edgeNew_endpoints c d a).mp h1, (edgeNew_endpoints c d b).mp h2⟩

theorem rectEdges_nodup (x1 y1 x2 y2 : ℚ) (hx : x1 < x2) (hy : y1 < y2) :
    (rectEdges x1 y1 x2 y2).Nodup := by
  have h1 : x1 ≠ x2 := ne_of_lt hx
  have h2 : y1 ≠ y2 := ne_of_lt hy
  unfold rectEdges
  simp only [List.nodup_cons, List.mem_cons, List.mem_singleton, List.not_mem_nil, not_or,
    List.nodup_nil, and_true, not_false_eq_true]
  refine ⟨⟨?_, ?_, ?_⟩, ⟨?_, ?_⟩, ?_⟩
  all_goals
    intro e
    have := edgeNew_eq_imp _ _ _ _ e
    simp [h1, h2, h1.symm, h2.symm] at this

/-! ## C14: the rectangle of the best-N strategy -/

theorem mem_recordedPoints_mapSetInsert (k : Int) (p q : Int × Int)
    (pts : List (Int × List (Int × Int))) :
    q ∈ recordedPoints (mapSetInsert k p pts) ↔ q = p ∨ q ∈ recordedPoints pts := by
  induction pts with
  | nil => simp [mapSetInsert, recordedPoints, setInsert]
  | cons e rest ih =>
    obtain ⟨k0, s⟩ := e
    unfold mapSetInsert
    by_cases h0 : k0 = k
    · simp only [h0, if_true, recordedPoints, List.mem_append,
        mem_setInsert pairLt pair_eq_of_not_lt]
      tauto
    · simp only [h0, if_false, recordedPoints, List.mem_append, ih]
      tauto

theorem BestInv_initial : BestInv BestState.initial := by
  refine ⟨?_, ?_, Or.inl rfl, Or.inl rfl⟩
  · intro q
    simp [BestState.initial, recordedPoints, isRecorded, mapAt]
  · intro q hq
    simp [BestState.initial, recordedPoints] at hq

theorem toInt32_of_coord (v : Int) (h0 : 0 ≤ v) (h1 : v ≤ 10000) : toInt32 v = v := by
  unfold toInt32; omega

theorem bestLoop_inv (ctx : ProblemContext) (l : List Node) (hl : ∀ c ∈ l, inCoordSpace c)
    (st st' : BestState) (hinv : BestInv st) (h : bestLoop ctx l st = some st') :
    BestInv st' := by
  induction l generalizing st with
  | nil =>
    simp only [bestLoop, Option.some.injEq] at h
    subst h
    exact hinv
  | cons c rest ih =>
    have hrest : ∀ c ∈ rest, inCoordSpace c := fun d hd => hl d (List.mem_cons_of_mem _ hd)
    unfold bestLoop at h
    split at h
    · simp only [Option.some.injEq] at h
      subst h
      exact hinv
    · split at h
      · exact ih hrest st hinv h
      · split at h
        · exact absurd h (by simp)
        · refine ih hrest _ ?_ h
          obtain ⟨hx0, hx1, hy0, hy1⟩ := hl c (List.mem_cons_self _ _)
          have ex : toInt32 c.x = c.x := toInt32_of_coord _ hx0 hx1
          have ey : toInt32 c.y = c.y := toInt32_of_coord _ hy0 hy1
          obtain ⟨i1, i2, i3, i4⟩ := hinv
          rw [ex, ey]
          refine ⟨?_, ?_, ?_, ?_⟩
          · intro q
            simp only
            rw [mem_recordedPoints_mapSetInsert, isRecorded_mapSetInsert, i1 q]
          · intro q hq
            simp only at hq ⊢
            rcases (mem_recordedPoints_mapSetInsert _ _ _ _).mp hq with rfl | hq
            · exact ⟨min_le_right _ _, le_max_right _ _, hx0, hx1, hy0, hy1⟩
            · obtain ⟨a, b, c1, c2, c3, c4⟩ := i2 q hq
              exact ⟨le_trans (min_le_left _ _) a, le_trans b (le_max_left _ _), c1, c2, c3, c4⟩
          · simp only
            rcases le_total st.min_x (c.x : ℚ) with hle | hle
            · rw [min_eq_left hle]
              rcases i3 with i3 | ⟨q, hq, hqe⟩
              · exact Or.inl i3
              · exact Or.inr ⟨q, (mem_recordedPoints_mapSetInsert _ _ _ _).mpr (Or.inr hq), hqe⟩
            · rw [min_eq_right hle]
              exact Or.inr ⟨(c.x, c.y),
                (mem_recordedPoints_mapSetInsert _ _ _ _).mpr (Or.inl rfl), rfl⟩
          · simp only
            rcases le_total st.max_x (c.x : ℚ) with hle | hle
            · rw [max_eq_right hle]
              exact Or.inr ⟨(c.x, c.y),
                (mem_recordedPoints_mapSetInsert _ _ _ _).mpr (Or.inl rfl), rfl⟩
            · rw [max_eq_left hle]
              rcases i4 with i4 | ⟨q, hq, hqe⟩
              · exact Or.inl i4
              · exact Or.inr ⟨q, (mem_recordedPoints_mapSetInsert _ _ _ _).mpr (Or.inr hq), hqe⟩

theorem yBounds_eq_foldl (pts : List (Int × List (Int × Int))) (init : ℚ × ℚ) :
    pts.foldl (fun acc p_set => p_set.2.foldl
        (fun acc p => (min acc.1 (p.2 : ℚ), max acc.2 (p.2 : ℚ))) acc) init =
      (recordedPoints pts).foldl (fun acc p => (min acc.1 (p.2 : ℚ), max acc.2 (p.2 : ℚ)))
        init := by
  induction pts generalizing init with
  | nil => rfl
  | cons e rest ih =>
    rw [List.foldl_cons, ih]
    simp only [recordedPoints, List.foldl_append]

theorem foldl_minmax (L : List (Int × Int)) (init : ℚ × ℚ) :
    ((L.foldl (fun acc p => (min acc.1 (p.2 : ℚ), max acc.2 (p.2 : ℚ))) init).1 ≤ init.1 ∧
      (∀ p ∈ L, (L.foldl (fun acc p => (min acc.1 (p.2 : ℚ), max acc.2 (p.2 : ℚ))) init).1 ≤
        (p.2 : ℚ)) ∧
      ((L.foldl (fun acc p => (min acc.1 (p.2 : ℚ), max acc.2 (p.2 : ℚ))) init).1 = init.1 ∨
        ∃ p ∈ L, ((p.2 : Int) : ℚ) =
          (L.foldl (fun acc p => (min acc.1 (p.2 : ℚ), max acc.2 (p.2 : ℚ))) init).1)) ∧
    (init.2 ≤ (L.foldl (fun acc p => (min acc.1 (p.2 : ℚ), max acc.2 (p.2 : ℚ))) init).2 ∧
      (∀ p ∈ L, (p.2 : ℚ) ≤
        (L.foldl (fun acc p => (min acc.1 (p.2 : ℚ), max acc.2 (p.2 : ℚ))) init).2) ∧
      ((L.foldl (fun acc p => (min acc.1 (p.2 : ℚ), max acc.2 (p.2 : ℚ))) init).2 = init.2 ∨
        ∃ p ∈ L, ((p.2 : Int) : ℚ) =
          (L.foldl (fun acc p => (min acc.1 (p.2 : ℚ), max acc.2 (p.2 : ℚ))) init).2)) := by
  induction L generalizing init with
  | nil => simp
  | cons a L ih =>
    rw [List.foldl_cons]
    obtain ⟨⟨h1, h2, h3⟩, h4, h5, h6⟩ := ih (min init.1 (a.2 : ℚ), max init.2 (a.2 : ℚ))
    simp only at h1 h3 h4 h6
    refine ⟨⟨le_trans h1 (min_le_left _ _), ?_, ?_⟩, le_trans (le_max_left _ _) h4, ?_, ?_⟩
    · intro p hp
      rcases List.mem_cons.mp hp with rfl | hp
      · exact le_trans h1 (min_le_right _ _)
      · exact h2 p hp
    · rcases h3 with h3 | ⟨p, hp, he⟩
      · rcases le_total init.1 (a.2 : ℚ) with hle | hle
        · left; rw [h3, min_eq_left hle]
        · right
          exact ⟨a, List.mem_cons_self _ _, by rw [h3, min_eq_right hle]⟩
      · exact Or.inr ⟨p, List.mem_cons_of_mem _ hp, he⟩
    · intro p hp
      rcases List.mem_cons.mp hp with rfl | hp
      · exact le_trans (le_max_right _ _) h4
      · exact h5 p hp
    · rcases h6 with h6 | ⟨p, hp, he⟩
      · rcases le_total init.2 (a.2 : ℚ) with hle | hle
        · right
          exact ⟨a, List.mem_cons_self _ _, by rw [h6, max_eq_right hle]⟩
        · left; rw [h6, max_eq_left hle]
      · exact Or.inr ⟨p, List.mem_cons_of_mem _ hp, he⟩

theorem bestLoop_exists_selected (crystals mines : List Node) (hne : crystals ≠ [])
    (st : BestState)
    (h : bestLoop (ProblemContext.new crystals mines) (sortCrystalsDesc crystals)
      BestState.initial = some st) :
    ∃ x y : Int, st.selected x y := by
  have hs : sortCrystalsDesc crystals ≠ [] := by
    intro e
    have := (sortCrystalsDesc_perm crystals).length_eq
    rw [e] at this
    exact hne (List.length_eq_zero.mp this.symm)
  obtain ⟨c, rest, hcr⟩ := List.exists_cons_of_ne_nil hs
  refine ⟨c.key.1, c.key.2, ?_⟩
  rw [bestLoop_initial_selected crystals mines st h, hcr]
  simp [firstOccurrences, Constants.BEST_N_POINTS]

theorem bestN_box (crystals mines : List Node) (hne : crystals ≠ [])
    (hc : ∀ c ∈ crystals, inCoordSpace c) :
    ∃ (st : BestState) (p : Polygon) (minX maxX minY maxY : Int),
      bestLoop (ProblemContext.new crystals mines)
          (sortCrystalsDesc (ProblemContext.new crystals mines).crystals) BestState.initial =
        some st ∧
      BestNPointsStrategy.solve (ProblemContext.new crystals mines) = some p ∧
      ((∃ y, st.selected minX y) ∧ ∀ x y, st.selected x y → minX ≤ x) ∧
      ((∃ y, st.selected maxX y) ∧ ∀ x y, st.selected x y → x ≤ maxX) ∧
      ((∃ x, st.selected x minY) ∧ ∀ x y, st.selected x y → minY ≤ y) ∧
      ((∃ x, st.selected x maxY) ∧ ∀ x y, st.selected x y → y ≤ maxY) ∧
      Constants.EPSILON_2 = 2 / 10 ∧
      (∀ e, e ∈ p.edges ↔
        e ∈ rectEdges ((minX : ℚ) - Constants.EPSILON_2) ((minY : ℚ) - Constants.EPSILON_2)
          ((maxX : ℚ) + Constants.EPSILON_2) ((maxY : ℚ) + Constants.EPSILON_2)) ∧
      p.edges.length = 4 ∧ p.getVertexCount = 4 ∧
      (∀ x y, st.selected x y →
        (minX : ℚ) - Constants.EPSILON_2 < (x : ℚ) ∧ (x : ℚ) < (maxX : ℚ) + Constants.EPSILON_2 ∧
        (minY : ℚ) - Constants.EPSILON_2 < (y : ℚ) ∧
        (y : ℚ) < (maxY : ℚ) + Constants.EPSILON_2) := by
  obtain ⟨st, hst⟩ := Option.isSome_iff_exists.mp
    (bestLoop_isSome (ProblemContext.new crystals mines) (sortCrystalsDesc crystals)
      (fun c hc => point_values_has_crystal crystals mines c ((mem_sortCrystalsDesc _ _).mp hc))
      BestState.initial)
  have hcs : ∀ c ∈ sortCrystalsDesc crystals, inCoordSpace c :=
    fun c hcm => hc c ((mem_sortCrystalsDesc _ _).mp hcm)
  obtain ⟨i1, i2, i3, i4⟩ := bestLoop_inv _ _ hcs BestState.initial st BestInv_initial hst
  have hsel : ∀ x y : Int, st.selected x y ↔ (x, y) ∈ recordedPoints st.points_to_enclose :=
    fun x y => (i1 (x, y)).symm
  obtain ⟨x0, y0, h0⟩ := bestLoop_exists_selected crystals mines hne st hst
  have h0' := (hsel x0 y0).mp h0
  obtain ⟨b1, b2, b3, b4, b5, b6⟩ := i2 _ h0'
  simp only at b1 b2 b3 b4 b5 b6
  have b4' : (x0 : ℚ) ≤ 10000 := by exact_mod_cast b4
  have b3' : (0 : ℚ) ≤ (x0 : ℚ) := by exact_mod_cast b3
  have b6' : (y0 : ℚ) ≤ 10000 := by exact_mod_cast b6
  have b5' : (0 : ℚ) ≤ (y0 : ℚ) := by exact_mod_cast b5
  -- the bounds are attained
  have hminx : ∃ q ∈ recordedPoints st.points_to_enclose, (q.1 : ℚ) = st.min_x := by
    rcases i3 with i3 | i3
    · exact ⟨_, h0', le_antisymm (by rw [i3]; exact b4') b1⟩
    · exact i3
  have hmaxx : ∃ q ∈ recordedPoints st.points_to_enclose, (q.1 : ℚ) = st.max_x := by
    rcases i4 with i4 | i4
    · exact ⟨_, h0', le_antisymm b2 (by rw [i4]; exact b3')⟩
    · exact i4
  have hyb : yBounds st.points_to_enclose =
      (recordedPoints st.points_to_enclose).foldl
        (fun acc p => (min acc.1 (p.2 : ℚ), max acc.2 (p.2 : ℚ)))
        (Constants.COORD_MAX, Constants.COORD_MIN) := yBounds_eq_foldl _ _
  obtain ⟨⟨_, m2, m3⟩, _, m5, m6⟩ := foldl_minmax (recordedPoints st.points_to_enclose)
    (Constants.COORD_MAX, Constants.COORD_MIN)
  rw [← hyb] at m2 m3 m5 m6
  have hminy : ∃ q ∈ recordedPoints st.points_to_enclose,
      (q.2 : ℚ) = (yBounds st.points_to_enclose).1 := by
    rcases m3 with m3 | m3
    · refine ⟨_, h0', le_antisymm ?_ (m2 _ h0')⟩
      rw [m3]
      exact b6'
    · exact m3
  have hmaxy : ∃ q ∈ recordedPoints st.points_to_enclose,
      (q.2 : ℚ) = (yBounds st.points_to_enclose).2 := by
    rcases m6 with m6 | m6
    · refine ⟨_, h0', le_antisymm (m5 _ h0') ?_⟩
      rw [m6]
      exact b5'
    · exact m6
  obtain ⟨qa, hqa, ea⟩ := hminx
  obtain ⟨qb, hqb, eb⟩ := hmaxx
  obtain ⟨qc, hqc, ec⟩ := hminy
  obtain ⟨qd, hqd, ed⟩ := hmaxy
  have hnonempty := bestLoop_nonempty crystals mines hne st hst
  have hsolve := bestN_solve_eq (ProblemContext.new crystals mines) st hst
  rw [hnonempty] at hsolve
  simp only [Bool.false_eq_true, if_false] at hsolve
  rw [← ea, ← eb, ← ec, ← ed] at hsolve
  have hbx : ∀ x y : Int, st.selected x y → qa.1 ≤ x ∧ x ≤ qb.1 ∧ qc.2 ≤ y ∧ y ≤ qd.2 := by
    intro x y hxy
    have hm := (hsel x y).mp hxy
    obtain ⟨c1, c2, _⟩ := i2 _ hm
    have c3 := m2 _ hm
    have c4 := m5 _ hm
    rw [← ea] at c1
    rw [← eb] at c2
    rw [← ec] at c3
    rw [← ed] at c4
    simp only at c1 c2 c3 c4
    exact ⟨by exact_mod_cast c1, by exact_mod_cast c2, by exact_mod_cast c3,
      by exact_mod_cast c4⟩
  have heps : Constants.EPSILON_2 = 2 / 10 := rfl
  have hx12 : (qa.1 : ℚ) - Constants.EPSILON_2 < (qb.1 : ℚ) + Constants.EPSILON_2 := by
    have := (hbx x0 y0 h0).1.trans (hbx x0 y0 h0).2.1
    have : (qa.1 : ℚ) ≤ (qb.1 : ℚ) := by exact_mod_cast this
    rw [heps]; linarith
  have hy12 : (qc.2 : ℚ) - Constants.EPSILON_2 < (qd.2 : ℚ) + Constants.EPSILON_2 := by
    have := (hbx x0 y0 h0).2.2.1.trans (hbx x0 y0 h0).2.2.2
    have : (qc.2 : ℚ) ≤ (qd.2 : ℚ) := by exact_mod_cast this
    rw [heps]; linarith
  have hmem : ∀ e, e ∈ ((rectEdges ((qa.1 : ℚ) - Constants.EPSILON_2)
        ((qc.2 : ℚ) - Constants.EPSILON_2) ((qb.1 : ℚ) + Constants.EPSILON_2)
        ((qd.2 : ℚ) + Constants.EPSILON_2)).foldl Polygon.insertEdge
          { score := st.score, edges := [] }).edges ↔
      e ∈ rectEdges ((qa.1 : ℚ) - Constants.EPSILON_2) ((qc.2 : ℚ) - Constants.EPSILON_2)
        ((qb.1 : ℚ) + Constants.EPSILON_2) ((qd.2 : ℚ) + Constants.EPSILON_2) := by
    intro e
    rw [mem_foldl_insertEdge]
    simp
  refine ⟨st, _, qa.1, qb.1, qc.2, qd.2, hst, hsolve,
    ⟨⟨qa.2, (hsel _ _).mpr hqa⟩, fun x y h => (hbx x y h).1⟩,
    ⟨⟨qb.2, (hsel _ _).mpr hqb⟩, fun x y h => (hbx x y h).2.1⟩,
    ⟨⟨qc.1, (hsel _ _).mpr hqc⟩, fun x y h => (hbx x y h).2.2.1⟩,
    ⟨⟨qd.1, (hsel _ _).mpr hqd⟩, fun x y h => (hbx x y h).2.2.2⟩,
    heps, hmem, ?_, getVertexCount_of_rect _ _ _ _ _ hx12 hy12 hmem, ?_⟩
  · rw [insertedEdges_length _ (rectEdges_nodup _ _ _ _ hx12 hy12)]
    rfl
  · intro x y hxy
    obtain ⟨c1, c2, c3, c4⟩ := hbx x y hxy
    have c1' : (qa.1 : ℚ) ≤ (x : ℚ) := by exact_mod_cast c1
    have c2' : (x : ℚ) ≤ (qb.1 : ℚ) := by exact_mod_cast c2
    have c3' : (qc.2 : ℚ) ≤ (y : ℚ) := by exact_mod_cast c3
    have c4' : (y : ℚ) ≤ (qd.2 : ℚ) := by exact_mod_cast c4
    rw [heps]
    refine ⟨by linarith, by linarith, by linarith, by linarith⟩

theorem sum_range_single (c : Nat) (w : Int) (n : Nat) :
    ((List.range (n + 1)).map (fun (i : Nat) => mapGet [((c : Int), w)] (i : Int))).sum =
      if c ≤ n then w else 0 := by
  induction n with
  | zero =>
    have hr : List.range (0 + 1) = [0] := rfl
    rw [hr]
    simp only [List.map_cons, List.map_nil, List.sum_cons, List.sum_nil, add_zero,
      mapGet_single]
    by_cases hc : c = 0
    · subst hc
      simp
    · have h1 : ¬ (c : Int) = ((0 : Nat) : Int) := by omega
      have h2 : ¬ c ≤ 0 := by omega
      rw [if_neg h1, if_neg h2]
  | succ n ih =>
    rw [List.range_succ, List.map_append, List.sum_append, ih]
    simp only [List.map_cons, List.map_nil, List.sum_cons, List.sum_nil, add_zero,
      mapGet_single]
    by_cases h1 : c ≤ n
    · have h2 : ¬ (c : Int) = ((n + 1 : Nat) : Int) := by omega
      have h3 : c ≤ n + 1 := by omega
      rw [if_pos h1, if_neg h2, if_pos h3, add_zero]
    · by_cases h4 : c = n + 1
      · have h2 : (c : Int) = ((n + 1 : Nat) : Int) := by omega
        have h3 : c ≤ n + 1 := by omega
        rw [if_neg h1, if_pos h2, if_pos h3, zero_add]
      · have h2 : ¬ (c : Int) = ((n + 1 : Nat) : Int) := by omega
        have h3 : ¬ c ≤ n + 1 := by omega
        rw [if_neg h1, if_neg h2, if_neg h3, add_zero]

theorem sweep_single_pos (c : Nat) (hc : c ≤ 10000) (w t : Int) (ht : t ≤ 0) (hw : 0 < w) :
    sweep [((c : Int), w)] t = [(w, ((0 : Int), (10000 : Int)))] := by
  unfold sweep
  rw [sweepLoop_all_above, sum_range_single]
  · have hc' : c ≤ Constants.COORD_MAX_INT := hc
    simp only [hc', if_true, sweepClose, gt_iff_lt, hw, List.nil_append]
    rfl
  · intro i _
    rw [mapGet_single]
    split <;> omega

theorem stripPolygon_of_single (axis : Axis) (ctx : ProblemContext) (t w : Int) (hw : 0 < w)
    (hsw : sweep (stripScores axis ctx) t = [(w, ((0 : Int), (10000 : Int)))]) :
    stripPolygon axis ctx t =
      addBand axis { score := 0, edges := [] } (w, ((0 : Int), (10000 : Int))) := by
  unfold stripPolygon
  simp only [hsw]
  have hn : ¬ w ≤ 0 := by omega
  simp only [sortStripsDesc, List.insertionSort, List.orderedInsert,
    Constants.STRIP_MAX_POLYGONS, List.take_succ_cons, List.take_nil, takeStrips, hn, if_false]

theorem stripSolve_single (axis : Axis) (ctx : ProblemContext) (c : Nat) (hc : c ≤ 10000)
    (w : Int) (hw : 0 < w) (hss : stripScores axis ctx = [((c : Int), w)]) :
    StripStrategy.solve axis ctx =
      addBand axis { score := 0, edges := [] } (w, ((0 : Int), (10000 : Int))) := by
  obtain ⟨i, hi, _, _⟩ := stripSolve_isFirstMax axis ctx
  obtain ⟨t, ht, heq⟩ := List.mem_map.mp (List.getElem?_mem hi)
  rw [← heq]
  apply stripPolygon_of_single axis ctx t w hw
  rw [hss]
  exact sweep_single_pos c hc w t (thresholds_nonpos t ht) hw

theorem bestN_singleCrystal :
    BestNPointsStrategy.solve (ProblemContext.new singleCrystal []) =
      some ((rectEdges (998 / 10) (998 / 10) (1002 / 10) (1002 / 10)).foldl Polygon.insertEdge
        { score := 50, edges := [] }) := by
  decide!

theorem toInt32_idem (v : Int) : toInt32 (toInt32 v) = toInt32 v := by
  unfold toInt32; omega

theorem toInt32_add_congr (a x y : Int) (h : toInt32 x = toInt32 y) :
    toInt32 (a + x) = toInt32 (a + y) := by
  unfold toInt32 at h ⊢; omega

theorem mapGet_mapAdd {κ : Type} [DecidableEq κ] (k c : κ) (v : Int) (m : List (κ × Int)) :
    mapGet (mapAdd k v m) c = if c = k then toInt32 (mapGet m k + v) else mapGet m c := by
  unfold mapGet
  rw [mapAt_mapAdd]
  split <;> rfl

theorem stripNet_cons (axis : Axis) (c : Int) (n : Node) (l : List Node) :
    stripNet axis c (n :: l) =
      (if toInt32 (axis.coord n) = c then n.val else 0) + stripNet axis c l := by
  unfold stripNet
  by_cases h : toInt32 (axis.coord n) = c <;> simp [List.filter_cons, h]

theorem stripFold_mapGet (axis : Axis) (c : Int) (l : List Node) (m : List (Int × Int)) :
    toInt32 (mapGet (l.foldl (fun m n => mapAdd (toInt32 (axis.coord n)) n.val m) m) c) =
      toInt32 (mapGet m c + stripNet axis c l) := by
  induction l generalizing m with
  | nil => simp [stripNet]
  | cons n l ih =>
    rw [List.foldl_cons, ih, mapGet_mapAdd, stripNet_cons]
    by_cases h : c = toInt32 (axis.coord n)
    · rw [if_pos h, if_pos h.symm, ← h, toInt32_add_left]
      congr 1
      ring
    · have h' : ¬ toInt32 (axis.coord n) = c := fun e => h e.symm
      rw [if_neg h, if_neg h']
      congr 1
      ring

theorem mapAdd_allInt32 {κ : Type} [DecidableEq κ] (k : κ) (v : Int) (m : List (κ × Int))
    (hm : ∀ e ∈ m, inInt32 e.2) : ∀ e ∈ mapAdd k v m, inInt32 e.2 := by
  induction m with
  | nil =>
    intro e he
    simp only [mapAdd, List.mem_singleton] at he
    subst he
    exact toInt32_inInt32 _
  | cons a rest ih =>
    obtain ⟨k0, w⟩ := a
    intro e he
    unfold mapAdd at he
    by_cases h0 : k0 = k
    · simp only [h0, if_true, List.mem_cons] at he
      rcases he with rfl | he
      · exact toInt32_inInt32 _
      · exact hm e (List.mem_cons_of_mem _ he)
    · simp only [h0, if_false, List.mem_cons] at he
      rcases he with rfl | he
      · exact hm _ (List.mem_cons_self _ _)
      · exact ih (fun x hx => hm x (List.mem_cons_of_mem _ hx)) e he

theorem mapGet_inInt32 {κ : Type} [DecidableEq κ] (m : List (κ × Int))
    (hm : ∀ e ∈ m, inInt32 e.2) (c : κ) : inInt32 (mapGet m c) := by
  induction m with
  | nil => unfold mapGet mapAt; decide
  | cons a rest ih =>
    obtain ⟨k0, w⟩ := a
    unfold mapGet mapAt
    by_cases h0 : k0 = c
    · simp only [h0, if_true, Option.getD_some]
      exact hm _ (List.mem_cons_self _ _)
    · simp only [h0, if_false]
      exact ih (fun x hx => hm x (List.mem_cons_of_mem _ hx))

theorem stripFold_allInt32 (axis : Axis) (l : List Node) (m : List (Int × Int))
    (hm : ∀ e ∈ m, inInt32 e.2) :
    ∀ e ∈ l.foldl (fun m n => mapAdd (toInt32 (axis.coord n)) n.val m) m, inInt32 e.2 := by
  induction l generalizing m with
  | nil => exact hm
  | cons n l ih => exact ih _ (mapAdd_allInt32 _ _ m hm)

theorem stripScores_eq_foldl (axis : Axis) (crystals mines : List Node) :
    stripScores axis (ProblemContext.new crystals mines) =
      (crystals ++ mines).foldl (fun m n => mapAdd (toInt32 (axis.coord n)) n.val m) [] := by
  unfold stripScores
  rw [List.foldl_append]
  rfl

theorem stripScores_value (axis : Axis) (crystals mines : List Node) (c : Int) :
    mapGet (stripScores axis (ProblemContext.new crystals mines)) c =
      toInt32 (stripNet axis c (crystals ++ mines)) := by
  rw [stripScores_eq_foldl]
  have h1 := stripFold_mapGet axis c (crystals ++ mines) []
  have h2 := mapGet_inInt32 _ (stripFold_allInt32 axis (crystals ++ mines) [] (by simp)) c
  rw [toInt32_of_inInt32 _ h2] at h1
  rw [h1]
  congr 1
  simp [mapGet, mapAt]

theorem entriesSum_cons (axis : Axis) (c : Int) (e : (Int × Int) × Int)
    (m : List ((Int × Int) × Int)) :
    entriesSum axis c (e :: m) =
      (if axis.keyCoord e.1 = c then e.2 else 0) + entriesSum axis c m := by
  unfold entriesSum
  by_cases h : axis.keyCoord e.1 = c <;> simp [List.filter_cons, h]

theorem entriesSum_mapAdd (axis : Axis) (c : Int) (k : Int × Int) (v : Int)
    (m : List ((Int × Int) × Int)) :
    toInt32 (entriesSum axis c (mapAdd k v m)) =
      toInt32 (entriesSum axis c m + (if axis.keyCoord k = c then v else 0)) := by
  induction m with
  | nil =>
    have hn : entriesSum axis c ([] : List ((Int × Int) × Int)) = 0 := rfl
    simp only [mapAdd, entriesSum_cons, hn, add_zero, zero_add]
    by_cases hk : axis.keyCoord k = c
    · simp only [hk, if_true]
      exact toInt32_idem _
    · simp only [hk, if_false]
  | cons a rest ih =>
    obtain ⟨k0, w⟩ := a
    unfold mapAdd
    by_cases h0 : k0 = k
    · subst h0
      simp only [if_true, entriesSum_cons]
      by_cases hk : axis.keyCoord k0 = c
      · simp only [hk, if_true]
        rw [toInt32_add_left]
        congr 1
        ring
      · simp only [hk, if_false, add_zero]
    · simp only [h0, if_false, entriesSum_cons]
      rw [toInt32_add_congr _ _ _ ih]
      congr 1
      ring

theorem keyCoord_key (axis : Axis) (n : Node) :
    axis.keyCoord n.key = toInt32 (axis.coord n) := by
  cases axis <;> rfl

theorem contextFold_entriesSum (axis : Axis) (c : Int) (l : List Node)
    (acc : List ((Int × Int) × Int) × Int) :
    toInt32 (entriesSum axis c (l.foldl contextStep acc).1) =
      toInt32 (entriesSum axis c acc.1 + stripNet axis c l) := by
  induction l generalizing acc with
  | nil => simp [stripNet]
  | cons n l ih =>
    rw [List.foldl_cons, ih, stripNet_cons]
    have hstep : (contextStep acc n).1 = mapAdd n.key n.val acc.1 := rfl
    rw [hstep, add_comm, toInt32_add_congr _ _ _ (entriesSum_mapAdd axis c n.key n.val acc.1),
      keyCoord_key]
    congr 1
    ring

theorem point_values_entriesSum (axis : Axis) (crystals mines : List Node) (c : Int) :
    toInt32 (entriesSum axis c (ProblemContext.new crystals mines).point_values) =
      toInt32 (stripNet axis c (crystals ++ mines)) := by
  have h1 := contextFold_entriesSum axis c mines
    ((crystals.foldl contextStep ([], 0)).1, 0)
  have h2 := contextFold_entriesSum axis c crystals ([], 0)
  have hpv : (ProblemContext.new crystals mines).point_values =
      (mines.foldl contextStep ((crystals.foldl contextStep ([], 0)).1, 0)).1 := rfl
  rw [hpv, h1]
  simp only at h2 ⊢
  rw [add_comm, toInt32_add_congr _ _ _ h2]
  have hs : stripNet axis c (crystals ++ mines) =
      stripNet axis c crystals + stripNet axis c mines := by
    unfold stripNet; simp [List.filter_append]
  rw [hs]
  congr 1
  simp only [entriesSum, List.filter_nil, List.map_nil, List.sum_nil]
  ring

/-- C17, counterexample: for the crystals (1, 1, 2^30) and (1, 2, 2^30) and the
axis X, the strip sweep holds -2^31 at coordinate 1, whereas the entries of
`point_values` with abscissa 1 sum to 2^31. -/
theorem strip_value_differs_from_context :
    mapGet (stripScores Axis.X (ProblemContext.new columnCrystals [])) 1 = -2147483648 ∧
    entriesSum Axis.X 1 (ProblemContext.new columnCrystals []).point_values = 2147483648 ∧
    mapGet (stripScores Axis.X (ProblemContext.new columnCrystals [])) 1 ≠
      entriesSum Axis.X 1 (ProblemContext.new columnCrystals []).point_values := by
  decide

/-- C17, amended (strip aggregation and context): for every input, axis and
coordinate c, the value the strip sweep holds for c is the sum of the entries
of `point_values` over the coordinate pairs whose axis component is c, reduced
to the 32-bit int range; the two are equal whenever that sum of entries is
within the int range, and the value is 0 when there is no such entry. -/
theorem strip_aggregation_matches_context (crystals mines : List Node) (axis : Axis) (c : Int) :
    mapGet (stripScores axis (ProblemContext.new crystals mines)) c =
      toInt32 (entriesSum axis c (ProblemContext.new crystals mines).point_values) ∧
    (inInt32 (entriesSum axis c (ProblemContext.new crystals mines).point_values) →
      mapGet (stripScores axis (ProblemContext.new crystals mines)) c =
        entriesSum axis c (ProblemContext.new crystals mines).point_values) ∧
    ((∀ e ∈ (ProblemContext.new crystals mines).point_values, axis.keyCoord e.1 ≠ c) →
      mapGet (stripScores axis (ProblemContext.new crystals mines)) c = 0) := by
  have hmain : mapGet (stripScores axis (ProblemContext.new crystals mines)) c =
      toInt32 (entriesSum axis c (ProblemContext.new crystals mines).point_values) := by
    rw [stripScores_value, point_values_entriesSum]
  refine ⟨hmain, fun hr => by rw [hmain, toInt32_of_inInt32 _ hr], fun hnone => ?_⟩
  rw [hmain]
  have : entriesSum axis c (ProblemContext.new crystals mines).point_values = 0 := by
    unfold entriesSum
    rw [List.filter_eq_nil_iff.mpr]
    · rfl
    · intro e he
      simpa using hnone e he
  rw [this]
  rfl

/-- C17, witness: the aggregation example at the occupied abscissa 1 and at
the free abscissa 2. -/
theorem strip_aggregation_matches_context_witness :
    inInt32 (entriesSum Axis.X 1 (ProblemContext.new exampleCrystals []).point_values) ∧
    mapGet (stripScores Axis.X (ProblemContext.new exampleCrystals [])) 1 =
      entriesSum Axis.X 1 (ProblemContext.new exampleCrystals []).point_values ∧
    (∀ e ∈ (ProblemContext.new exampleCrystals []).point_values, Axis.X.keyCoord e.1 ≠ 2) ∧
    mapGet (stripScores Axis.X (ProblemContext.new exampleCrystals [])) 2 = 0 :=
  ⟨by decide,
    (strip_aggregation_matches_context exampleCrystals [] Axis.X 1).2.1 (by decide),
    by decide,
    (strip_aggregation_matches_context exampleCrystals [] Axis.X 2).2.2 (by decide)⟩

/-! ## The invariant of the coordinate sweep -/

theorem intervalSum_empty (ss : List (Int × Int)) (s e : Int) (h : e < s) :
    intervalSum ss s e = 0 := by
  unfold intervalSum
  have : (e + 1 - s).toNat = 0 := by omega
  rw [this]
  rfl

theorem intervalSum_succ (ss : List (Int × Int)) (s e : Int) (h : s ≤ e + 1) :
    intervalSum ss s (e + 1) = intervalSum ss s e + mapGet ss (e + 1) := by
  unfold intervalSum
  have h1 : (e + 1 + 1 - s).toNat = (e + 1 - s).toNat + 1 := by omega
  rw [h1, List.range_succ, List.map_append, List.sum_append]
  simp only [List.map_cons, List.map_nil, List.sum_cons, List.sum_nil, add_zero]
  congr 2
  omega

theorem sweepInv_initial (ss : List (Int × Int)) :
    SweepInv ss (-1) { valuable_strips := [], current_score := 0, strip_start := 0 } := by
  refine ⟨le_refl _, by norm_num, ?_, ?_, List.Pairwise.nil⟩
  · rw [intervalSum_empty ss 0 (-1) (by norm_num)]
  · intro x hx
    simp at hx

theorem sweepInv_step (ss : List (Int × Int)) (t : Int) (i : Nat) (st : SweepState)
    (h : SweepInv ss ((i : Int) - 1) st) : SweepInv ss (i : Int) (sweepStep ss t st i) := by
  obtain ⟨h1, h2, h3, h4, h5⟩ := h
  have h2' : st.strip_start ≤ (i : Int) := by omega
  have hsum : intervalSum ss st.strip_start (i : Int) =
      intervalSum ss st.strip_start ((i : Int) - 1) + mapGet ss (i : Int) := by
    have := intervalSum_succ ss st.strip_start ((i : Int) - 1) (by omega)
    simpa using this
  unfold sweepStep
  split
  · refine ⟨h1, by simp only; omega, ?_, ?_, h5⟩
    · simp only
      rw [hsum, h3]
    · intro x hx
      exact h4 x hx
  · refine ⟨by simp only; omega, by simp only; omega, ?_, ?_, ?_⟩
    · simp only
      rw [intervalSum_empty ss _ _ (by omega)]
    · intro x hx
      simp only at hx ⊢
      split at hx
      · rename_i hpos
        rcases List.mem_append.mp hx with hx | hx
        · obtain ⟨a, b, c, d⟩ := h4 x hx
          exact ⟨a, b, by omega, d⟩
        · rw [List.mem_singleton] at hx
          subst hx
          simp only
          have hne : st.strip_start ≤ (i : Int) - 1 := by
            by_contra hcon
            rw [h3, intervalSum_empty ss _ _ (by omega)] at hpos
            exact absurd hpos (by simp)
          exact ⟨h1, hne, by omega, h3⟩
      · obtain ⟨a, b, c, d⟩ := h4 x hx
        exact ⟨a, b, by omega, d⟩
    · simp only
      split
      · rw [List.pairwise_append]
        refine ⟨h5, List.pairwise_singleton _ _, ?_⟩
        intro a ha b hb
        rw [List.mem_singleton] at hb
        subst hb
        exact (h4 a ha).2.2.1
      · exact h5

theorem sweepLoop_inv (ss : List (Int × Int)) (t : Int) (n : Nat) :
    SweepInv ss (n : Int) (sweepLoop ss t n) := by
  induction n with
  | zero =>
    rw [sweepLoop_zero]
    exact sweepInv_step ss t 0 _ (by simpa using sweepInv_initial ss)
  | succ n ih =>
    rw [sweepLoop_succ]
    apply sweepInv_step ss t (n + 1)
    simpa using ih

theorem sweepClose_spec (ss : List (Int × Int)) (n : Nat) (st : SweepState)
    (h : SweepInv ss (n : Int) st) :
    (∀ x ∈ sweepClose n st,
      0 ≤ x.2.1 ∧ x.2.1 ≤ x.2.2 ∧ x.2.2 ≤ (n : Int) ∧ x.1 = intervalSum ss x.2.1 x.2.2) ∧
    (sweepClose n st).Pairwise (fun a b => a.2.2 + 2 ≤ b.2.1) := by
  obtain ⟨h1, h2, h3, h4, h5⟩ := h
  unfold sweepClose
  split
  · rename_i hpos
    have hne : st.strip_start ≤ (n : Int) := by
      by_contra hcon
      rw [h3, intervalSum_empty ss _ _ (by omega)] at hpos
      exact absurd hpos (by simp)
    constructor
    · intro x hx
      rcases List.mem_append.mp hx with hx | hx
      · obtain ⟨a, b, c, d⟩ := h4 x hx
        exact ⟨a, b, by omega, d⟩
      · rw [List.mem_singleton] at hx
        subst hx
        exact ⟨h1, hne, le_refl _, h3⟩
    · rw [List.pairwise_append]
      refine ⟨h5, List.pairwise_singleton _ _, ?_⟩
      intro a ha b hb
      rw [List.mem_singleton] at hb
      subst hb
      exact (h4 a ha).2.2.1
  · constructor
    · intro x hx
      obtain ⟨a, b, c, d⟩ := h4 x hx
      exact ⟨a, b, by omega, d⟩
    · exact h5

theorem sweep_spec (ss : List (Int × Int)) (t : Int) :
    (∀ x ∈ sweep ss t,
      0 ≤ x.2.1 ∧ x.2.1 ≤ x.2.2 ∧ x.2.2 ≤ 10000 ∧ x.1 = intervalSum ss x.2.1 x.2.2) ∧
    (sweep ss t).Pairwise (fun a b => a.2.2 + 2 ≤ b.2.1) := by
  have h := sweepClose_spec ss Constants.COORD_MAX_INT _
    (sweepLoop_inv ss t Constants.COORD_MAX_INT)
  have hn : ((Constants.COORD_MAX_INT : Nat) : Int) = 10000 := by
    simp only [Constants.COORD_MAX_INT, Nat.cast_ofNat]
  rw [hn] at h
  exact h

/-! ## C12: the bands of the strip strategy -/

theorem stripPolygon_eq_foldl (axis : Axis) (ctx : ProblemContext) (t : Int) :
    stripPolygon axis ctx t =
      ((sortStripsDesc (sweep (stripScores axis ctx) t)).take 250).foldl (addBand axis)
        { score := 0, edges := [] } := by
  unfold stripPolygon
  apply takeStrips_eq_foldl
  intro s hs
  exact sweep_strips_pos _ _ s ((mem_sortStripsDesc _ _).mp (List.mem_of_mem_take hs))

theorem chosen_spec (ss : List (Int × Int)) (t : Int) :
    (∀ x ∈ (sortStripsDesc (sweep ss t)).take 250,
      0 ≤ x.2.1 ∧ x.2.1 ≤ x.2.2 ∧ x.2.2 ≤ 10000 ∧ x.1 = intervalSum ss x.2.1 x.2.2 ∧
        0 < x.1) ∧
    ((sortStripsDesc (sweep ss t)).take 250).Pairwise
      (fun a b => a.2.2 + 2 ≤ b.2.1 ∨ b.2.2 + 2 ≤ a.2.1) := by
  obtain ⟨h1, h2⟩ := sweep_spec ss t
  constructor
  · intro x hx
    have hm := (mem_sortStripsDesc _ _).mp (List.mem_of_mem_take hx)
    obtain ⟨a, b, c, d⟩ := h1 x hm
    exact ⟨a, b, c, d, sweep_strips_pos ss t x hm⟩
  · have h3 : (sweep ss t).Pairwise (fun a b => a.2.2 + 2 ≤ b.2.1 ∨ b.2.2 + 2 ≤ a.2.1) :=
      h2.imp (fun h => Or.inl h)
    have h4 := (List.Perm.pairwise_iff (R := fun a b : Strip =>
      a.2.2 + 2 ≤ b.2.1 ∨ b.2.2 + 2 ≤ a.2.1) (fun h => h.symm)
      (sortStripsDesc_perm (sweep ss t))).mpr h3
    exact List.Pairwise.sublist (List.take_sublist _ _) h4

theorem bandInterval_lt (s : Strip) (h : s.2.1 ≤ s.2.2) :
    (bandInterval s).1 < (bandInterval s).2 ∧ (bandInterval s).1 = (s.2.1 : ℚ) ∧
      (s.2.2 : ℚ) ≤ (bandInterval s).2 ∧
      (bandInterval s).2 ≤ (s.2.2 : ℚ) + 5 / 10 := by
  have hq : (s.2.1 : ℚ) ≤ (s.2.2 : ℚ) := by exact_mod_cast h
  have e1 : (bandInterval s).1 = (s.2.1 : ℚ) := rfl
  by_cases he : (s.2.1 : ℚ) = (s.2.2 : ℚ)
  · have e2 : (bandInterval s).2 = (s.2.2 : ℚ) + 5 / 10 := by
      unfold bandInterval
      simp only [he, if_true, Constants.EPSILON_5]
    rw [e1, e2]
    exact ⟨by linarith, rfl, by linarith, le_refl _⟩
  · have e2 : (bandInterval s).2 = (s.2.2 : ℚ) := by
      unfold bandInterval
      simp only [he, if_false]
    rw [e1, e2]
    exact ⟨lt_of_le_of_ne hq he, rfl, le_refl _, by linarith⟩

theorem bandInterval_sep (a b : Strip) (ha : a.2.1 ≤ a.2.2) (hb : b.2.1 ≤ b.2.2)
    (h : a.2.2 + 2 ≤ b.2.1) : (bandInterval a).2 < (bandInterval b).1 := by
  obtain ⟨_, _, _, h4⟩ := bandInterval_lt a ha
  obtain ⟨_, h6, _, _⟩ := bandInterval_lt b hb
  have hq : (a.2.2 : ℚ) + 2 ≤ (b.2.1 : ℚ) := by exact_mod_cast h
  rw [h6]
  linarith

theorem bandEdges_eq (axis : Axis) (s : Strip) :
    bandEdges axis s =
      match axis with
      | .X =>
        [ Edge.new ⟨(bandInterval s).1, 0⟩ ⟨(bandInterval s).1, Constants.COORD_MAX⟩,
          Edge.new ⟨(bandInterval s).2, 0⟩ ⟨(bandInterval s).2, Constants.COORD_MAX⟩,
          Edge.new ⟨(bandInterval s).1, 0⟩ ⟨(bandInterval s).2, 0⟩,
          Edge.new ⟨(bandInterval s).1, Constants.COORD_MAX⟩
            ⟨(bandInterval s).2, Constants.COORD_MAX⟩ ]
      | .Y =>
        [ Edge.new ⟨0, (bandInterval s).1⟩ ⟨Constants.COORD_MAX, (bandInterval s).1⟩,
          Edge.new ⟨0, (bandInterval s).2⟩ ⟨Constants.COORD_MAX, (bandInterval s).2⟩,
          Edge.new ⟨0, (bandInterval s).1⟩ ⟨0, (bandInterval s).2⟩,
          Edge.new ⟨Constants.COORD_MAX, (bandInterval s).1⟩
            ⟨Constants.COORD_MAX, (bandInterval s).2⟩ ] := by
  cases axis <;> rfl

theorem bandEdges_endpoints (axis : Axis) (s : Strip) (v : Point) :
    (∃ e ∈ bandEdges axis s, v = e.p1 ∨ v = e.p2) ↔ v ∈ bandVertices axis s := by
  rw [bandEdges_eq]
  cases axis
  · simp only [bandVertices, List.mem_cons, List.mem_singleton, List.not_mem_nil, or_false,
      exists_eq_or_imp, exists_eq_left, edgeNew_endpoints]
    tauto
  · simp only [bandVertices, List.mem_cons, List.mem_singleton, List.not_mem_nil, or_false,
      exists_eq_or_imp, exists_eq_left, edgeNew_endpoints]
    tauto

theorem bandVertices_coord (axis : Axis) (s : Strip) (v : Point) (hv : v ∈ bandVertices axis s) :
    (axis.pointCoord v = (bandInterval s).1 ∨ axis.pointCoord v = (bandInterval s).2) ∧
      (v.x = 0 ∨ v.x = Constants.COORD_MAX ∨ v.y = 0 ∨ v.y = Constants.COORD_MAX) := by
  cases axis
  · simp only [bandVertices, List.mem_cons, List.mem_singleton, List.not_mem_nil, or_false] at hv
    rcases hv with rfl | rfl | rfl | rfl <;> simp [Axis.pointCoord]
  · simp only [bandVertices, List.mem_cons, List.mem_singleton, List.not_mem_nil, or_false] at hv
    rcases hv with rfl | rfl | rfl | rfl <;> simp [Axis.pointCoord]

theorem bandVertices_nodup (axis : Axis) (s : Strip)
    (h : (bandInterval s).1 < (bandInterval s).2) : (bandVertices axis s).Nodup := by
  have h1 : (bandInterval s).1 ≠ (bandInterval s).2 := ne_of_lt h
  have h2 : (0 : ℚ) ≠ Constants.COORD_MAX := by norm_num [Constants.COORD_MAX]
  cases axis <;> simp [bandVertices, h1, h2, h1.symm, h2.symm]

theorem bandEdges_nodup (axis : Axis) (s : Strip)
    (h : (bandInterval s).1 < (bandInterval s).2) : (bandEdges axis s).Nodup := by
  have h1 : (bandInterval s).1 ≠ (bandInterval s).2 := ne_of_lt h
  have h2 : (0 : ℚ) ≠ Constants.COORD_MAX := by norm_num [Constants.COORD_MAX]
  rw [bandEdges_eq]
  cases axis
  · simp only [List.nodup_cons, List.mem_cons, List.mem_singleton, List.not_mem_nil, not_or,
      List.nodup_nil, and_true, not_false_eq_true]
    refine ⟨⟨?_, ?_, ?_⟩, ⟨?_, ?_⟩, ?_⟩
    all_goals
      intro e
      have := edgeNew_eq_imp _ _ _ _ e
      simp [h1, h2, h1.symm, h2.symm] at this
  · simp only [List.nodup_cons, List.mem_cons, List.mem_singleton, List.not_mem_nil, not_or,
      List.nodup_nil, and_true, not_false_eq_true]
    refine ⟨⟨?_, ?_, ?_⟩, ⟨?_, ?_⟩, ?_⟩
    all_goals
      intro e
      have := edgeNew_eq_imp _ _ _ _ e
      simp [h1, h2, h1.symm, h2.symm] at this

theorem bandEdges_p1_coord (axis : Axis) (s : Strip) (e : Edge) (he : e ∈ bandEdges axis s) :
    axis.pointCoord e.p1 = (bandInterval s).1 ∨ axis.pointCoord e.p1 = (bandInterval s).2 :=
  (bandVertices_coord axis s e.p1
    ((bandEdges_endpoints axis s e.p1).mp ⟨e, he, Or.inl rfl⟩)).1

theorem bandEdges_length (axis : Axis) (s : Strip) : (bandEdges axis s).length = 4 := by
  cases axis <;> rfl

theorem bandVertices_length (axis : Axis) (s : Strip) : (bandVertices axis s).length = 4 := by
  cases axis <;> rfl

theorem mem_allBandEdges (axis : Axis) (l : List Strip) (e : Edge) :
    e ∈ allBandEdges axis l ↔ ∃ s ∈ l, e ∈ bandEdges axis s := by
  induction l with
  | nil => simp [allBandEdges]
  | cons s rest ih => simp only [allBandEdges, List.mem_append, ih, List.mem_cons,
      exists_eq_or_imp]

theorem mem_allBandVertices (axis : Axis) (l : List Strip) (v : Point) :
    v ∈ allBandVertices axis l ↔ ∃ s ∈ l, v ∈ bandVertices axis s := by
  induction l with
  | nil => simp [allBandVertices]
  | cons s rest ih => simp only [allBandVertices, List.mem_append, ih, List.mem_cons,
      exists_eq_or_imp]

theorem allBandEdges_length (axis : Axis) (l : List Strip) :
    (allBandEdges axis l).length = 4 * l.length := by
  induction l with
  | nil => rfl
  | cons s rest ih =>
    simp only [allBandEdges, List.length_append, bandEdges_length, ih, List.length_cons]
    ring

theorem allBandVertices_length (axis : Axis) (l : List Strip) :
    (allBandVertices axis l).length = 4 * l.length := by
  induction l with
  | nil => rfl
  | cons s rest ih =>
    simp only [allBandVertices, List.length_append, bandVertices_length, ih, List.length_cons]
    ring

theorem allBandEdges_nodup (axis : Axis) (l : List Strip)
    (hl : ∀ x ∈ l, (bandInterval x).1 < (bandInterval x).2)
    (hp : l.Pairwise (fun a b => (bandInterval a).2 < (bandInterval b).1 ∨
      (bandInterval b).2 < (bandInterval a).1)) :
    (allBandEdges axis l).Nodup := by
  induction l with
  | nil => simp [allBandEdges]
  | cons s rest ih =>
    rw [List.pairwise_cons] at hp
    unfold allBandEdges
    apply List.Nodup.append (bandEdges_nodup axis s (hl s (List.mem_cons_self _ _)))
      (ih (fun x hx => hl x (List.mem_cons_of_mem _ hx)) hp.2)
    rw [List.disjoint_left]
    intro e he1 he2
    obtain ⟨s', hs', he'⟩ := (mem_allBandEdges axis rest e).mp he2
    have c1 := bandEdges_p1_coord axis s e he1
    have c2 := bandEdges_p1_coord axis s' e he'
    have hs := hl s (List.mem_cons_self _ _)
    have hs2 := hl s' (List.mem_cons_of_mem _ hs')
    have hsep := hp.1 s' hs'
    rcases c1 with c1 | c1 <;> rcases c2 with c2 | c2 <;> rcases hsep with hsep | hsep <;>
      (rw [c1] at c2; linarith)

theorem allBandVertices_nodup (axis : Axis) (l : List Strip)
    (hl : ∀ x ∈ l, (bandInterval x).1 < (bandInterval x).2)
    (hp : l.Pairwise (fun a b => (bandInterval a).2 < (bandInterval b).1 ∨
      (bandInterval b).2 < (bandInterval a).1)) :
    (allBandVertices axis l).Nodup := by
  induction l with
  | nil => simp [allBandVertices]
  | cons s rest ih =>
    rw [List.pairwise_cons] at hp
    unfold allBandVertices
    apply List.Nodup.append (bandVertices_nodup axis s (hl s (List.mem_cons_self _ _)))
      (ih (fun x hx => hl x (List.mem_cons_of_mem _ hx)) hp.2)
    rw [List.disjoint_left]
    intro v hv1 hv2
    obtain ⟨s', hs', hv'⟩ := (mem_allBandVertices axis rest v).mp hv2
    have c1 := (bandVertices_coord axis s v hv1).1
    have c2 := (bandVertices_coord axis s' v hv').1
    have hs := hl s (List.mem_cons_self _ _)
    have hs2 := hl s' (List.mem_cons_of_mem _ hs')
    have hsep := hp.1 s' hs'
    rcases c1 with c1 | c1 <;> rcases c2 with c2 | c2 <;> rcases hsep with hsep | hsep <;>
      (rw [c1] at c2; linarith)

theorem foldl_addBand_edges (axis : Axis) (l : List Strip) (p : Polygon) :
    (l.foldl (addBand axis) p).edges =
      ((allBandEdges axis l).foldl Polygon.insertEdge p).edges := by
  induction l generalizing p with
  | nil => rfl
  | cons s rest ih =>
    rw [List.foldl_cons, ih]
    have hcons : allBandEdges axis (s :: rest) = bandEdges axis s ++ allBandEdges axis rest :=
      rfl
    rw [hcons, List.foldl_append, foldl_insertEdge_edges, foldl_insertEdge_edges]
    congr 1
    unfold addBand
    rw [foldl_insertEdge_edges, foldl_insertEdge_edges]

theorem chosen_bands (ss : List (Int × Int)) (t : Int) :
    (∀ x ∈ (sortStripsDesc (sweep ss t)).take 250, (bandInterval x).1 < (bandInterval x).2) ∧
    ((sortStripsDesc (sweep ss t)).take 250).Pairwise
      (fun a b => (bandInterval a).2 < (bandInterval b).1 ∨
        (bandInterval b).2 < (bandInterval a).1) := by
  obtain ⟨h1, h2⟩ := chosen_spec ss t
  refine ⟨fun x hx => (bandInterval_lt x (h1 x hx).2.1).1, ?_⟩
  apply List.Pairwise.imp_of_mem _ h2
  intro a b ha hb hab
  rcases hab with hab | hab
  · exact Or.inl (bandInterval_sep a b (h1 a ha).2.1 (h1 b hb).2.1 hab)
  · exact Or.inr (bandInterval_sep b a (h1 b hb).2.1 (h1 a ha).2.1 hab)

theorem stripPolygon_edges_length (axis : Axis) (ctx : ProblemContext) (t : Int) :
    (stripPolygon axis ctx t).edges.length =
      4 * ((sortStripsDesc (sweep (stripScores axis ctx) t)).take 250).length := by
  obtain ⟨h1, h2⟩ := chosen_bands (stripScores axis ctx) t
  rw [stripPolygon_eq_foldl, foldl_addBand_edges,
    insertedEdges_length _ (allBandEdges_nodup axis _ h1 h2), allBandEdges_length]

theorem stripPolygon_vertexCount (axis : Axis) (ctx : ProblemContext) (t : Int) :
    (stripPolygon axis ctx t).getVertexCount =
      4 * ((sortStripsDesc (sweep (stripScores axis ctx) t)).take 250).length := by
  obtain ⟨h1, h2⟩ := chosen_bands (stripScores axis ctx) t
  have hpoly := stripPolygon_eq_foldl axis ctx t
  generalize (sortStripsDesc (sweep (stripScores axis ctx) t)).take 250 = chosen at h1 h2 hpoly
  have hset : (endpoints (stripPolygon axis ctx t).edges).toFinset =
      (allBandVertices axis chosen).toFinset := by
    apply List.toFinset.ext
    intro v
    rw [mem_endpoints, mem_allBandVertices]
    constructor
    · rintro ⟨e, he, hv⟩
      rw [hpoly, mem_foldl_addBand] at he
      rcases he with ⟨s, hs, hes⟩ | he
      · exact ⟨s, hs, (bandEdges_endpoints axis s v).mp ⟨e, hes, hv⟩⟩
      · simp at he
    · rintro ⟨s, hs, hv⟩
      obtain ⟨e, he, hve⟩ := (bandEdges_endpoints axis s v).mpr hv
      refine ⟨e, ?_, hve⟩
      rw [hpoly, mem_foldl_addBand]
      exact Or.inl ⟨s, hs, he⟩
  rw [getVertexCount_eq_card, hset,
    List.toFinset_card_of_nodup (allBandVertices_nodup axis _ h1 h2), allBandVertices_length]

/-- C12 (strip bands are disjoint and non-degenerate): for every input, axis
and threshold, the candidate strips are intervals [s, e] with
0 <= s <= e <= 10000, each beginning after the end of the one before; the bands
of the k strips taken (a single-coordinate strip being widened to
[s, s + 0.5]) have strictly positive width and are pairwise disjoint; the
corners of the edges of a band are the four corners of that band, and the
polygon has exactly 4k edges and 4k vertices, with k <= 250. -/
theorem strip_bands_disjoint (crystals mines : List Node) (axis : Axis) (threshold : Int) :
    (∀ x ∈ sweep (stripScores axis (ProblemContext.new crystals mines)) threshold,
      0 ≤ x.2.1 ∧ x.2.1 ≤ x.2.2 ∧ x.2.2 ≤ 10000) ∧
    (sweep (stripScores axis (ProblemContext.new crystals mines)) threshold).Pairwise
      (fun a b => a.2.2 < b.2.1) ∧
    (∀ x ∈ (sortStripsDesc
        (sweep (stripScores axis (ProblemContext.new crystals mines)) threshold)).take 250,
      (bandInterval x).1 < (bandInterval x).2 ∧
      (bandInterval x).1 = (x.2.1 : ℚ) ∧
      (bandInterval x).2 = (if x.2.1 = x.2.2 then (x.2.1 : ℚ) + 5 / 10 else (x.2.2 : ℚ)) ∧
      ∀ v : Point, (∃ e ∈ bandEdges axis x, v = e.p1 ∨ v = e.p2) ↔ v ∈ bandVertices axis x) ∧
    ((sortStripsDesc
        (sweep (stripScores axis (ProblemContext.new crystals mines)) threshold)).take
          250).Pairwise
      (fun a b => (bandInterval a).2 < (bandInterval b).1 ∨
        (bandInterval b).2 < (bandInterval a).1) ∧
    (stripPolygon axis (ProblemContext.new crystals mines) threshold).edges.length =
      4 * ((sortStripsDesc
        (sweep (stripScores axis (ProblemContext.new crystals mines)) threshold)).take
          250).length ∧
    (stripPolygon axis (ProblemContext.new crystals mines) threshold).getVertexCount =
      4 * ((sortStripsDesc
        (sweep (stripScores axis (ProblemContext.new crystals mines)) threshold)).take
          250).length ∧
    ((sortStripsDesc
        (sweep (stripScores axis (ProblemContext.new crystals mines)) threshold)).take
          250).length ≤ 250 := by
  obtain ⟨s1, s2⟩ := sweep_spec (stripScores axis (ProblemContext.new crystals mines)) threshold
  obtain ⟨b1, b2⟩ := chosen_bands (stripScores axis (ProblemContext.new crystals mines)) threshold
  refine ⟨fun x hx => ⟨(s1 x hx).1, (s1 x hx).2.1, (s1 x hx).2.2.1⟩,
    s2.imp (fun h => by omega), ?_, b2, stripPolygon_edges_length axis _ threshold,
    stripPolygon_vertexCount axis _ threshold, List.length_take_le _ _⟩
  intro x hx
  refine ⟨b1 x hx, rfl, ?_, bandEdges_endpoints axis x⟩
  unfold bandInterval
  simp only [Constants.EPSILON_5]
  by_cases he : x.2.1 = x.2.2
  · simp [he]
  · have he' : ¬ (x.2.1 : ℚ) = (x.2.2 : ℚ) := by exact_mod_cast he
    simp [he, he']

/-- C12, witness: the candidate strip (7, [0, 10000]) of the lone crystal
(10000, 0, 7) under the axis X and the threshold 0. -/
theorem strip_bands_disjoint_witness :
    (((7 : Int), ((0 : Int), (10000 : Int))) : Strip) ∈
      sweep (stripScores Axis.X (ProblemContext.new [⟨10000, 0, 7⟩] [])) 0 ∧
    (0 : Int) ≤ (((7 : Int), ((0 : Int), (10000 : Int))) : Strip).2.1 ∧
    (((7 : Int), ((0 : Int), (10000 : Int))) : Strip).2.1 ≤
      (((7 : Int), ((0 : Int), (10000 : Int))) : Strip).2.2 ∧
    (((7 : Int), ((0 : Int), (10000 : Int))) : Strip).2.2 ≤ 10000 :=
  ⟨sweep_lone_seven ▸ List.mem_singleton.mpr rfl,
    (strip_bands_disjoint [⟨10000, 0, 7⟩] [] Axis.X 0).1 _
      (sweep_lone_seven ▸ List.mem_singleton.mpr rfl)⟩

/-! ## C20: the strip score and the enclosed value -/

theorem sum_filter_disjoint (l : List Node) (p q : Node → Bool)
    (h : ∀ n ∈ l, ¬ (p n = true ∧ q n = true)) :
    ((l.filter (fun n => p n || q n)).map Node.val).sum =
      ((l.filter p).map Node.val).sum + ((l.filter q).map Node.val).sum := by
  induction l with
  | nil => simp
  | cons n l ih =>
    have hn := h n (List.mem_cons_self _ _)
    have ih' := ih (fun m hm => h m (List.mem_cons_of_mem _ hm))
    cases hp : p n <;> cases hq : q n
    · simp [List.filter_cons, hp, hq, ih']
    · simp [List.filter_cons, hp, hq, ih']; ring
    · simp [List.filter_cons, hp, hq, ih']; ring
    · exact absurd ⟨hp, hq⟩ hn

theorem sum_filter_congr (l : List Node) (p q : Node → Bool) (h : ∀ n ∈ l, p n = q n) :
    ((l.filter p).map Node.val).sum = ((l.filter q).map Node.val).sum := by
  rw [List.filter_congr h]

theorem sum_range_axisSum (axis : Axis) (l : List Node) (s : Int) (len : Nat) :
    ((List.range len).map (fun (k : Nat) => axisSum axis (s + (k : Int)) l)).sum =
      ((l.filter (fun n => decide (s ≤ axis.coord n ∧ axis.coord n < s + (len : Int)))).map
        Node.val).sum := by
  induction len with
  | zero =>
    have : l.filter (fun n => decide (s ≤ axis.coord n ∧ axis.coord n < s + ((0 : Nat) : Int))) =
        [] := by
      rw [List.filter_eq_nil_iff]
      intro n _
      simp only [decide_eq_true_eq]
      omega
    rw [this]
    rfl
  | succ len ih =>
    rw [List.range_succ, List.map_append, List.sum_append, ih]
    simp only [List.map_cons, List.map_nil, List.sum_cons, List.sum_nil, add_zero]
    unfold axisSum
    rw [← sum_filter_disjoint]
    · apply sum_filter_congr
      intro n _
      rw [Bool.eq_iff_iff]
      simp only [Bool.or_eq_true, decide_eq_true_eq]
      omega
    · intro n _
      simp only [decide_eq_true_eq]
      omega

theorem stripScores_axisSum (axis : Axis) (crystals mines : List Node)
    (hc : ∀ n ∈ crystals ++ mines, inCoordSpace n)
    (hsum : ∀ c : Int, inInt32 (axisSum axis c (crystals ++ mines))) (c : Int) :
    mapGet (stripScores axis (ProblemContext.new crystals mines)) c =
      axisSum axis c (crystals ++ mines) := by
  rw [stripScores_value]
  have heq : stripNet axis c (crystals ++ mines) = axisSum axis c (crystals ++ mines) := by
    unfold stripNet axisSum
    congr 2
    apply List.filter_congr
    intro n hn
    obtain ⟨h1, h2, h3, h4⟩ := hc n hn
    have : toInt32 (axis.coord n) = axis.coord n := by
      cases axis
      · exact toInt32_of_coord _ h1 h2
      · exact toInt32_of_coord _ h3 h4
    rw [this]
  rw [heq, toInt32_of_inInt32 _ (hsum c)]

theorem intervalSum_eq_enclosed (axis : Axis) (crystals mines : List Node)
    (hc : ∀ n ∈ crystals ++ mines, inCoordSpace n)
    (hsum : ∀ c : Int, inInt32 (axisSum axis c (crystals ++ mines))) (s e : Int)
    (hse : s ≤ e) :
    intervalSum (stripScores axis (ProblemContext.new crystals mines)) s e =
      ((((crystals ++ mines).filter
        (fun n => decide (s ≤ axis.coord n ∧ axis.coord n ≤ e)))).map Node.val).sum := by
  unfold intervalSum
  have h1 : (List.range (e + 1 - s).toNat).map
        (fun (k : Nat) => mapGet (stripScores axis (ProblemContext.new crystals mines))
          (s + (k : Int))) =
      (List.range (e + 1 - s).toNat).map
        (fun (k : Nat) => axisSum axis (s + (k : Int)) (crystals ++ mines)) := by
    apply List.map_congr_left
    intro k _
    exact stripScores_axisSum axis crystals mines hc hsum _
  rw [h1, sum_range_axisSum]
  apply sum_filter_congr
  intro n _
  rw [Bool.eq_iff_iff]
  simp only [decide_eq_true_eq]
  omega

theorem inStrips_cons (axis : Axis) (s : Strip) (rest : List Strip) (n : Node) :
    inStrips axis (s :: rest) n =
      (decide (s.2.1 ≤ axis.coord n ∧ axis.coord n ≤ s.2.2) || inStrips axis rest n) := by
  simp [inStrips]

theorem sum_scores_eq_enclosed (axis : Axis) (crystals mines : List Node)
    (hc : ∀ n ∈ crystals ++ mines, inCoordSpace n)
    (hsum : ∀ c : Int, inInt32 (axisSum axis c (crystals ++ mines)))
    (l : List Strip)
    (hl : ∀ x ∈ l, x.2.1 ≤ x.2.2 ∧
      x.1 = intervalSum (stripScores axis (ProblemContext.new crystals mines)) x.2.1 x.2.2)
    (hp : l.Pairwise (fun a b => a.2.2 + 2 ≤ b.2.1 ∨ b.2.2 + 2 ≤ a.2.1)) :
    (l.map Prod.fst).sum = enclosedValue axis l (crystals ++ mines) := by
  induction l with
  | nil =>
    have hnil : (crystals ++ mines).filter (inStrips axis []) = [] := by
      rw [List.filter_eq_nil_iff]
      intro n _
      simp [inStrips]
    unfold enclosedValue
    rw [hnil]
    rfl
  | cons s rest ih =>
    rw [List.pairwise_cons] at hp
    have hs := hl s (List.mem_cons_self _ _)
    rw [List.map_cons, List.sum_cons, ih (fun x hx => hl x (List.mem_cons_of_mem _ hx)) hp.2,
      hs.2, intervalSum_eq_enclosed axis crystals mines hc hsum _ _ hs.1]
    unfold enclosedValue
    rw [← sum_filter_disjoint]
    · apply sum_filter_congr
      intro n _
      rw [inStrips_cons]
    · intro n _ hboth
      obtain ⟨h1, h2⟩ := hboth
      simp only [decide_eq_true_eq] at h1
      unfold inStrips at h2
      rw [List.any_eq_true] at h2
      obtain ⟨x, hx, hxn⟩ := h2
      simp only [decide_eq_true_eq] at hxn
      have := hp.1 x hx
      omega

theorem stripSolve_mem (axis : Axis) (ctx : ProblemContext) :
    ∃ t ∈ thresholds, StripStrategy.solve axis ctx = stripPolygon axis ctx t := by
  obtain ⟨i, hi, _, _⟩ := stripSolve_isFirstMax axis ctx
  obtain ⟨t, ht, heq⟩ := List.mem_map.mp (List.getElem?_mem hi)
  exact ⟨t, ht, heq.symm⟩

theorem stripPolygon_score_eq (axis : Axis) (ctx : ProblemContext) (t : Int) :
    (stripPolygon axis ctx t).score =
      (((sortStripsDesc (sweep (stripScores axis ctx) t)).take 250).map Prod.fst).sum := by
  rw [stripPolygon_eq_foldl, foldl_addBand_score]
  simp

theorem stripPolygon_mem_edges (axis : Axis) (ctx : ProblemContext) (t : Int) (e : Edge) :
    e ∈ (stripPolygon axis ctx t).edges ↔
      ∃ s ∈ (sortStripsDesc (sweep (stripScores axis ctx) t)).take 250,
        e ∈ bandEdges axis s := by
  rw [stripPolygon_eq_foldl, mem_foldl_addBand]
  simp

theorem stripScores_wrapCrystals :
    stripScores Axis.X (ProblemContext.new wrapCrystals []) = [(((5 : Nat) : Int), (1 : Int))] := by
  decide

/-- C20, counterexample: three crystals of abscissa 5 with values
2^31 - 1, 2^31 - 1 and 3, all within the int range.  The strip-X strategy
returns a single band over [0, 10000] with score 1, whereas the crystals lying
in that band have total value 2^32 + 1. -/
theorem strip_score_wraps :
    (∀ n ∈ wrapCrystals ++ [], inCoordSpace n ∧ inInt32 n.val) ∧
    StripStrategy.solve Axis.X (ProblemContext.new wrapCrystals []) =
      addBand Axis.X { score := 0, edges := [] } ((1 : Int), ((0 : Int), (10000 : Int))) ∧
    (StripStrategy.solve Axis.X (ProblemContext.new wrapCrystals [])).score = 1 ∧
    enclosedValue Axis.X [((1 : Int), ((0 : Int), (10000 : Int)))] (wrapCrystals ++ []) =
      4294967297 := by
  have h := stripSolve_single Axis.X (ProblemContext.new wrapCrystals []) 5 (by omega) 1
    (by omega) stripScores_wrapCrystals
  refine ⟨by decide, h, ?_, by decide⟩
  rw [h, addBand_score]
  rfl

/-- C20, amended (strip score equals enclosed value): for every input whose
points have coordinates in [0, 10000] and whose values sum, at every coordinate
of the axis, to a number within the int range, the polygon returned by
`StripStrategy::solve` is the polygon of one of the thresholds, its edges are
the band edges of the strips taken for that threshold, and its score is the sum
of the values of all crystals and mines whose coordinate on the axis lies in
the interval [start, end] of one of these strips. -/
theorem strip_score_is_enclosed_value (crystals mines : List Node) (axis : Axis)
    (hc : ∀ n ∈ crystals ++ mines, inCoordSpace n)
    (hsum : ∀ c : Int, inInt32 (axisSum axis c (crystals ++ mines))) :
    ∃ t ∈ thresholds,
      StripStrategy.solve axis (ProblemContext.new crystals mines) =
        stripPolygon axis (ProblemContext.new crystals mines) t ∧
      (∀ e, e ∈ (StripStrategy.solve axis (ProblemContext.new crystals mines)).edges ↔
        ∃ s ∈ (sortStripsDesc
            (sweep (stripScores axis (ProblemContext.new crystals mines)) t)).take 250,
          e ∈ bandEdges axis s) ∧
      (StripStrategy.solve axis (ProblemContext.new crystals mines)).score =
        enclosedValue axis
          ((sortStripsDesc
            (sweep (stripScores axis (ProblemContext.new crystals mines)) t)).take 250)
          (crystals ++ mines) := by
  obtain ⟨t, ht, heq⟩ := stripSolve_mem axis (ProblemContext.new crystals mines)
  refine ⟨t, ht, heq, ?_, ?_⟩
  · intro e
    rw [heq]
    exact stripPolygon_mem_edges axis _ t e
  · rw [heq, stripPolygon_score_eq]
    obtain ⟨h1, h2⟩ := chosen_spec (stripScores axis (ProblemContext.new crystals mines)) t
    exact sum_scores_eq_enclosed axis crystals mines hc hsum _
      (fun x hx => ⟨(h1 x hx).2.1, (h1 x hx).2.2.2.1⟩) h2


theorem axisSum_singleCrystal_inInt32 (c : Int) :
    inInt32 (axisSum Axis.X c (singleCrystal ++ [])) := by
  unfold axisSum singleCrystal
  by_cases h : (100 : Int) = c
  · simp [List.filter_cons, Axis.coord, h.symm]; decide
  · simp [List.filter_cons, Axis.coord, h]; decide

/-- C20, witness: the single crystal (100, 100, 50) and the axis X. -/
theorem strip_score_is_enclosed_value_witness :
    (∀ n ∈ singleCrystal ++ [], inCoordSpace n) ∧
    (∀ c : Int, inInt32 (axisSum Axis.X c (singleCrystal ++ []))) ∧
    ∃ t ∈ thresholds,
      StripStrategy.solve Axis.X (ProblemContext.new singleCrystal []) =
        stripPolygon Axis.X (ProblemContext.new singleCrystal []) t ∧
      (StripStrategy.solve Axis.X (ProblemContext.new singleCrystal [])).score =
        enclosedValue Axis.X
          ((sortStripsDesc
            (sweep (stripScores Axis.X (ProblemContext.new singleCrystal [])) t)).take 250)
          (singleCrystal ++ []) :=
  ⟨by decide, axisSum_singleCrystal_inInt32,
    let ⟨t, ht, h1, _, h3⟩ := strip_score_is_enclosed_value singleCrystal [] Axis.X
      (by decide) axisSum_singleCrystal_inInt32
    ⟨t, ht, h1, h3⟩⟩

/-! ## C19: the range of the coordinates produced -/

theorem rectEdges_within (lo hi x1 y1 x2 y2 : ℚ) (h1 : lo ≤ x1) (h2 : x1 ≤ hi) (h3 : lo ≤ x2)
    (h4 : x2 ≤ hi) (h5 : lo ≤ y1) (h6 : y1 ≤ hi) (h7 : lo ≤ y2) (h8 : y2 ≤ hi) (e : Edge)
    (he : e ∈ rectEdges x1 y1 x2 y2) : pointWithin lo hi e.p1 ∧ pointWithin lo hi e.p2 := by
  have hv : ∀ v : Point, v ∈ [(⟨x1, y1⟩ : Point), ⟨x2, y1⟩, ⟨x2, y2⟩, ⟨x1, y2⟩] →
      pointWithin lo hi v := by
    intro v hv
    simp only [List.mem_cons, List.mem_singleton, List.not_mem_nil, or_false] at hv
    rcases hv with rfl | rfl | rfl | rfl <;> exact ⟨by assumption, by assumption,
      by assumption, by assumption⟩
  exact ⟨hv _ ((mem_endpoints_rectEdges x1 y1 x2 y2 e.p1).mp ⟨e, he, Or.inl rfl⟩),
    hv _ ((mem_endpoints_rectEdges x1 y1 x2 y2 e.p2).mp ⟨e, he, Or.inr rfl⟩)⟩

theorem bandVertices_within (axis : Axis) (s : Strip) (lo hi : ℚ) (h0 : lo ≤ 0)
    (h1 : 10000 ≤ hi) (h2 : lo ≤ (bandInterval s).1) (h3 : (bandInterval s).1 ≤ hi)
    (h4 : lo ≤ (bandInterval s).2) (h5 : (bandInterval s).2 ≤ hi) (v : Point)
    (hv : v ∈ bandVertices axis s) : pointWithin lo hi v := by
  have hm : Constants.COORD_MAX = 10000 := rfl
  have h6 : (0 : ℚ) ≤ hi := by linarith
  have h7 : lo ≤ Constants.COORD_MAX := by rw [hm]; linarith
  have h8 : Constants.COORD_MAX ≤ hi := by rw [hm]; exact h1
  cases axis
  · simp only [bandVertices, List.mem_cons, List.mem_singleton, List.not_mem_nil, or_false] at hv
    rcases hv with rfl | rfl | rfl | rfl <;> exact ⟨by assumption, by assumption,
      by assumption, by assumption⟩
  · simp only [bandVertices, List.mem_cons, List.mem_singleton, List.not_mem_nil, or_false] at hv
    rcases hv with rfl | rfl | rfl | rfl <;> exact ⟨by assumption, by assumption,
      by assumption, by assumption⟩

theorem intervalSum_single (ss : List (Int × Int)) (s : Int) :
    intervalSum ss s s = mapGet ss s := by
  have h := intervalSum_succ ss s (s - 1) (by omega)
  rw [intervalSum_empty ss s (s - 1) (by omega)] at h
  simpa using h

theorem stripNet_eq_zero (axis : Axis) (c : Int) (l : List Node)
    (h : ∀ n ∈ l, toInt32 (axis.coord n) ≠ c) : stripNet axis c l = 0 := by
  unfold stripNet
  rw [List.filter_eq_nil_iff.mpr]
  · rfl
  · intro n hn
    simpa using h n hn

theorem stripSolve_within (axis : Axis) (crystals mines : List Node) :
    edgesWithin 0 (100005 / 10) (StripStrategy.solve axis (ProblemContext.new crystals mines)) ∧
    ((∀ n ∈ crystals ++ mines, inInterior n) →
      edgesWithin 0 10000 (StripStrategy.solve axis (ProblemContext.new crystals mines))) := by
  obtain ⟨t, _, heq⟩ := stripSolve_mem axis (ProblemContext.new crystals mines)
  obtain ⟨hch, _⟩ := chosen_spec (stripScores axis (ProblemContext.new crystals mines)) t
  have key : ∀ (hi : ℚ), 10000 ≤ hi →
      (∀ s ∈ (sortStripsDesc
          (sweep (stripScores axis (ProblemContext.new crystals mines)) t)).take 250,
        (bandInterval s).2 ≤ hi) →
      edgesWithin 0 hi (StripStrategy.solve axis (ProblemContext.new crystals mines)) := by
    intro hi hhi hb e he
    rw [heq, stripPolygon_mem_edges] at he
    obtain ⟨s, hs, hes⟩ := he
    obtain ⟨a, b, c, _⟩ := hch s hs
    obtain ⟨b1, b2, b3, b4⟩ := bandInterval_lt s b
    have a' : (0 : ℚ) ≤ (s.2.1 : ℚ) := by exact_mod_cast a
    have hv : ∀ v : Point, v ∈ bandVertices axis s → pointWithin 0 hi v :=
      bandVertices_within axis s 0 hi (le_refl _) hhi (by rw [b2]; exact a')
        (by have := hb s hs; linarith) (by rw [b2] at b1; linarith) (hb s hs)
    exact ⟨hv _ ((bandEdges_endpoints axis s e.p1).mp ⟨e, hes, Or.inl rfl⟩),
      hv _ ((bandEdges_endpoints axis s e.p2).mp ⟨e, hes, Or.inr rfl⟩)⟩
  constructor
  · apply key _ (by norm_num)
    intro s hs
    obtain ⟨a, b, c, _⟩ := hch s hs
    obtain ⟨_, _, _, b4⟩ := bandInterval_lt s b
    have c' : (s.2.2 : ℚ) ≤ 10000 := by exact_mod_cast c
    linarith
  · intro hint
    apply key _ (le_refl _)
    intro s hs
    obtain ⟨a, b, c, d, hpos⟩ := hch s hs
    have hne : ¬ (s.2.1 = 10000 ∧ s.2.2 = 10000) := by
      rintro ⟨e1, e2⟩
      rw [d, e1, e2, intervalSum_single, stripScores_value, stripNet_eq_zero] at hpos
      · exact absurd hpos (by decide)
      · intro n hn
        obtain ⟨i1, i2, i3, i4⟩ := hint n hn
        have : toInt32 (axis.coord n) = axis.coord n := by
          cases axis
          · exact toInt32_of_coord n.x (by omega) (by omega)
          · exact toInt32_of_coord n.y (by omega) (by omega)
        rw [this]
        cases axis
        · show n.x ≠ 10000
          omega
        · show n.y ≠ 10000
          omega
    have c' : (s.2.2 : ℚ) ≤ 10000 := by exact_mod_cast c
    by_cases he : (s.2.1 : ℚ) = (s.2.2 : ℚ)
    · have he' : s.2.1 = s.2.2 := by exact_mod_cast he
      have hlt : s.2.2 ≤ 9999 := by omega
      have hlt' : (s.2.2 : ℚ) ≤ 9999 := by exact_mod_cast hlt
      have e2 : (bandInterval s).2 = (s.2.2 : ℚ) + 5 / 10 := by
        unfold bandInterval
        simp only [he, if_true, Constants.EPSILON_5]
      rw [e2]
      linarith
    · have e2 : (bandInterval s).2 = (s.2.2 : ℚ) := by
        unfold bandInterval
        simp only [he, if_false]
      rw [e2]
      exact c'

theorem mem_of_mem_firstOccurrences {α : Type} [DecidableEq α] (l : List α) (x : α)
    (h : x ∈ firstOccurrences l) : x ∈ l := by
  induction l with
  | nil => simp [firstOccurrences] at h
  | cons a l ih =>
    unfold firstOccurrences at h
    rcases List.mem_cons.mp h with rfl | h
    · exact List.mem_cons_self _ _
    · exact List.mem_cons_of_mem _ (ih (List.mem_of_mem_filter h))

theorem selected_is_crystal (crystals mines : List Node) (st : BestState)
    (h : bestLoop (ProblemContext.new crystals mines) (sortCrystalsDesc crystals)
      BestState.initial = some st) (x y : Int) (hsel : st.selected x y) :
    ∃ n ∈ crystals, n.key = (x, y) := by
  rw [bestLoop_initial_selected crystals mines st h] at hsel
  have h1 := mem_of_mem_firstOccurrences _ _ (List.mem_of_mem_take hsel)
  obtain ⟨n, hn, hk⟩ := List.mem_map.mp h1
  exact ⟨n, (mem_sortCrystalsDesc _ _).mp hn, hk⟩

theorem bestN_within (crystals mines : List Node) (A B : Int) (hA : 0 ≤ A) (hB : B ≤ 10000)
    (hc : ∀ n ∈ crystals, A ≤ n.x ∧ n.x ≤ B ∧ A ≤ n.y ∧ n.y ≤ B) (p : Polygon)
    (hp : BestNPointsStrategy.solve (ProblemContext.new crystals mines) = some p) :
    edgesWithin ((A : ℚ) - 2 / 10) ((B : ℚ) + 2 / 10) p := by
  by_cases hne : crystals = []
  · subst hne
    have : BestNPointsStrategy.solve (ProblemContext.new [] mines) = some Polygon.default := rfl
    rw [this] at hp
    simp only [Option.some.injEq] at hp
    subst hp
    intro e he
    simp [Polygon.default] at he
  · have hcs : ∀ c ∈ crystals, inCoordSpace c := by
      intro c hcm
      obtain ⟨a, b, c1, d⟩ := hc c hcm
      exact ⟨by omega, by omega, by omega, by omega⟩
    obtain ⟨st, q, a, b, c, d, hst, hq, ⟨⟨ya, sa⟩, _⟩, ⟨⟨yb, sb⟩, _⟩, ⟨⟨xc, sc⟩, _⟩,
      ⟨⟨xd, sd⟩, _⟩, heps, hedges, _⟩ := bestN_box crystals mines hne hcs
    rw [hp] at hq
    simp only [Option.some.injEq] at hq
    subst hq
    have hcoord : ∀ x y : Int, st.selected x y → A ≤ x ∧ x ≤ B ∧ A ≤ y ∧ y ≤ B := by
      intro x y hs
      obtain ⟨n, hn, hk⟩ := selected_is_crystal crystals mines st hst x y hs
      obtain ⟨a1, a2, a3, a4⟩ := hc n hn
      have ex : toInt32 n.x = n.x := toInt32_of_coord _ (by omega) (by omega)
      have ey : toInt32 n.y = n.y := toInt32_of_coord _ (by omega) (by omega)
      simp only [Node.key, ex, ey, Prod.mk.injEq] at hk
      omega
    obtain ⟨a1, a2, _, _⟩ := hcoord _ _ sa
    obtain ⟨b1, b2, _, _⟩ := hcoord _ _ sb
    obtain ⟨_, _, c1, c2⟩ := hcoord _ _ sc
    obtain ⟨_, _, d1, d2⟩ := hcoord _ _ sd
    have a1' : (A : ℚ) ≤ (a : ℚ) := by exact_mod_cast a1
    have a2' : (a : ℚ) ≤ (B : ℚ) := by exact_mod_cast a2
    have b1' : (A : ℚ) ≤ (b : ℚ) := by exact_mod_cast b1
    have b2' : (b : ℚ) ≤ (B : ℚ) := by exact_mod_cast b2
    have c1' : (A : ℚ) ≤ (c : ℚ) := by exact_mod_cast c1
    have c2' : (c : ℚ) ≤ (B : ℚ) := by exact_mod_cast c2
    have d1' : (A : ℚ) ≤ (d : ℚ) := by exact_mod_cast d1
    have d2' : (d : ℚ) ≤ (B : ℚ) := by exact_mod_cast d2
    intro e he
    apply rectEdges_within _ _ _ _ _ _ _ _ _ _ _ _ _ _ e ((hedges e).mp he) <;>
      (rw [heps]; linarith)

theorem mem_foldl_carve (l : List Node) (p : Polygon) (e : Edge) :
    e ∈ (l.foldl carve p).edges ↔
      (∃ m ∈ l, e ∈ rectEdges ((m.x : ℚ) - Constants.EPSILON_2) ((m.y : ℚ) - Constants.EPSILON_2)
        ((m.x : ℚ) + Constants.EPSILON_2) ((m.y : ℚ) + Constants.EPSILON_2)) ∨ e ∈ p.edges := by
  induction l generalizing p with
  | nil => simp
  | cons m rest ih =>
    rw [List.foldl_cons, ih]
    have hc : e ∈ (carve p m).edges ↔
        e ∈ rectEdges ((m.x : ℚ) - Constants.EPSILON_2) ((m.y : ℚ) - Constants.EPSILON_2)
          ((m.x : ℚ) + Constants.EPSILON_2) ((m.y : ℚ) + Constants.EPSILON_2) ∨
        e ∈ p.edges := by
      unfold carve
      rw [mem_foldl_insertEdge]
    rw [hc]
    constructor
    · rintro (⟨x, hx, hex⟩ | h | h)
      · exact Or.inl ⟨x, List.mem_cons_of_mem _ hx, hex⟩
      · exact Or.inl ⟨m, List.mem_cons_self _ _, h⟩
      · exact Or.inr h
    · rintro (⟨x, hx, hex⟩ | h)
      · rcases List.mem_cons.mp hx with rfl | hx
        · exact Or.inr (Or.inl hex)
        · exact Or.inl ⟨x, hx, hex⟩
      · exact Or.inr (Or.inr h)

theorem worstN_within (crystals mines : List Node) (A B : Int) (hA : 0 ≤ A) (hB : B ≤ 10000)
    (hc : ∀ n ∈ mines, A ≤ n.x ∧ n.x ≤ B ∧ A ≤ n.y ∧ n.y ≤ B) (lo hi : ℚ)
    (hlo : lo ≤ (A : ℚ) - 2 / 10) (hhi : (B : ℚ) + 2 / 10 ≤ hi) (hlo' : lo ≤ 1 / 10)
    (hhi' : 99999 / 10 ≤ hi) :
    edgesWithin lo hi (WorstNPointsStrategy.solve (ProblemContext.new crystals mines)) := by
  intro e he
  unfold WorstNPointsStrategy.solve at he
  simp only at he
  rw [mem_foldl_carve, mem_foldl_insertEdge] at he
  have heps : Constants.EPSILON_2 = 2 / 10 := rfl
  rcases he with ⟨m, hm, hem⟩ | he | he
  · have hmm : m ∈ mines :=
      (sortMinesAsc_perm mines).mem_iff.mp (List.mem_of_mem_take hm)
    obtain ⟨a1, a2, a3, a4⟩ := hc m hmm
    have a1' : (A : ℚ) ≤ (m.x : ℚ) := by exact_mod_cast a1
    have a2' : (m.x : ℚ) ≤ (B : ℚ) := by exact_mod_cast a2
    have a3' : (A : ℚ) ≤ (m.y : ℚ) := by exact_mod_cast a3
    have a4' : (m.y : ℚ) ≤ (B : ℚ) := by exact_mod_cast a4
    apply rectEdges_within _ _ _ _ _ _ _ _ _ _ _ _ _ _ e hem <;> (rw [heps]; linarith)
  · have hA' : (0 : ℚ) ≤ (A : ℚ) := by exact_mod_cast hA
    have hB' : (B : ℚ) ≤ 10000 := by exact_mod_cast hB
    apply rectEdges_within _ _ _ _ _ _ _ _ _ _ _ _ _ _ e he <;>
      (simp only [outerBox, Constants.COORD_MIN, Constants.COORD_MAX, Constants.EPSILON_1]
       linarith)
  · simp at he

theorem edgesWithin_mono (lo hi lo' hi' : ℚ) (h1 : lo' ≤ lo) (h2 : hi ≤ hi') (p : Polygon)
    (h : edgesWithin lo hi p) : edgesWithin lo' hi' p := by
  intro e he
  obtain ⟨⟨a1, a2, a3, a4⟩, b1, b2, b3, b4⟩ := h e he
  exact ⟨⟨by linarith, by linarith, by linarith, by linarith⟩,
    by linarith, by linarith, by linarith, by linarith⟩

/-- C19, counterexample: the single crystal (0, 0, 5) has its coordinates in
[0, 10000]; the best-N strategy returns the four sides of the rectangle
[-0.2, 0.2] x [-0.2, 0.2], whose corners are not all within [0, 10000]. -/
theorem bestN_box_leaves_range :
    (∀ n ∈ cornerCrystal ++ [], inCoordSpace n) ∧
    BestNPointsStrategy.solve (ProblemContext.new cornerCrystal []) =
      some ((rectEdges (-2 / 10) (-2 / 10) (2 / 10) (2 / 10)).foldl Polygon.insertEdge
        { score := 5, edges := [] }) ∧
    ¬ edgesWithin 0 10000
      ((rectEdges (-2 / 10) (-2 / 10) (2 / 10) (2 / 10)).foldl Polygon.insertEdge
        { score := 5, edges := [] }) := by
  refine ⟨by decide, by decide!, by decide!⟩

/-- C19, amended (coordinate range of the points produced): for every input
whose crystals and mines have coordinates in [0, 10000], every endpoint of every
edge returned by the strip strategies has both coordinates within [0, 10000.5],
and every endpoint of every edge returned by the best-N and the worst-N
strategies has both coordinates within [-0.2, 10000.2]; when all input
coordinates are in [1, 9999], every endpoint of every edge returned by each of
the four strategies has both coordinates within [0, 10000]. -/
theorem produced_points_range (crystals mines : List Node)
    (hc : ∀ n ∈ crystals ++ mines, inCoordSpace n) :
    edgesWithin 0 (100005 / 10)
      (StripStrategy.solve Axis.X (ProblemContext.new crystals mines)) ∧
    edgesWithin 0 (100005 / 10)
      (StripStrategy.solve Axis.Y (ProblemContext.new crystals mines)) ∧
    (∀ p, BestNPointsStrategy.solve (ProblemContext.new crystals mines) = some p →
      edgesWithin (-2 / 10) (100002 / 10) p) ∧
    edgesWithin (-2 / 10) (100002 / 10)
      (WorstNPointsStrategy.solve (ProblemContext.new crystals mines)) ∧
    ((∀ n ∈ crystals ++ mines, inInterior n) →
      edgesWithin 0 10000 (StripStrategy.solve Axis.X (ProblemContext.new crystals mines)) ∧
      edgesWithin 0 10000 (StripStrategy.solve Axis.Y (ProblemContext.new crystals mines)) ∧
      (∀ p, BestNPointsStrategy.solve (ProblemContext.new crystals mines) = some p →
        edgesWithin 0 10000 p) ∧
      edgesWithin 0 10000 (WorstNPointsStrategy.solve (ProblemContext.new crystals mines))) := by
  have hcr : ∀ n ∈ crystals, (0 : Int) ≤ n.x ∧ n.x ≤ 10000 ∧ 0 ≤ n.y ∧ n.y ≤ 10000 :=
    fun n hn => hc n (List.mem_append_left _ hn)
  have hmi : ∀ n ∈ mines, (0 : Int) ≤ n.x ∧ n.x ≤ 10000 ∧ 0 ≤ n.y ∧ n.y ≤ 10000 :=
    fun n hn => hc n (List.mem_append_right _ hn)
  refine ⟨(stripSolve_within Axis.X crystals mines).1,
    (stripSolve_within Axis.Y crystals mines).1, ?_, ?_, ?_⟩
  · intro p hp
    have := bestN_within crystals mines 0 10000 (le_refl _) (le_refl _) hcr p hp
    exact edgesWithin_mono _ _ _ _ (by norm_num) (by norm_num) p this
  · exact worstN_within crystals mines 0 10000 (le_refl _) (le_refl _) hmi _ _
      (by norm_num) (by norm_num) (by norm_num) (by norm_num)
  · intro hint
    have hcr' : ∀ n ∈ crystals, (1 : Int) ≤ n.x ∧ n.x ≤ 9999 ∧ 1 ≤ n.y ∧ n.y ≤ 9999 :=
      fun n hn => hint n (List.mem_append_left _ hn)
    have hmi' : ∀ n ∈ mines, (1 : Int) ≤ n.x ∧ n.x ≤ 9999 ∧ 1 ≤ n.y ∧ n.y ≤ 9999 :=
      fun n hn => hint n (List.mem_append_right _ hn)
    refine ⟨(stripSolve_within Axis.X crystals mines).2 hint,
      (stripSolve_within Axis.Y crystals mines).2 hint, ?_, ?_⟩
    · intro p hp
      have := bestN_within crystals mines 1 9999 (by norm_num) (by norm_num) hcr' p hp
      exact edgesWithin_mono _ _ _ _ (by norm_num) (by norm_num) p this
    · exact worstN_within crystals mines 1 9999 (by norm_num) (by norm_num) hmi' _ _
        (by norm_num) (by norm_num) (by norm_num) (by norm_num)

/-- C19, witness: the single crystal (100, 100, 50), whose coordinates are in
[1, 9999]. -/
theorem produced_points_range_witness :
    (∀ n ∈ singleCrystal ++ [], inCoordSpace n) ∧
    (∀ n ∈ singleCrystal ++ [], inInterior n) ∧
    edgesWithin 0 10000 (StripStrategy.solve Axis.X (ProblemContext.new singleCrystal [])) ∧
    edgesWithin 0 10000 (StripStrategy.solve Axis.Y (ProblemContext.new singleCrystal [])) ∧
    BestNPointsStrategy.solve (ProblemContext.new singleCrystal []) =
      some ((rectEdges (998 / 10) (998 / 10) (1002 / 10) (1002 / 10)).foldl Polygon.insertEdge
        { score := 50, edges := [] }) ∧
    edgesWithin 0 10000
      ((rectEdges (998 / 10) (998 / 10) (1002 / 10) (1002 / 10)).foldl Polygon.insertEdge
        { score := 50, edges := [] }) ∧
    edgesWithin 0 10000 (WorstNPointsStrategy.solve (ProblemContext.new singleCrystal [])) :=
  ⟨by decide, by decide,
    ((produced_points_range singleCrystal [] (by decide)).2.2.2.2 (by decide)).1,
    ((produced_points_range singleCrystal [] (by decide)).2.2.2.2 (by decide)).2.1,
    bestN_singleCrystal,
    ((produced_points_range singleCrystal [] (by decide)).2.2.2.2 (by decide)).2.2.1 _
      bestN_singleCrystal,
    ((produced_points_range singleCrystal [] (by decide)).2.2.2.2 (by decide)).2.2.2⟩

/-! ## C7: the greedy selection of strips -/

theorem edgeNew_of_not_lt (a b : Point) (h : b.lt a = false) :
    Edge.new a b = { p1 := a, p2 := b } := by
  unfold Edge.new
  rw [h]
  rfl

theorem edgeNew_same_x (x y1 y2 : ℚ) (h : y1 ≤ y2) :
    Edge.new ⟨x, y1⟩ ⟨x, y2⟩ = { p1 := ⟨x, y1⟩, p2 := ⟨x, y2⟩ } :=
  edgeNew_of_not_lt _ _ ((pointLt_eq_false_iff _ _).mpr (Or.inr ⟨rfl, h⟩))

theorem edgeNew_lt_x (x1 y1 x2 y2 : ℚ) (h : x1 < x2) :
    Edge.new ⟨x1, y1⟩ ⟨x2, y2⟩ = { p1 := ⟨x1, y1⟩, p2 := ⟨x2, y2⟩ } :=
  edgeNew_of_not_lt _ _ ((pointLt_eq_false_iff _ _).mpr (Or.inl h))

theorem bandEdges_eq_bandSides (axis : Axis) (s : Strip)
    (h : (bandInterval s).1 < (bandInterval s).2) : bandEdges axis s = bandSides axis s := by
  have h0 : (0 : ℚ) < 10000 := by norm_num
  rw [bandEdges_eq]
  cases axis
  · simp only [bandSides, Constants.COORD_MAX, edgeNew_same_x _ _ _ (le_of_lt h0),
      edgeNew_lt_x _ _ _ _ h]
  · simp only [bandSides, Constants.COORD_MAX, edgeNew_same_x _ _ _ (le_of_lt h),
      edgeNew_lt_x _ _ _ _ h0]

theorem bandInterval_snd (s : Strip) :
    (bandInterval s).2 = (if s.2.1 = s.2.2 then (s.2.1 : ℚ) + 5 / 10 else (s.2.2 : ℚ)) := by
  unfold bandInterval
  simp only [Constants.EPSILON_5]
  by_cases he : s.2.1 = s.2.2
  · simp [he]
  · have he' : ¬ (s.2.1 : ℚ) = (s.2.2 : ℚ) := by exact_mod_cast he
    simp [he, he']

theorem sweepLoop_tail_zero (ss : List (Int × Int)) (t : Int) (ht : t ≤ 0) (m n : Nat)
    (hmn : m ≤ n) (h : ∀ i : Nat, m < i → i ≤ n → mapGet ss (i : Int) = 0) :
    sweepLoop ss t n = sweepLoop ss t m := by
  induction n with
  | zero =>
    have hm : m = 0 := by omega
    rw [hm]
  | succ n ih =>
    rcases Nat.eq_or_lt_of_le hmn with heq | hlt
    · rw [heq]
    · have hmn1 : m ≤ n := by omega
      rw [sweepLoop_succ, ih hmn1 (fun i hi1 hi2 => h i hi1 (Nat.le_succ_of_le hi2))]
      have hz := h (n + 1) hlt (le_refl _)
      have h0 : mapGet ss ((n + 1 : Nat) : Int) ≥ t := by rw [hz]; exact ht
      unfold sweepStep
      rw [if_pos h0, hz, add_zero]

theorem stripScores_gap :
    stripScores Axis.X (ProblemContext.new gapCrystals gapMines) =
      [((0 : Int), (5 : Int)), ((2 : Int), (7 : Int)), ((1 : Int), (-1 : Int))] := by
  decide

theorem sweep_gap :
    sweep (stripScores Axis.X (ProblemContext.new gapCrystals gapMines)) 0 =
      [((5 : Int), ((0 : Int), (0 : Int))), ((7 : Int), ((2 : Int), (10000 : Int)))] := by
  rw [stripScores_gap]
  unfold sweep
  have htail : ∀ i : Nat, 2 < i → i ≤ Constants.COORD_MAX_INT →
      mapGet [((0 : Int), (5 : Int)), ((2 : Int), (7 : Int)), ((1 : Int), (-1 : Int))]
        (i : Int) = 0 := by
    intro i hi _
    have h0 : ¬ (0 : Int) = (i : Int) := by omega
    have h1 : ¬ (1 : Int) = (i : Int) := by omega
    have h2 : ¬ (2 : Int) = (i : Int) := by omega
    simp [mapGet, mapAt, h0, h1, h2]
  rw [sweepLoop_tail_zero _ 0 (le_refl _) 2 Constants.COORD_MAX_INT (by decide) htail]
  have hpre : sweepLoop
      [((0 : Int), (5 : Int)), ((2 : Int), (7 : Int)), ((1 : Int), (-1 : Int))] 0 2 =
      { valuable_strips := [((5 : Int), ((0 : Int), (0 : Int)))], current_score := 7,
        strip_start := 2 } := by
    decide
  rw [hpre]
  unfold sweepClose
  simp only [Constants.COORD_MAX_INT, Nat.cast_ofNat]
  rfl

/-- C7 (greedy strip selection): for every input, axis and threshold, with n
candidate strips the selection loop takes the first min(250, n) strips of the
descending order; the score of the polygon is the sum of their scores, which is
the sum of the min(250, n) largest candidate scores and is at least the total
score of any collection of at most 250 candidate strips; the polygon has
exactly four edges per strip taken, and its edges are exactly the four sides
of the bands of the strips taken: for the strip [s, e] along the axis, with
e2 = e when s < e and e2 = s + 0.5 when s = e, the two sides at s and at e2
running from 0 to 10000 across the other axis and the two sides from s to e2
at 0 and at 10000; the four sides of a band are distinct and are the four
edges the code inserts for it. -/
theorem strip_greedy_selection (crystals mines : List Node) (axis : Axis) (threshold : Int) :
    ((sortStripsDesc (sweep (stripScores axis (ProblemContext.new crystals mines))
        threshold)).take 250).length =
      min 250 (sweep (stripScores axis (ProblemContext.new crystals mines)) threshold).length ∧
    ((sortStripsDesc (sweep (stripScores axis (ProblemContext.new crystals mines))
        threshold)).take 250).Subperm
      (sweep (stripScores axis (ProblemContext.new crystals mines)) threshold) ∧
    (stripPolygon axis (ProblemContext.new crystals mines) threshold).score =
      (((sortStripsDesc (sweep (stripScores axis (ProblemContext.new crystals mines))
        threshold)).take 250).map Prod.fst).sum ∧
    (stripPolygon axis (ProblemContext.new crystals mines) threshold).score =
      largestSum
        (min 250 (sweep (stripScores axis (ProblemContext.new crystals mines)) threshold).length)
        ((sweep (stripScores axis (ProblemContext.new crystals mines)) threshold).map Prod.fst) ∧
    (∀ sub : List Strip,
      sub.Subperm (sweep (stripScores axis (ProblemContext.new crystals mines)) threshold) →
      sub.length ≤ 250 →
      (sub.map Prod.fst).sum ≤
        (stripPolygon axis (ProblemContext.new crystals mines) threshold).score) ∧
    (∀ e : Edge, e ∈ (stripPolygon axis (ProblemContext.new crystals mines) threshold).edges ↔
      ∃ s ∈ (sortStripsDesc (sweep (stripScores axis (ProblemContext.new crystals mines))
        threshold)).take 250, e ∈ bandEdges axis s) ∧
    (stripPolygon axis (ProblemContext.new crystals mines) threshold).edges.length =
      4 * ((sortStripsDesc (sweep (stripScores axis (ProblemContext.new crystals mines))
        threshold)).take 250).length ∧
    (∀ s ∈ ((sortStripsDesc (sweep (stripScores axis (ProblemContext.new crystals mines))
        threshold)).take 250),
      (bandInterval s).1 = (s.2.1 : ℚ) ∧
      (bandInterval s).2 = (if s.2.1 = s.2.2 then (s.2.1 : ℚ) + 5 / 10 else (s.2.2 : ℚ)) ∧
      (bandInterval s).1 < (bandInterval s).2 ∧
      bandEdges axis s = bandSides axis s ∧
      (bandSides axis s).Nodup ∧
      ∀ e ∈ bandSides axis s,
        e ∈ (stripPolygon axis (ProblemContext.new crystals mines) threshold).edges) ∧
    (∀ e : Edge, e ∈ (stripPolygon axis (ProblemContext.new crystals mines) threshold).edges ↔
      ∃ s ∈ ((sortStripsDesc (sweep (stripScores axis (ProblemContext.new crystals mines))
        threshold)).take 250), e ∈ bandSides axis s) := by
  have hbands := (chosen_bands (stripScores axis (ProblemContext.new crystals mines)) threshold).1
  generalize hc : sweep (stripScores axis (ProblemContext.new crystals mines)) threshold = cands
    at hbands
  have hpos : ∀ s ∈ cands, 0 < s.1 := by
    rw [← hc]; exact sweep_strips_pos _ _
  have hperm := sortStripsDesc_perm cands
  have hchosen : ∀ s ∈ (sortStripsDesc cands).take 250, 0 < s.1 :=
    fun s hs => hpos s (hperm.mem_iff.mp (List.mem_of_mem_take hs))
  have hpoly : stripPolygon axis (ProblemContext.new crystals mines) threshold =
      ((sortStripsDesc cands).take 250).foldl (addBand axis) { score := 0, edges := [] } := by
    unfold stripPolygon
    simp only [hc]
    exact takeStrips_eq_foldl axis _ _ hchosen
  have hscore : (stripPolygon axis (ProblemContext.new crystals mines) threshold).score =
      (((sortStripsDesc cands).take 250).map Prod.fst).sum := by
    rw [hpoly, foldl_addBand_score]
    simp
  have hlargest : (((sortStripsDesc cands).take 250).map Prod.fst).sum =
      largestSum 250 (cands.map Prod.fst) := by
    unfold largestSum
    rw [List.map_take, sortStripsDesc_scores]
  have hnn : ∀ x ∈ cands.map Prod.fst, (0 : Int) ≤ x := by
    intro x hx
    obtain ⟨s, hs, rfl⟩ := List.mem_map.mp hx
    exact le_of_lt (hpos s hs)
  refine ⟨?_, ?_, hscore, ?_, ?_, ?_, ?_, ?_, ?_⟩
  · rw [List.length_take, hperm.length_eq]
  · exact (List.take_sublist _ _).subperm.trans hperm.subperm
  · rw [hscore, hlargest]
    unfold largestSum
    have htake : List.take 250 ((cands.map Prod.fst).insertionSort (fun a b => b ≤ a)) =
        List.take (min 250 cands.length)
          ((cands.map Prod.fst).insertionSort (fun a b => b ≤ a)) := by
      rw [List.take_eq_take, List.length_insertionSort, List.length_map]
      omega
    rw [htake]
  · intro sub hsub hlen
    rw [hscore, hlargest]
    have hsub' : (sub.map Prod.fst).Subperm (cands.map Prod.fst) := by
      obtain ⟨l, hl1, hl2⟩ := hsub
      exact ⟨l.map Prod.fst, hl1.map _, hl2.map _⟩
    exact sum_subperm_le_largestSum _ _ hnn hsub' 250 (by rw [List.length_map]; exact hlen)
  · intro e
    rw [hpoly, mem_foldl_addBand]
    simp
  · have hlen := stripPolygon_edges_length axis (ProblemContext.new crystals mines) threshold
    rw [hc] at hlen
    exact hlen
  · intro s hs
    have hb := hbands s hs
    refine ⟨rfl, bandInterval_snd s, hb, bandEdges_eq_bandSides axis s hb, ?_, ?_⟩
    · rw [← bandEdges_eq_bandSides axis s hb]
      exact bandEdges_nodup axis s hb
    · intro e he
      rw [hpoly, mem_foldl_addBand]
      rw [← bandEdges_eq_bandSides axis s hb] at he
      exact Or.inl ⟨s, hs, he⟩
  · intro e
    rw [hpoly, mem_foldl_addBand]
    constructor
    · rintro (⟨s, hs, he⟩ | he)
      · exact ⟨s, hs, by rw [← bandEdges_eq_bandSides axis s (hbands s hs)]; exact he⟩
      · simp at he
    · rintro ⟨s, hs, he⟩
      rw [← bandEdges_eq_bandSides axis s (hbands s hs)] at he
      exact Or.inl ⟨s, hs, he⟩

theorem chosen_gap :
    (sortStripsDesc
      [((5 : Int), ((0 : Int), (0 : Int))), ((7 : Int), ((2 : Int), (10000 : Int)))]).take 250 =
      [((7 : Int), ((2 : Int), (10000 : Int))), ((5 : Int), ((0 : Int), (0 : Int)))] := by
  decide

theorem bandSides_gap (e : Edge) :
    (∃ s ∈ [((7 : Int), ((2 : Int), (10000 : Int))), ((5 : Int), ((0 : Int), (0 : Int)))],
      e ∈ bandSides Axis.X s) ↔
    e ∈ ([ { p1 := ⟨2, 0⟩, p2 := ⟨2, 10000⟩ }, { p1 := ⟨10000, 0⟩, p2 := ⟨10000, 10000⟩ },
           { p1 := ⟨2, 0⟩, p2 := ⟨10000, 0⟩ }, { p1 := ⟨2, 10000⟩, p2 := ⟨10000, 10000⟩ },
           { p1 := ⟨0, 0⟩, p2 := ⟨0, 10000⟩ }, { p1 := ⟨1 / 2, 0⟩, p2 := ⟨1 / 2, 10000⟩ },
           { p1 := ⟨0, 0⟩, p2 := ⟨1 / 2, 0⟩ }, { p1 := ⟨0, 10000⟩, p2 := ⟨1 / 2, 10000⟩ } ] :
        List Edge) := by
  have hb1 : bandInterval ((7 : Int), ((2 : Int), (10000 : Int))) = ((2 : ℚ), (10000 : ℚ)) := by
    decide!
  have hb2 : bandInterval ((5 : Int), ((0 : Int), (0 : Int))) = ((0 : ℚ), (1 / 2 : ℚ)) := by
    decide!
  simp only [List.mem_cons, List.mem_singleton, List.not_mem_nil, or_false, exists_eq_or_imp,
    exists_eq_left, bandSides, hb1, hb2, or_assoc]

/-- C7, witness: two crystals of values 5 and 7 at the abscissae 0 and 2 with a
mine of value -1 at the abscissa 1 between them, axis X and threshold 0: the
candidate strips are (5, [0, 0]) and (7, [2, 10000]); the strip (5, [0, 0])
alone is a collection of at most 250 candidates, of total 5, below the score 12
of the polygon; the polygon has the eight edges of the bands [2, 10000] and
[0, 0.5]. -/
theorem strip_greedy_selection_witness :
    ([((5 : Int), ((0 : Int), (0 : Int)))] : List Strip).Subperm
      (sweep (stripScores Axis.X (ProblemContext.new gapCrystals gapMines)) 0) ∧
    ([((5 : Int), ((0 : Int), (0 : Int)))] : List Strip).length ≤ 250 ∧
    (([((5 : Int), ((0 : Int), (0 : Int)))] : List Strip).map Prod.fst).sum ≤
      (stripPolygon Axis.X (ProblemContext.new gapCrystals gapMines) 0).score ∧
    sweep (stripScores Axis.X (ProblemContext.new gapCrystals gapMines)) 0 =
      [((5 : Int), ((0 : Int), (0 : Int))), ((7 : Int), ((2 : Int), (10000 : Int)))] ∧
    (stripPolygon Axis.X (ProblemContext.new gapCrystals gapMines) 0).score = 12 ∧
    (stripPolygon Axis.X (ProblemContext.new gapCrystals gapMines) 0).edges.length = 8 ∧
    (∀ e : Edge, e ∈ (stripPolygon Axis.X (ProblemContext.new gapCrystals gapMines) 0).edges ↔
      e ∈ ([ { p1 := ⟨2, 0⟩, p2 := ⟨2, 10000⟩ }, { p1 := ⟨10000, 0⟩, p2 := ⟨10000, 10000⟩ },
             { p1 := ⟨2, 0⟩, p2 := ⟨10000, 0⟩ }, { p1 := ⟨2, 10000⟩, p2 := ⟨10000, 10000⟩ },
             { p1 := ⟨0, 0⟩, p2 := ⟨0, 10000⟩ }, { p1 := ⟨1 / 2, 0⟩, p2 := ⟨1 / 2, 10000⟩ },
             { p1 := ⟨0, 0⟩, p2 := ⟨1 / 2, 0⟩ }, { p1 := ⟨0, 10000⟩, p2 := ⟨1 / 2, 10000⟩ } ] :
          List Edge)) := by
  have h := strip_greedy_selection gapCrystals gapMines Axis.X 0
  rw [sweep_gap, chosen_gap] at h
  obtain ⟨_, _, hscore, _, hmax, _, hlen, _, hedges⟩ := h
  have hsub : ([((5 : Int), ((0 : Int), (0 : Int)))] : List Strip).Subperm
      [((5 : Int), ((0 : Int), (0 : Int))), ((7 : Int), ((2 : Int), (10000 : Int)))] :=
    (List.Sublist.cons₂ _ (List.nil_sublist _)).subperm
  refine ⟨sweep_gap ▸ hsub, by decide, hmax _ hsub (by decide), sweep_gap, ?_, ?_, ?_⟩
  · rw [hscore]; decide
  · rw [hlen]; rfl
  · intro e
    rw [hedges e]
    exact bandSides_gap e

end Containment
